import Mathlib

/-!
Verification of the review/rating consistency subsystem of a small
marketplace web application (Next.js + MongoDB).

The development shallowly embeds the relevant route handlers:

* `app/api/reviews/route.ts`       (POST: submit a review, helper `updateItemRating`
                                    and `updateUserRating` in their "robust" form that
                                    filters malformed ratings)
* `app/api/reviews/[id]/route.ts`  (GET / DELETE / PUT on a single review, helpers in
                                    their "simple" form that sums `review.rating`
                                    directly with JavaScript `+`)
* `app/api/items/[id]/route.ts`    (DELETE: cascade deletion of an item)
* `app/api/users/[username]/route.ts` (DELETE: cascade deletion of a user)

Modelling conventions:

* MongoDB collections are Lean lists of documents; `findOne` is `List.find?`
  (first match), `updateOne` updates the first matching document and reports
  whether the document actually changed (`modifiedCount`), `deleteOne` erases
  the first matching document.
* ObjectIds are natural numbers; usernames are strings.  JavaScript numbers are
  exact rationals (the program only ever produces small decimal values; NaN is
  represented by `Option.none` where it can occur, namely in the stored rating
  field produced by the "simple" aggregation helper).
* The `rating` field of an embedded review document is a JSON value that may be
  a number, a string, or null/undefined/other junk (`RVal.null`); this is what
  the two aggregation helpers in the source dispatch on via `typeof`.
* `Number.prototype.toFixed(1)` followed by `parseFloat` is modelled exactly on
  rationals as rounding to the nearest tenth, ties towards +infinity, exactly
  as the ECMAScript specification of `toFixed` prescribes.
* String-to-number coercion (`parseFloat`, implicit `ToNumber`) is modelled for
  plain decimal literals (optional sign, digits, optional fraction), which is
  the only shape of numeric-looking strings the spec and the data model discuss;
  leading whitespace, exponents, `Infinity` and hex literals are outside the model.
* Irrelevant document fields (price, seller, timestamps, passwords, ...) are
  omitted; they are never read by the review-ledger code being verified.
-/

section ComputableRationals

/-!
Core `Rat` arithmetic (`Rat.add`, `Rat.mul`, ...) is irreducible for the
kernel, so concrete states could not be evaluated by `decide` through it.
The embedding therefore performs its arithmetic with `mkRat`-based operations
(which the kernel reduces) and the bridge lemmas below connect them to the
ordinary field operations on `ℚ` for the symbolic proofs.
-/

/-- Kernel-computable addition on `ℚ`. -/
def qadd (a b : ℚ) : ℚ := mkRat (a.num * b.den + b.num * a.den) (a.den * b.den)

/-- Kernel-computable multiplication by an integer on `ℚ`. -/
def qscale (k : ℤ) (q : ℚ) : ℚ := mkRat (k * q.num) q.den

/-- Kernel-computable division of a `ℚ` by a natural number. -/
def qdivNat (a : ℚ) (n : ℕ) : ℚ := mkRat a.num (a.den * n)

/-- Kernel-computable floor of a `ℚ`. -/
def qfloor (q : ℚ) : ℤ := q.num / q.den

/-- Kernel-computable strict comparison on `ℚ`. -/
def qltB (a b : ℚ) : Bool := decide (a.num * (b.den : ℤ) < b.num * (a.den : ℤ))

theorem qadd_eq (a b : ℚ) : qadd a b = a + b := by
  rw [qadd, Rat.mkRat_eq_div]
  have ha : ((a.den : ℚ)) ≠ 0 := by exact_mod_cast a.den_nz
  have hb : ((b.den : ℚ)) ≠ 0 := by exact_mod_cast b.den_nz
  conv_rhs => rw [← Rat.num_div_den a, ← Rat.num_div_den b]
  push_cast
  field_simp

theorem qscale_eq (k : ℤ) (q : ℚ) : qscale k q = (k : ℚ) * q := by
  rw [qscale, Rat.mkRat_eq_div]
  have hq : ((q.den : ℚ)) ≠ 0 := by exact_mod_cast q.den_nz
  conv_rhs => rw [← Rat.num_div_den q]
  push_cast
  field_simp

theorem qdivNat_eq (a : ℚ) (n : ℕ) : qdivNat a n = a / (n : ℚ) := by
  rw [qdivNat, Rat.mkRat_eq_div]
  have ha : ((a.den : ℚ)) ≠ 0 := by exact_mod_cast a.den_nz
  rcases Nat.eq_zero_or_pos n with h | h
  · subst h; simp
  have hn : ((n : ℚ)) ≠ 0 := by positivity
  conv_rhs => rw [← Rat.num_div_den a]
  push_cast
  field_simp

theorem qfloor_eq (q : ℚ) : qfloor q = ⌊q⌋ := (Rat.floor_def).symm

theorem qltB_iff (a b : ℚ) : qltB a b = true ↔ a < b := by
  rw [qltB, decide_eq_true_iff]
  exact Rat.lt_def.symm

end ComputableRationals

/-- A JSON value that can sit in the `rating` field of a stored review:
a JavaScript number (exact rational, NaN excluded — the API never stores NaN
ratings), a string, or null/undefined/other non-numeric junk. -/
inductive RVal where
  | num (q : ℚ)
  | str (s : String)
  | null
deriving DecidableEq, Repr

/-- Decimal digit value of a character, `none` if not a digit. -/
def digit? (c : Char) : Option ℕ :=
  if c.isDigit then some (c.toNat - 48) else none

/-- Split a character list into its leading run of decimal digits and the rest. -/
def takeDigits : List Char → List ℕ × List Char
  | [] => ([], [])
  | c :: cs =>
    match digit? c with
    | some d => let (ds, r) := takeDigits cs; (d :: ds, r)
    | none => ([], c :: cs)

/-- Value of a digit list read as a decimal integer. -/
def digitsVal (ds : List ℕ) : ℕ := ds.foldl (fun a d => 10 * a + d) 0

/-- Value of a digit list read as a decimal number with digits before and
after the point, as an exact rational. -/
def decVal (ds fs : List ℕ) : ℚ :=
  mkRat (digitsVal ds * 10 ^ fs.length + digitsVal fs) (10 ^ fs.length)

/-- Parse an unsigned decimal literal (digits, optionally a point and more
digits) from the front of a character list; returns the value and what is left.
Fails if no digit is present at all. -/
def parseMag (cs : List Char) : Option (ℚ × List Char) :=
  let (ds, r1) := takeDigits cs
  match r1 with
  | '.' :: r2 =>
    let (fs, r3) := takeDigits r2
    if ds.isEmpty && fs.isEmpty then none
    else some (decVal ds fs, r3)
  | _ => if ds.isEmpty then none else some (decVal ds [], r1)

/-- Kernel-computable negation on `ℚ`. -/
def qneg (q : ℚ) : ℚ := mkRat (-q.num) q.den

theorem qneg_eq (q : ℚ) : qneg q = -q := by
  rw [qneg, Rat.mkRat_eq_div]
  conv_rhs => rw [← Rat.num_div_den q]
  push_cast
  ring

/-- Parse an optionally signed decimal literal from the front of a character list. -/
def parseSigned : List Char → Option (ℚ × List Char)
  | '-' :: r => (parseMag r).map (fun p => (qneg p.1, p.2))
  | '+' :: r => parseMag r
  | cs => parseMag cs

/-- JavaScript `parseFloat` on a string (restricted to plain decimal literals):
parses the longest numeric front of the string and ignores the rest;
`none` models NaN (no numeric front at all). -/
def parseFloatJS (s : String) : Option ℚ :=
  (parseSigned s.data).map Prod.fst

/-- JavaScript implicit `ToNumber` coercion of a string (restricted to plain
decimal literals): the whole string must be numeric, the empty string is 0;
`none` models NaN. -/
def toNumberJS (s : String) : Option ℚ :=
  match s.data with
  | [] => some 0
  | cs =>
    match parseSigned cs with
    | some (q, []) => some q
    | _ => none

/-- Rounding to one decimal place as performed by
`parseFloat(x.toFixed(1))` in the source: the nearest multiple of 1/10,
ties resolved towards the larger value. -/
def round1 (q : ℚ) : ℚ := mkRat (qfloor (qadd (qscale 10 q) (mkRat 1 2))) 10

/-- Closed form of `round1` in terms of the ordinary field operations. -/
theorem round1_eq (q : ℚ) : round1 q = (⌊10 * q + 1 / 2⌋ : ℚ) / 10 := by
  have h : qadd (qscale 10 q) (mkRat 1 2) = 10 * q + 1 / 2 := by
    rw [qadd_eq, qscale_eq, Rat.mkRat_eq_div]
    norm_num
  rw [round1, h, qfloor_eq, Rat.mkRat_eq_div]
  norm_num

/-- The per-entry rating extraction of the "robust" aggregation helper
(`updateItemRating` / `updateUserRating` in `app/api/reviews/route.ts` and the
identical copies in `app/api/users/[username]/route.ts` and the user-side
helper of `app/api/items/[id]/route.ts`): a number is taken as is, a string
goes through `parseFloat`, anything else (and a `parseFloat` failure, i.e. NaN)
is discarded. -/
def ratingNum : RVal → Option ℚ
  | .num q => some q
  | .str s => parseFloatJS s
  | .null => none

/-- The "robust" average of a review list's rating values, mirroring the loop
of `updateItemRating` in `app/api/reviews/route.ts`: accumulate the sum and
count of the valid ratings, then divide and round to one decimal place,
defaulting to 0 when there is no valid rating (or no review at all). -/
def robustAvg (l : List RVal) : ℚ :=
  if 0 < l.length then
    let p := l.foldl
      (fun (acc : ℚ × ℕ) v =>
        match ratingNum v with
        | some q => (qadd acc.1 q, acc.2 + 1)
        | none => acc) (0, 0)
    if 0 < p.2 then round1 (qdivNat p.1 p.2) else 0
  else 0

/-- Accumulator of the JavaScript `reduce((total, review) => total + review.rating, 0)`
in the "simple" aggregation helpers of `app/api/reviews/[id]/route.ts`: the running
value is either still a number or has degenerated into a string. -/
inductive JAcc where
  | jnum (q : ℚ)
  | jstr (s : String)
deriving DecidableEq, Repr

/-- JavaScript `ToString` of a number, restricted to the values the program
actually concatenates (integers; a non-integral rational is printed in Lean's
`num/den` form, which never arises from the validated 1..10 integer ratings). -/
def jsToString (q : ℚ) : String :=
  if q.den = 1 then toString q.num else toString q

/-- One step of the JavaScript `+` in the simple helpers' `reduce`:
number + number adds, null coerces to 0 next to a number, and as soon as a
string is involved everything is string concatenation (null printing as "null"). -/
def jsAdd : JAcc → RVal → JAcc
  | .jnum x, .num y => .jnum (qadd x y)
  | .jnum x, .str s => .jstr (jsToString x ++ s)
  | .jnum x, .null => .jnum x
  | .jstr s, .num y => .jstr (s ++ jsToString y)
  | .jstr s, .str t => .jstr (s ++ t)
  | .jstr s, .null => .jstr (s ++ "null")

/-- The "simple" average of a review list's rating values, mirroring
`updateItemRating` / `updateUserRating` in `app/api/reviews/[id]/route.ts`:
`reduce` the raw rating values with JavaScript `+` starting from 0, divide by
the number of reviews, round to one decimal; an empty list yields 0.  The
result is `none` when the computation produces NaN (the sum degenerated into a
non-numeric string). -/
def simpleAvg (l : List RVal) : Option ℚ :=
  if 0 < l.length then
    match l.foldl jsAdd (.jnum 0) with
    | .jnum q => some (round1 (qdivNat q l.length))
    | .jstr s =>
      match toNumberJS s with
      | some q => some (round1 (qdivNat q l.length))
      | none => none
  else some 0

section AggregatorFacts

/-- The fold inside `robustAvg` computes the sum and the count of the valid ratings. -/
theorem robustAvg_foldl (l : List RVal) (a : ℚ) (n : ℕ) :
    l.foldl
      (fun (acc : ℚ × ℕ) v =>
        match ratingNum v with
        | some q => (qadd acc.1 q, acc.2 + 1)
        | none => acc) (a, n)
    = (a + (l.filterMap ratingNum).sum, n + (l.filterMap ratingNum).length) := by
  induction l generalizing a n with
  | nil => simp
  | cons v t ih =>
    cases hv : ratingNum v with
    | none => simp [List.foldl_cons, hv, ih]
    | some q =>
      simp only [List.foldl_cons, hv]
      rw [ih]
      simp only [qadd_eq, List.filterMap_cons, hv, List.sum_cons, List.length_cons,
        Prod.mk.injEq]
      constructor
      · ring
      · omega

/-- Characterisation of `robustAvg`: it is the one-decimal rounding of the mean
of the valid ratings (numbers taken as is, numeric-looking strings parsed,
everything else filtered out), and 0 when no valid rating exists. -/
theorem robustAvg_eq (l : List RVal) :
    robustAvg l =
      if l.filterMap ratingNum = [] then 0
      else round1 ((l.filterMap ratingNum).sum / ((l.filterMap ratingNum).length : ℚ)) := by
  unfold robustAvg
  rcases l with _ | ⟨v, t⟩
  · simp
  · have hfold := robustAvg_foldl (v :: t) 0 0
    simp only [hfold, Nat.zero_add, zero_add, qdivNat_eq]
    rcases hmt : (v :: t).filterMap ratingNum with _ | ⟨q, u⟩
    · simp [hmt]
    · simp [hmt, List.length_cons, Nat.succ_pos]

end AggregatorFacts

/-! ## Data model

The two MongoDB collections `items` and `users` with their embedded review
arrays, restricted to the fields the review-ledger code reads or writes. -/

/-- An embedded review inside an item's `reviews` array. -/
structure ItemRev where
  rid : ℕ
  username : String
  rating : RVal
  comment : String
deriving DecidableEq, Repr

/-- An embedded review inside a user's `itemReviews` array. -/
structure UserRev where
  rid : ℕ
  itemId : ℕ
  itemName : String
  rating : RVal
  comment : String
deriving DecidableEq, Repr

/-- An `items` collection document.  `rating` is the stored derived average;
`none` models a stored NaN (which only the "simple" aggregation helper can
produce). -/
structure Item where
  iid : ℕ
  name : String
  rating : Option ℚ
  reviewCount : ℤ
  reviews : List ItemRev
deriving DecidableEq, Repr

/-- A `users` collection document. -/
structure User where
  username : String
  averageRating : Option ℚ
  reviewCount : ℤ
  itemReviews : List UserRev
deriving DecidableEq, Repr

/-- The database: the two collections, as lists in natural (insertion) order. -/
structure DB where
  items : List Item
  users : List User
deriving DecidableEq, Repr

/-- Outcome of a route handler, abstracting its HTTP status. -/
inductive Res where
  | created
  | okRes
  | notFound
  | invalid
  | noneModified
  | serverError
deriving DecidableEq, Repr

/-- Abstract trace events recording the side-effect structure of an operation
(which documents were pulled from, when the main record was deleted, and which
entities were re-aggregated, in order). -/
inductive Ev where
  | pullUser (username : String)
  | delItem (iid : ℕ)
  | reaggUser (username : String)
  | reaggItem (iid : ℕ)
deriving DecidableEq, Repr

/-! ## MongoDB primitives on lists -/

/-- Update the first element satisfying `p` (MongoDB `updateOne`: the filter
selects the first matching document in natural order). -/
def updFirst (p : α → Bool) (f : α → α) : List α → List α
  | [] => []
  | x :: xs => if p x then f x :: xs else x :: updFirst p f xs

/-- The `modifiedCount` of an `updateOne`: 1 (true) exactly when a document
matched and the update actually changed it. -/
def modifiedOne [DecidableEq α] (p : α → Bool) (f : α → α) (l : List α) : Bool :=
  match l.find? p with
  | some x => decide (f x ≠ x)
  | none => false

section ListLib

variable {α : Type _} {β : Type _} [BEq β] [LawfulBEq β]

/-- An `updateOne` whose filter matches nothing leaves the collection unchanged. -/
theorem updFirst_eq_of_none {p : α → Bool} {f : α → α} {l : List α}
    (h : ∀ x ∈ l, p x = false) : updFirst p f l = l := by
  induction l with
  | nil => rfl
  | cons x t ih =>
    have hx := h x (List.mem_cons_self x t)
    simp only [updFirst, hx, Bool.false_eq_true, if_false, List.cons.injEq, true_and]
    exact ih (fun y hy => h y (List.mem_cons_of_mem x hy))

/-- A key-preserving `updateOne` does not change the key column. -/
theorem map_updFirst {π : α → γ} {p : α → Bool} {f : α → α}
    (hf : ∀ x, π (f x) = π x) (l : List α) :
    (updFirst p f l).map π = l.map π := by
  induction l with
  | nil => rfl
  | cons x t ih =>
    by_cases hx : p x = true
    · simp [updFirst, hx, hf x]
    · simp [updFirst, hx, ih]

/-- When the key column is duplicate-free, an `updateOne` filtering on a key
is the pointwise update of every (i.e. the at most one) matching document. -/
theorem updFirst_key_eq_map (key : α → β) (k : β) (f : α → α) (l : List α)
    (h : (l.map key).Nodup) :
    updFirst (fun x => key x == k) f l
      = l.map (fun x => if key x == k then f x else x) := by
  induction l with
  | nil => rfl
  | cons x t ih =>
    rw [List.map_cons, List.nodup_cons] at h
    by_cases hx : (key x == k) = true
    · have hk : key x = k := eq_of_beq hx
      have hnone : ∀ y ∈ t, (key y == k) = false := by
        intro y hy
        have hne : key y ≠ k := by
          intro hk2
          exact h.1 (by rw [hk, ← hk2]; exact List.mem_map_of_mem key hy)
        simp [hne]
      have ht : t.map (fun y => if key y == k then f y else y) = t := by
        conv_rhs => rw [← List.map_id t]
        exact List.map_congr_left (fun y hy => by simp [hnone y hy])
      simp only [updFirst, hx, if_true, List.map_cons, ht]
    · simp only [updFirst, hx, Bool.false_eq_true, if_false, List.map_cons, if_neg hx]
      rw [ih h.2]

/-- Variant of `updFirst_key_eq_map` for a filter that conjoins a key match
with an extra condition (the positional-operator filters of PUT). -/
theorem updFirst_keyc_eq_map (key : α → β) (k : β) (c : α → Bool) (f : α → α) (l : List α)
    (h : (l.map key).Nodup) :
    updFirst (fun x => key x == k && c x) f l
      = l.map (fun x => if key x == k && c x then f x else x) := by
  induction l with
  | nil => rfl
  | cons x t ih =>
    rw [List.map_cons, List.nodup_cons] at h
    by_cases hx : (key x == k && c x) = true
    · have hk : key x = k := eq_of_beq (Bool.and_elim_left hx)
      have hnone : ∀ y ∈ t, (key y == k && c y) = false := by
        intro y hy
        have hne : key y ≠ k := by
          intro hk2
          exact h.1 (by rw [hk, ← hk2]; exact List.mem_map_of_mem key hy)
        simp [hne]
      have ht : t.map (fun y => if key y == k && c y then f y else y) = t := by
        conv_rhs => rw [← List.map_id t]
        exact List.map_congr_left (fun y hy => by simp [hnone y hy])
      simp only [updFirst, hx, if_true, List.map_cons, ht]
    · simp only [updFirst, hx, Bool.false_eq_true, if_false, List.map_cons, if_neg hx]
      rw [ih h.2]

omit [LawfulBEq β] in
/-- `findOne` by key through a key-preserving pointwise update. -/
theorem find?_key_map (key : α → β) (k : β) (g : α → α)
    (hg : ∀ x, key (g x) = key x) (l : List α) :
    (l.map g).find? (fun x => key x == k) = (l.find? (fun x => key x == k)).map g := by
  induction l with
  | nil => rfl
  | cons x t ih =>
    by_cases hx : (key x == k) = true
    · have hgx : (key (g x) == k) = true := by rw [hg]; exact hx
      rw [List.map_cons,
        @List.find?_cons_of_pos _ (fun x => key x == k) (g x) (t.map g) hgx,
        @List.find?_cons_of_pos _ (fun x => key x == k) x t hx, Option.map_some']
    · have hgx : ¬(key (g x) == k) = true := by rw [hg]; exact hx
      rw [List.map_cons,
        @List.find?_cons_of_neg _ (fun x => key x == k) (g x) (t.map g) hgx,
        @List.find?_cons_of_neg _ (fun x => key x == k) x t hx, ih]

/-- With a duplicate-free key column, `findOne` by the key of a member
document retrieves exactly that document. -/
theorem find?_key_of_mem {key : α → β} {l : List α} {x : α}
    (h : (l.map key).Nodup) (hx : x ∈ l) :
    l.find? (fun y => key y == key x) = some x := by
  induction l with
  | nil => cases hx
  | cons y t ih =>
    rw [List.map_cons, List.nodup_cons] at h
    rcases List.mem_cons.mp hx with rfl | hxt
    · exact @List.find?_cons_of_pos _ (fun y => key y == key x) x t (beq_self_eq_true _)
    · have hne : ¬(key y == key x) = true := by
        intro hk
        exact h.1 (by rw [eq_of_beq hk]; exact List.mem_map_of_mem key hxt)
      rw [@List.find?_cons_of_neg _ (fun y => key y == key x) y t hne]
      exact ih h.2 hxt

/-- With a duplicate-free key column, `deleteOne` by key deletes every
(i.e. the at most one) matching document. -/
theorem eraseP_key_eq_filter (key : α → β) (k : β) (l : List α)
    (h : (l.map key).Nodup) :
    l.eraseP (fun x => key x == k) = l.filter (fun x => !(key x == k)) := by
  induction l with
  | nil => rfl
  | cons x t ih =>
    rw [List.map_cons, List.nodup_cons] at h
    by_cases hx : (key x == k) = true
    · have hk : key x = k := eq_of_beq hx
      have hnone : ∀ y ∈ t, (!(key y == k)) = true := by
        intro y hy
        have hne : key y ≠ k := by
          intro hk2
          exact h.1 (by rw [hk, ← hk2]; exact List.mem_map_of_mem key hy)
        simp [hne]
      rw [@List.eraseP_cons_of_pos _ x t (fun x => key x == k) hx]
      rw [show List.filter (fun x => !(key x == k)) (x :: t)
            = List.filter (fun x => !(key x == k)) t from by simp [List.filter_cons, hx]]
      rw [List.filter_eq_self.mpr hnone]
    · rw [@List.eraseP_cons_of_neg _ x t (fun x => key x == k) hx]
      rw [show List.filter (fun x => !(key x == k)) (x :: t)
            = x :: List.filter (fun x => !(key x == k)) t from by simp [List.filter_cons, hx]]
      rw [ih h.2]

/-- The key column of a pointwise key-preserving map is unchanged. -/
theorem map_key_map {γ : Type _} {key : α → γ} {g : α → α}
    (hg : ∀ x, key (g x) = key x) (l : List α) :
    (l.map g).map key = l.map key := by
  rw [List.map_map]
  exact List.map_congr_left (fun x _ => hg x)

end ListLib

/-- `findOne({_id: i})` on the `items` collection. -/
def getItem (db : DB) (i : ℕ) : Option Item :=
  db.items.find? (fun it => it.iid == i)

/-- `findOne({username: u})` on the `users` collection. -/
def getUser (db : DB) (u : String) : Option User :=
  db.users.find? (fun us => us.username == u)

/-! ## The aggregation-and-persist helpers -/

/-- The helper `updateItemRating` of `app/api/reviews/route.ts` (identical
copy in `app/api/users/[username]/route.ts`): re-read the item, average its
reviews' ratings robustly, store the result in the item's `rating` field. -/
def updateItemRatingRobust (db : DB) (i : ℕ) : DB :=
  match getItem db i with
  | none => db
  | some item =>
    let avg := robustAvg (item.reviews.map (·.rating))
    ⟨updFirst (fun it => it.iid == i) (fun it => { it with rating := some avg }) db.items,
     db.users⟩

/-- The helper `updateUserRating` of `app/api/reviews/route.ts` (identical
copy in the first half of `app/api/items/[id]/route.ts`). -/
def updateUserRatingRobust (db : DB) (u : String) : DB :=
  match getUser db u with
  | none => db
  | some user =>
    let avg := robustAvg (user.itemReviews.map (·.rating))
    ⟨db.items,
     updFirst (fun us => us.username == u)
       (fun us => { us with averageRating := some avg }) db.users⟩

/-- The helper `updateItemRating` of `app/api/reviews/[id]/route.ts`, which
sums `review.rating` directly with JavaScript `+`. -/
def updateItemRatingSimple (db : DB) (i : ℕ) : DB :=
  match getItem db i with
  | none => db
  | some item =>
    let avg := simpleAvg (item.reviews.map (·.rating))
    ⟨updFirst (fun it => it.iid == i) (fun it => { it with rating := avg }) db.items,
     db.users⟩

/-- The helper `updateUserRating` of `app/api/reviews/[id]/route.ts`. -/
def updateUserRatingSimple (db : DB) (u : String) : DB :=
  match getUser db u with
  | none => db
  | some user =>
    let avg := simpleAvg (user.itemReviews.map (·.rating))
    ⟨db.items,
     updFirst (fun us => us.username == u)
       (fun us => { us with averageRating := avg }) db.users⟩

/-! ## The review routes -/

/-- POST `/api/reviews` (`app/api/reviews/route.ts`): submit a review.
`freshId` stands for the freshly minted `new ObjectId().toString()`; its
global uniqueness is the database driver's guarantee and is supplied as a
hypothesis where needed.  The authentication check and the ObjectId format
check of the route are outside the model (the caller is authenticated and ids
are well formed); the falsy-field check `!reviewData[field]` keeps its two
observable cases, an empty username and a zero rating. -/
def postReview (db : DB) (itemId : ℕ) (username : String) (rating : ℚ)
    (comment : Option String) (freshId : ℕ) : DB × Res :=
  if username == "" || rating == 0 then (db, .invalid)
  else if qltB rating 1 || qltB 10 rating then (db, .invalid)
  else
    match getItem db itemId with
    | none => (db, .notFound)
    | some item =>
      match getUser db username with
      | none => (db, .notFound)
      | some _user =>
        let existing? := db.items.find? (fun it =>
          it.iid == itemId && it.reviews.any (fun r => r.username == username))
        let itemReview : ItemRev := ⟨freshId, username, .num rating, comment.getD ""⟩
        let userReview : UserRev := ⟨freshId, itemId, item.name, .num rating, comment.getD ""⟩
        let db1 : DB :=
          match existing? with
          | some exIt =>
            match exIt.reviews.find? (fun r => r.username == username) with
            | some exRev =>
              ⟨updFirst (fun it => it.iid == itemId)
                 (fun it => { it with
                   reviews := it.reviews.filter (fun r => !(r.rid == exRev.rid)) }) db.items,
               updFirst (fun us => us.username == username)
                 (fun us => { us with
                   itemReviews := us.itemReviews.filter (fun e => !(e.rid == exRev.rid)) }) db.users⟩
            | none => db
          | none =>
            ⟨updFirst (fun it => it.iid == itemId)
               (fun it => { it with reviewCount := it.reviewCount + 1 }) db.items,
             updFirst (fun us => us.username == username)
               (fun us => { us with reviewCount := us.reviewCount + 1 }) db.users⟩
        let db2 : DB :=
          ⟨updFirst (fun it => it.iid == itemId)
             (fun it => { it with reviews := it.reviews ++ [itemReview] }) db1.items,
           updFirst (fun us => us.username == username)
             (fun us => { us with itemReviews := us.itemReviews ++ [userReview] }) db1.users⟩
        let db3 := updateItemRatingRobust db2 itemId
        let db4 := updateUserRatingRobust db3 username
        (db4, .created)

/-- GET `/api/reviews/[id]`: look a review up by identifier, searching the
items collection first and the users collection only as a fallback. -/
inductive FoundRev where
  | fromItem (itemId : ℕ) (itemName : String) (r : ItemRev)
  | fromUser (username : String) (e : UserRev)
deriving DecidableEq, Repr

/-- GET `/api/reviews/[id]` (`app/api/reviews/[id]/route.ts`). -/
def getReview (db : DB) (id : ℕ) : Option FoundRev :=
  let fromItems :=
    (db.items.find? (fun it => it.reviews.any (fun r => r.rid == id))).bind
      (fun it => (it.reviews.find? (fun r => r.rid == id)).map
        (fun r => FoundRev.fromItem it.iid it.name r))
  match fromItems with
  | some f => some f
  | none =>
    (db.users.find? (fun us => us.itemReviews.any (fun e => e.rid == id))).bind
      (fun us => (us.itemReviews.find? (fun e => e.rid == id)).map
        (fun e => FoundRev.fromUser us.username e))

/-- The `$pull`-and-`$inc` item update of DELETE `/api/reviews/[id]`. -/
def delItemDoc (id : ℕ) (it : Item) : Item :=
  { it with
    reviews := it.reviews.filter (fun r => !(r.rid == id)),
    reviewCount := it.reviewCount - 1 }

/-- The `$pull`-and-`$inc` user update of DELETE `/api/reviews/[id]`. -/
def delUserDoc (id : ℕ) (us : User) : User :=
  { us with
    itemReviews := us.itemReviews.filter (fun e => !(e.rid == id)),
    reviewCount := us.reviewCount - 1 }

/-- DELETE `/api/reviews/[id]` (`app/api/reviews/[id]/route.ts`): locate the
review through the items collection, pull it and decrement `reviewCount` on
both sides, report 400 only when neither write modified anything, then
re-aggregate both sides with the simple helpers. -/
def deleteReview (db : DB) (id : ℕ) : DB × Res :=
  match db.items.find? (fun it => it.reviews.any (fun r => r.rid == id)) with
  | none => (db, .notFound)
  | some itemW =>
    match itemW.reviews.find? (fun r => r.rid == id) with
    | none => (db, .notFound)
    | some review =>
      let username := review.username
      let itemId := itemW.iid
      let itemMod := modifiedOne (fun it => it.iid == itemId) (delItemDoc id) db.items
      let userMod := modifiedOne (fun us => us.username == username) (delUserDoc id) db.users
      let db1 : DB := ⟨updFirst (fun it => it.iid == itemId) (delItemDoc id) db.items,
                       updFirst (fun us => us.username == username) (delUserDoc id) db.users⟩
      if !itemMod && !userMod then (db1, .noneModified)
      else
        let db2 := updateItemRatingSimple db1 itemId
        let db3 := updateUserRatingSimple db2 username
        (db3, .okRes)

/-- The `$set` applied by PUT `/api/reviews/[id]` to an embedded item-side review. -/
def setItemRevFields (rating? : Option ℚ) (comment? : Option String) (r : ItemRev) : ItemRev :=
  { r with
    rating := match rating? with | some q => RVal.num q | none => r.rating,
    comment := comment?.getD r.comment }

/-- The `$set` applied by PUT `/api/reviews/[id]` to an embedded user-side review. -/
def setUserRevFields (rating? : Option ℚ) (comment? : Option String) (e : UserRev) : UserRev :=
  { e with
    rating := match rating? with | some q => RVal.num q | none => e.rating,
    comment := comment?.getD e.comment }

/-- The item-document update of PUT: positional `$set` on the first embedded
review matching the identifier. -/
def putItemDoc (id : ℕ) (rating? : Option ℚ) (comment? : Option String) (it : Item) : Item :=
  { it with reviews := updFirst (fun r => r.rid == id) (setItemRevFields rating? comment?) it.reviews }

/-- The user-document update of PUT. -/
def putUserDoc (id : ℕ) (rating? : Option ℚ) (comment? : Option String) (us : User) : User :=
  { us with itemReviews := updFirst (fun e => e.rid == id) (setUserRevFields rating? comment?) us.itemReviews }

/-- The item filter of PUT: the document with the given `_id` that also
contains a review with the target identifier (required by the positional operator). -/
def putItemFilter (itemId id : ℕ) (it : Item) : Bool :=
  it.iid == itemId && it.reviews.any (fun r => r.rid == id)

/-- The user filter of PUT. -/
def putUserFilter (username : String) (id : ℕ) (us : User) : Bool :=
  us.username == username && us.itemReviews.any (fun e => e.rid == id)

/-- PUT `/api/reviews/[id]` (`app/api/reviews/[id]/route.ts`): validate the
optional fields, locate the review through the items collection, apply the
same `$set` to the first matching embedded copy on each side (the positional
`$` operator), report 400 only when neither write modified anything, and
re-aggregate both sides (simple helpers) exactly when a rating was supplied.
The trace records the re-aggregation events. -/
def putReview (db : DB) (id : ℕ) (rating? : Option ℚ) (comment? : Option String) :
    DB × List Ev × Res :=
  let badRating :=
    match rating? with
    | some q => qltB q 1 || qltB 10 q
    | none => false
  if badRating then (db, [], .invalid)
  else if rating?.isNone && comment?.isNone then (db, [], .invalid)
  else
    match db.items.find? (fun it => it.reviews.any (fun r => r.rid == id)) with
    | none => (db, [], .notFound)
    | some itemW =>
      match itemW.reviews.find? (fun r => r.rid == id) with
      | none => (db, [], .notFound)
      | some review =>
        let username := review.username
        let itemId := itemW.iid
        let pItem := putItemFilter itemId id
        let pUser := putUserFilter username id
        let fItem := putItemDoc id rating? comment?
        let fUser := putUserDoc id rating? comment?
        let itemMod := modifiedOne pItem fItem db.items
        let userMod := modifiedOne pUser fUser db.users
        let db1 : DB := ⟨updFirst pItem fItem db.items, updFirst pUser fUser db.users⟩
        if !itemMod && !userMod then (db1, [], .noneModified)
        else if rating?.isSome then
          let db2 := updateItemRatingSimple db1 itemId
          let db3 := updateUserRatingSimple db2 username
          (db3, [.reaggItem itemId, .reaggUser username], .okRes)
        else (db1, [], .okRes)

/-- Pull a user's review-by-user entries for a given item and decrement the
user's `reviewCount` (the per-user write of the item-deletion cascade). -/
def pullDecUser (id : ℕ) (us : User) : User :=
  { us with
    itemReviews := us.itemReviews.filter (fun e => !(e.itemId == id)),
    reviewCount := us.reviewCount - 1 }

/-- One iteration of the item-deletion cascade's review loop. -/
def cascadeStep (id : ℕ) (acc : DB × List String × List Ev) (r : ItemRev) :
    DB × List String × List Ev :=
  if r.username == "" then acc
  else
    let names := if r.username ∈ acc.2.1 then acc.2.1 else acc.2.1 ++ [r.username]
    (⟨acc.1.items,
      updFirst (fun us => us.username == r.username) (pullDecUser id) acc.1.users⟩,
     names, acc.2.2 ++ [Ev.pullUser r.username])

/-- DELETE `/api/items/[id]` (`app/api/items/[id]/route.ts`): for each
embedded review with a truthy username, record the username in the
`usersToUpdate` set (insertion order) and pull the user's review-by-user
entries matching on `itemId` while decrementing that user's `reviewCount`;
then delete the item document; then re-aggregate each recorded user once.
The trace records pulls, the item deletion and the re-aggregations in
execution order. -/
def deleteItem (db : DB) (id : ℕ) : DB × List Ev × Res :=
  match getItem db id with
  | none => (db, [], .notFound)
  | some existingItem =>
    let a := existingItem.reviews.foldl (cascadeStep id) (db, [], [])
    let db1 := a.1
    let affected := a.2.1
    let evs1 := a.2.2
    let deleted := db1.items.any (fun it => it.iid == id)
    let db2 : DB := ⟨db1.items.eraseP (fun it => it.iid == id), db1.users⟩
    if deleted then
      let b := affected.foldl
        (fun (acc : DB × List Ev) u =>
          (updateUserRatingRobust acc.1 u, acc.2 ++ [Ev.reaggUser u]))
        (db2, evs1 ++ [Ev.delItem id])
      (b.1, b.2, .okRes)
    else (db2, evs1, .noneModified)

/-- Pull an item's reviews by a given reviewer and decrement the item's
`reviewCount` (the per-item write of the user-deletion cascade). -/
def pullDecItem (username : String) (it : Item) : Item :=
  { it with
    reviews := it.reviews.filter (fun r => !(r.username == username)),
    reviewCount := it.reviewCount - 1 }

/-- One iteration of the user-deletion cascade's review loop. -/
def cascadeStepU (username : String) (acc : DB × List ℕ) (e : UserRev) : DB × List ℕ :=
  let ids := if e.itemId ∈ acc.2 then acc.2 else acc.2 ++ [e.itemId]
  (⟨updFirst (fun it => it.iid == e.itemId) (pullDecItem username) acc.1.items,
    acc.1.users⟩, ids)

/-- DELETE `/api/users/[username]` (`app/api/users/[username]/route.ts`): for
each review-by-user entry, record its item id in the `itemsToUpdate` set and
pull the item's reviews matching on the reviewer's username while
decrementing the item's `reviewCount`; then delete the user document; then
re-aggregate each recorded item once (with the robust helper, which this file
contains).  Stored item ids are never-falsy ObjectId strings, so the truthy
guard of the set insertion is always taken. -/
def deleteUser (db : DB) (username : String) : DB × Res :=
  match getUser db username with
  | none => (db, .notFound)
  | some user =>
    let a := user.itemReviews.foldl (cascadeStepU username) (db, [])
    let db1 := a.1
    let affected := a.2
    let deleted := db1.users.any (fun us => us.username == username)
    let db2 : DB := ⟨db1.items, db1.users.eraseP (fun us => us.username == username)⟩
    if deleted then
      (affected.foldl (fun d i => updateItemRatingRobust d i) db2, .okRes)
    else (db2, .serverError)

/-! ## Well-formedness and consistency invariants -/

/-- A stored rating value is a number within the validated range. -/
def ratingOK : RVal → Bool
  | .num q => !(qltB q 1) && !(qltB 10 q)
  | _ => false

theorem qltB_eq_decide (a b : ℚ) : qltB a b = decide (a < b) := by
  by_cases h : a < b
  · simp [h, (qltB_iff a b).mpr h]
  · cases hb : qltB a b
    · simp [h]
    · exact absurd ((qltB_iff a b).mp hb) h

theorem ratingOK_iff (v : RVal) :
    ratingOK v = true ↔ ∃ q : ℚ, v = RVal.num q ∧ 1 ≤ q ∧ q ≤ 10 := by
  cases v with
  | num q =>
    rw [show ratingOK (RVal.num q) = (!qltB q 1 && !qltB 10 q) from rfl,
      qltB_eq_decide, qltB_eq_decide]
    simp only [Bool.and_eq_true, Bool.not_eq_true', decide_eq_false_iff_not, not_lt]
    constructor
    · rintro ⟨h1, h2⟩
      exact ⟨q, rfl, h1, h2⟩
    · rintro ⟨q2, hq2, h1, h2⟩
      cases hq2
      exact ⟨h1, h2⟩
  | str s => simp [ratingOK]
  | null => simp [ratingOK]

/-- Structural well-formedness of a database state: unique document keys,
duplicate-free review identifiers (per embedded list and across items), the
at-most-one-review-per-pair shape on both sides, the bidirectional mirror
between the two denormalized copies, and validity of the stored review fields
(non-empty reviewer, numeric rating in `[1,10]`). -/
structure WF (db : DB) : Prop where
  itemsNodup : (db.items.map (·.iid)).Nodup
  usersNodup : (db.users.map (·.username)).Nodup
  itemRidsNodup : ∀ it ∈ db.items, (it.reviews.map (·.rid)).Nodup
  userRidsNodup : ∀ us ∈ db.users, (us.itemReviews.map (·.rid)).Nodup
  ridsCross : ∀ it ∈ db.items, ∀ it' ∈ db.items, ∀ r ∈ it.reviews, ∀ r' ∈ it'.reviews,
    r.rid = r'.rid → it.iid = it'.iid
  pairUnique : ∀ it ∈ db.items, (it.reviews.map (·.username)).Nodup
  userPairUnique : ∀ us ∈ db.users, (us.itemReviews.map (·.itemId)).Nodup
  mirrorFwd : ∀ it ∈ db.items, ∀ r ∈ it.reviews, ∃ us ∈ db.users,
    us.username = r.username ∧
    ∃ e ∈ us.itemReviews, e.rid = r.rid ∧ e.itemId = it.iid ∧ e.rating = r.rating
  mirrorBwd : ∀ us ∈ db.users, ∀ e ∈ us.itemReviews, ∃ it ∈ db.items,
    it.iid = e.itemId ∧
    ∃ r ∈ it.reviews, r.rid = e.rid ∧ r.username = us.username ∧ r.rating = e.rating
  revFields : ∀ it ∈ db.items, ∀ r ∈ it.reviews, r.username ≠ "" ∧ ratingOK r.rating = true

/-- Aggregate consistency at rest: each stored derived `rating` /
`averageRating` is the (robust) aggregate of the corresponding embedded list,
and each `reviewCount` is that list's length. -/
def Consistent (db : DB) : Prop :=
  (∀ it ∈ db.items, it.rating = some (robustAvg (it.reviews.map (·.rating))) ∧
    it.reviewCount = it.reviews.length) ∧
  (∀ us ∈ db.users, us.averageRating = some (robustAvg (us.itemReviews.map (·.rating))) ∧
    us.reviewCount = us.itemReviews.length)

/-! ## Claims about the aggregation helpers (C3, C9) -/

/-- The JavaScript `reduce` of the simple helpers stays numeric on a list of
numeric ratings and computes the plain sum. -/
theorem jsAdd_foldl_num (l : List RVal) (h : ∀ v ∈ l, ∃ q : ℚ, v = RVal.num q)
    (a : ℚ) : l.foldl jsAdd (.jnum a) = .jnum (a + (l.filterMap ratingNum).sum) := by
  induction l generalizing a with
  | nil => simp
  | cons v t ih =>
    obtain ⟨q, rfl⟩ := h v (List.mem_cons_self v t)
    have ht := ih (fun w hw => h w (List.mem_cons_of_mem _ hw))
    simp only [List.foldl_cons, jsAdd, ht, qadd_eq, List.filterMap_cons, ratingNum,
      List.sum_cons]
    rw [add_assoc]

/-- On a list of numeric ratings every entry is valid, so the valid-rating
list is the whole column. -/
theorem filterMap_ratingNum_length (l : List RVal)
    (h : ∀ v ∈ l, ∃ q : ℚ, v = RVal.num q) :
    (l.filterMap ratingNum).length = l.length := by
  induction l with
  | nil => rfl
  | cons v t ih =>
    obtain ⟨q, rfl⟩ := h v (List.mem_cons_self v t)
    simp only [List.filterMap_cons, ratingNum, List.length_cons]
    rw [ih (fun w hw => h w (List.mem_cons_of_mem _ hw))]

/-- C3: for every review list, the aggregation helper used on submission
filters out malformed entries (null or unparsable ratings, tolerating numeric
text), sums the valid ratings, divides by the valid count and rounds to one
decimal place, returning 0 when no valid entry exists; in particular
`Aggregate([]) = 0` and `Aggregate([5, "7", null]) = 6.0`. -/
theorem c3_aggregate_spec :
    (∀ l : List RVal,
      robustAvg l =
        if l.filterMap ratingNum = [] then 0
        else round1 ((l.filterMap ratingNum).sum / ((l.filterMap ratingNum).length : ℚ)))
    ∧ robustAvg [] = 0
    ∧ robustAvg [RVal.num 5, RVal.str "7", RVal.null] = 6 :=
  ⟨robustAvg_eq, by decide, by decide⟩

/-- C9 is false: the two aggregation helpers disagree on a review list whose
ratings are `5` (a number) and `"7"` (a numeric string).  The robust helper
used after submission parses the string and yields 6.0; the simple helper used
after deletion and update concatenates `"5" + "7" = "57"` under JavaScript `+`
and yields 28.5. -/
theorem c9_counterexample :
    robustAvg [RVal.num 5, RVal.str "7"] = 6 ∧
    simpleAvg [RVal.num 5, RVal.str "7"] = some (mkRat 57 2) ∧
    simpleAvg [RVal.num 5, RVal.str "7"] ≠ some (robustAvg [RVal.num 5, RVal.str "7"]) :=
  ⟨by decide, by decide, by decide⟩

/-- C9 amended: the two aggregation helpers agree on every review list whose
ratings are all JavaScript numbers (in particular on every state the validated
API can produce). -/
theorem c9_agree_on_numeric (l : List RVal)
    (h : ∀ v ∈ l, ∃ q : ℚ, v = RVal.num q) :
    simpleAvg l = some (robustAvg l) := by
  have hsum := jsAdd_foldl_num l h 0
  have hlen := filterMap_ratingNum_length l h
  rw [simpleAvg, robustAvg_eq, hsum]
  rcases l with _ | ⟨v, t⟩
  · simp
  · have hpos : 0 < (v :: t).length := List.length_pos.mpr (by simp)
    have hne : (v :: t).filterMap ratingNum ≠ [] := by
      intro hc
      rw [← List.length_eq_zero, hlen] at hc
      simp at hc
    simp only [hpos, if_true, if_neg hne, zero_add, qdivNat_eq, hlen]

/-- Witness for the amended C9 at a concrete all-numeric list. -/
theorem c9_agree_witness :
    simpleAvg [RVal.num 5, RVal.num 7] = some (robustAvg [RVal.num 5, RVal.num 7]) :=
  c9_agree_on_numeric [RVal.num 5, RVal.num 7]
    (fun v hv => by
      rcases List.mem_cons.mp hv with rfl | hv2
      · exact ⟨5, rfl⟩
      · rcases List.mem_cons.mp hv2 with rfl | hv3
        · exact ⟨7, rfl⟩
        · cases hv3)

/-! ## Claim C10: lookup searches both collections, mutation only the items -/

/-- C10: when a review identifier occurs only in some user's embedded
review-by-user list and in no item, GET finds and returns it (from the user
side), while DELETE and PUT answer NotFound and leave the state unchanged. -/
theorem c10_get_vs_delete_update (db : DB) (id : ℕ)
    (hitem : ∀ it ∈ db.items, ∀ r ∈ it.reviews, r.rid ≠ id)
    (us : User) (e : UserRev) (hus : us ∈ db.users) (he : e ∈ us.itemReviews)
    (heid : e.rid = id) :
    (∃ u' e', getReview db id = some (FoundRev.fromUser u' e') ∧ e'.rid = id) ∧
    deleteReview db id = (db, .notFound) ∧
    (∀ q (c : Option String), (qltB q 1 || qltB 10 q) = false →
      putReview db id (some q) c = (db, [], .notFound)) := by
  have hfromItems : db.items.find? (fun it => it.reviews.any (fun r => r.rid == id)) = none := by
    rw [List.find?_eq_none]
    intro it hit hc
    obtain ⟨r, hr, hrid⟩ := List.any_eq_true.mp hc
    exact hitem it hit r hr (by simpa using hrid)
  refine ⟨?_, ?_, ?_⟩
  · rcases h2 : db.users.find? (fun u => u.itemReviews.any (fun e => e.rid == id)) with _ | us₀
    · rw [List.find?_eq_none] at h2
      exact absurd (List.any_eq_true.mpr ⟨e, he, by simp [heid]⟩) (h2 us hus)
    · have hany := List.find?_some h2
      rcases h3 : us₀.itemReviews.find? (fun e => e.rid == id) with _ | e₀
      · rw [List.find?_eq_none] at h3
        obtain ⟨e', he', hrid'⟩ := List.any_eq_true.mp hany
        exact absurd hrid' (h3 e' he')
      · refine ⟨us₀.username, e₀, ?_, by simpa using List.find?_some h3⟩
        simp [getReview, hfromItems, h2, h3]
  · simp [deleteReview, hfromItems]
  · intro q c hq
    simp [putReview, hq, hfromItems]

/-- Concrete database used by several witnesses: a dangling review-by-user
entry (identifier 1) with no corresponding item. -/
def orphanDb : DB :=
  ⟨[], [⟨"alice", some 8, 1, [⟨1, 5, "Lamp", RVal.num 8, "great"⟩]⟩]⟩

/-- Witness for C10 at `orphanDb`. -/
theorem c10_witness :
    (∃ u' e', getReview orphanDb 1 = some (FoundRev.fromUser u' e') ∧ e'.rid = 1) ∧
    deleteReview orphanDb 1 = (orphanDb, .notFound) ∧
    putReview orphanDb 1 (some 5) none = (orphanDb, [], .notFound) := by
  have h := c10_get_vs_delete_update orphanDb 1 (by decide)
    ⟨"alice", some 8, 1, [⟨1, 5, "Lamp", RVal.num 8, "great"⟩]⟩
    ⟨1, 5, "Lamp", RVal.num 8, "great"⟩ (by decide) (by decide) rfl
  exact ⟨h.1, h.2.1, h.2.2 5 none (by decide)⟩

/-! ## Claim C7: reporting of partial mirrored writes -/

theorem modifiedOne_of_find?_none {α : Type _} [DecidableEq α] {p : α → Bool} {f : α → α}
    {l : List α} (h : l.find? p = none) : modifiedOne p f l = false := by
  simp [modifiedOne, h]

theorem modifiedOne_of_ne {α : Type _} [DecidableEq α] {p : α → Bool} {f : α → α}
    {l : List α} {x : α} (h : l.find? p = some x) (hne : f x ≠ x) :
    modifiedOne p f l = true := by
  simp [modifiedOne, h, hne]

/-- The DELETE item write always changes a matched document (the `$inc`). -/
theorem delItemDoc_ne (id : ℕ) (it : Item) : delItemDoc id it ≠ it := by
  intro h
  have := congrArg Item.reviewCount h
  simp only [delItemDoc] at this
  omega

/-- C7 is false: on a state where the review's item-side copy exists but the
reviewing user's document does not, DELETE's item write modifies its document,
the user write modifies nothing — a partial success — and the operation
reports success, not an error. -/
def partialDb : DB := ⟨[⟨1, "Lamp", some 8, 1, [⟨1, "ghost", RVal.num 8, ""⟩]⟩], []⟩

theorem c7_counterexample :
    (deleteReview partialDb 1).2 = Res.okRes ∧
    modifiedOne (fun it => it.iid == 1) (delItemDoc 1) partialDb.items = true ∧
    modifiedOne (fun us => us.username == "ghost") (delUserDoc 1) partialDb.users = false :=
  ⟨by decide, by decide, by decide⟩

/-- C7 amended: a review operation reports an error only when **neither**
mirrored write modifies its document; a partial success — here the reviewing
user's document is missing, so only the item-side write modifies — is
reported as success by both DELETE and PUT. -/
theorem c7_partial_success_reported_ok (db : DB) (id : ℕ) (itemW : Item) (review : ItemRev)
    (hfind : db.items.find? (fun it => it.reviews.any (fun r => r.rid == id)) = some itemW)
    (hrev : itemW.reviews.find? (fun r => r.rid == id) = some review)
    (huser : getUser db review.username = none) :
    modifiedOne (fun us => us.username == review.username) (delUserDoc id) db.users = false ∧
    (deleteReview db id).2 = Res.okRes ∧
    (∀ q : ℚ, ∀ c : Option String, (qltB q 1 || qltB 10 q) = false →
      modifiedOne (putItemFilter itemW.iid id) (putItemDoc id (some q) c) db.items = true →
      (putReview db id (some q) c).2.2 = Res.okRes) := by
  have husers : db.users.find? (fun us => us.username == review.username) = none := huser
  have hitemMod : modifiedOne (fun it => it.iid == itemW.iid) (delItemDoc id) db.items = true := by
    rcases hx : db.items.find? (fun it => it.iid == itemW.iid) with _ | x
    · rw [List.find?_eq_none] at hx
      exact absurd (by simp) (hx itemW (List.mem_of_find?_eq_some hfind))
    · exact modifiedOne_of_ne hx (delItemDoc_ne id x)
  refine ⟨modifiedOne_of_find?_none husers, ?_, ?_⟩
  · simp only [deleteReview, hfind, hrev, hitemMod, Bool.not_true, Bool.false_and,
      Bool.false_eq_true, if_false]
  · intro q c hq hmod
    simp only [putReview, hq, Option.isNone_some, Bool.false_and, Bool.false_eq_true,
      if_false, hfind, hrev, hmod, Bool.not_true, Option.isSome_some, if_true]

/-- Witness for the amended C7 at `partialDb`. -/
theorem c7_witness :
    modifiedOne (fun us => us.username == "ghost") (delUserDoc 1) partialDb.users = false ∧
    (deleteReview partialDb 1).2 = Res.okRes ∧
    (putReview partialDb 1 (some 5) (some "x")).2.2 = Res.okRes := by
  have h := c7_partial_success_reported_ok partialDb 1
    ⟨1, "Lamp", some 8, 1, [⟨1, "ghost", RVal.num 8, ""⟩]⟩
    ⟨1, "ghost", RVal.num 8, ""⟩ (by decide) (by decide) (by decide)
  exact ⟨h.1, h.2.1, h.2.2 5 (some "x") (by decide) (by decide)⟩

/-! ## Locating documents under well-formedness -/

/-- An `updateOne` that changes its matched document changes the collection. -/
theorem updFirst_ne_of_find? {α : Type _} {p : α → Bool} {f : α → α} {l : List α} {x : α}
    (h : l.find? p = some x) (hne : f x ≠ x) : updFirst p f l ≠ l := by
  induction l with
  | nil => simp at h
  | cons y t ih =>
    by_cases hy : p y = true
    · rw [List.find?_cons_of_pos _ hy] at h
      injection h with h
      subst h
      intro hc
      rw [show updFirst p f (y :: t) = f y :: t from by simp [updFirst, hy]] at hc
      exact hne ((List.cons.injEq ..).mp hc).1
    · rw [List.find?_cons_of_neg _ hy] at h
      intro hc
      rw [show updFirst p f (y :: t) = y :: updFirst p f t from by simp [updFirst, hy]] at hc
      exact ih h ((List.cons.injEq ..).mp hc).2

/-- `find?_key_of_mem` with the key value abstracted. -/
theorem find?_key_of_mem' {α : Type _} {β : Type _} [BEq β] [LawfulBEq β]
    {key : α → β} {l : List α} {x : α} {k : β}
    (h : (l.map key).Nodup) (hx : x ∈ l) (hk : key x = k) :
    l.find? (fun y => key y == k) = some x := by
  subst hk
  exact find?_key_of_mem h hx

/-- Locating a member by key conjoined with a condition it satisfies. -/
theorem find?_key_filter_of_mem {α : Type _} {β : Type _} [BEq β] [LawfulBEq β]
    {key : α → β} {l : List α} {x : α} {k : β} {c : α → Bool}
    (h : (l.map key).Nodup) (hx : x ∈ l) (hk : key x = k) (hcx : c x = true) :
    l.find? (fun y => key y == k && c y) = some x := by
  subst hk
  induction l with
  | nil => cases hx
  | cons y t ih =>
    rw [List.map_cons, List.nodup_cons] at h
    rcases List.mem_cons.mp hx with rfl | hxt
    · exact @List.find?_cons_of_pos _ (fun y => key y == key x && c y) x t (by simp [hcx])
    · have hne : ¬(key y == key x && c y) = true := by
        intro hc
        have hkk := eq_of_beq (Bool.and_elim_left hc)
        exact h.1 (hkk ▸ List.mem_map_of_mem key hxt)
      rw [@List.find?_cons_of_neg _ (fun y => key y == key x && c y) y t hne]
      exact ih h.2 hxt

/-- `findOne` by a key through an `updateOne` keyed on the same value:
the found document is the updated one. -/
theorem find?_key_updFirst_self {α : Type _} {β : Type _} [BEq β] [LawfulBEq β]
    {key : α → β} (f : α → α) (k : β) (l : List α)
    (hf : ∀ x, key (f x) = key x) :
    (updFirst (fun x => key x == k) f l).find? (fun x => key x == k)
      = (l.find? (fun x => key x == k)).map f := by
  induction l with
  | nil => rfl
  | cons y t ih =>
    by_cases hy : (key y == k) = true
    · have hfy : (key (f y) == k) = true := by rw [hf]; exact hy
      rw [show updFirst (fun x => key x == k) f (y :: t) = f y :: t from by
        simp [updFirst, hy]]
      rw [@List.find?_cons_of_pos _ (fun x => key x == k) (f y) t hfy,
        @List.find?_cons_of_pos _ (fun x => key x == k) y t hy, Option.map_some']
    · rw [show updFirst (fun x => key x == k) f (y :: t)
          = y :: updFirst (fun x => key x == k) f t from by simp [updFirst, hy]]
      rw [@List.find?_cons_of_neg _ (fun x => key x == k) y _ hy,
        @List.find?_cons_of_neg _ (fun x => key x == k) y t hy, ih]

/-- `findOne` by a key through an `updateOne` keyed on a different value:
the lookup is unaffected. -/
theorem find?_key_updFirst_other {α : Type _} {β : Type _} [BEq β] [LawfulBEq β]
    {key : α → β} (f : α → α) (k k' : β) (l : List α)
    (hf : ∀ x, key (f x) = key x) (hkk : k' ≠ k) :
    (updFirst (fun x => key x == k') f l).find? (fun x => key x == k)
      = l.find? (fun x => key x == k) := by
  induction l with
  | nil => rfl
  | cons y t ih =>
    by_cases hy : (key y == k') = true
    · rw [show updFirst (fun x => key x == k') f (y :: t) = f y :: t from by
        simp [updFirst, hy]]
      have hyk : ¬(key y == k) = true := fun hc => hkk (by rw [← eq_of_beq hy, eq_of_beq hc])
      have hfyk : ¬(key (f y) == k) = true := by rw [hf]; exact hyk
      rw [@List.find?_cons_of_neg _ (fun x => key x == k) (f y) t hfyk,
        @List.find?_cons_of_neg _ (fun x => key x == k) y t hyk]
    · rw [show updFirst (fun x => key x == k') f (y :: t)
          = y :: updFirst (fun x => key x == k') f t from by simp [updFirst, hy]]
      by_cases hyk : (key y == k) = true
      · rw [@List.find?_cons_of_pos _ (fun x => key x == k) y _ hyk,
          @List.find?_cons_of_pos _ (fun x => key x == k) y t hyk]
      · rw [@List.find?_cons_of_neg _ (fun x => key x == k) y _ hyk,
          @List.find?_cons_of_neg _ (fun x => key x == k) y t hyk, ih]

/-- As `find?_key_updFirst_other`, for an `updateOne` filter that conjoins a
key match with an extra condition. -/
theorem find?_keyc_updFirst_other {α : Type _} {β : Type _} [BEq β] [LawfulBEq β]
    {key : α → β} (c : α → Bool) (f : α → α) (k k' : β) (l : List α)
    (hf : ∀ x, key (f x) = key x) (hkk : k' ≠ k) :
    (updFirst (fun x => key x == k' && c x) f l).find? (fun x => key x == k)
      = l.find? (fun x => key x == k) := by
  induction l with
  | nil => rfl
  | cons y t ih =>
    by_cases hy : (key y == k' && c y) = true
    · rw [show updFirst (fun x => key x == k' && c x) f (y :: t) = f y :: t from by
        simp [updFirst, hy]]
      have hyk : ¬(key y == k) = true := fun hc =>
        hkk (by rw [← eq_of_beq (Bool.and_elim_left hy), eq_of_beq hc])
      have hfyk : ¬(key (f y) == k) = true := by rw [hf]; exact hyk
      rw [@List.find?_cons_of_neg _ (fun x => key x == k) (f y) t hfyk,
        @List.find?_cons_of_neg _ (fun x => key x == k) y t hyk]
    · rw [show updFirst (fun x => key x == k' && c x) f (y :: t)
          = y :: updFirst (fun x => key x == k' && c x) f t from by simp [updFirst, hy]]
      by_cases hyk : (key y == k) = true
      · rw [@List.find?_cons_of_pos _ (fun x => key x == k) y _ hyk,
          @List.find?_cons_of_pos _ (fun x => key x == k) y t hyk]
      · rw [@List.find?_cons_of_neg _ (fun x => key x == k) y _ hyk,
          @List.find?_cons_of_neg _ (fun x => key x == k) y t hyk, ih]

/-- Under `WF`, the item found by "some embedded review has identifier `id`"
is the item in which we know such a review to live. -/
theorem wf_find_item_by_rid {db : DB} (hWF : WF db) {itemW : Item} {review : ItemRev} {id : ℕ}
    (hit : itemW ∈ db.items) (hr : review ∈ itemW.reviews) (hid : review.rid = id) :
    db.items.find? (fun it => it.reviews.any (fun r => r.rid == id)) = some itemW := by
  rcases hx : db.items.find? (fun it => it.reviews.any (fun r => r.rid == id)) with _ | x
  · rw [List.find?_eq_none] at hx
    exact absurd (List.any_eq_true.mpr ⟨review, hr, by simp [hid]⟩) (hx itemW hit)
  · have hxmem := List.mem_of_find?_eq_some hx
    have hpx := List.find?_some hx
    obtain ⟨r', hr', hrid'⟩ := List.any_eq_true.mp hpx
    have hrr : r'.rid = review.rid := by
      have := eq_of_beq hrid'
      omega
    have hiid : x.iid = itemW.iid :=
      hWF.ridsCross x hxmem itemW hit r' hr' review hr hrr
    rw [hx, List.inj_on_of_nodup_map hWF.itemsNodup hxmem hit hiid]

/-- Under per-item duplicate-freeness of review identifiers, the embedded
review found by identifier is the known one. -/
theorem find_rev_by_rid {l : List ItemRev} {review : ItemRev} {id : ℕ}
    (hnd : (l.map (·.rid)).Nodup) (hr : review ∈ l) (hid : review.rid = id) :
    l.find? (fun r => r.rid == id) = some review :=
  find?_key_of_mem' hnd hr hid

/-- The user-side analogue of `find_rev_by_rid`. -/
theorem find_urev_by_rid {l : List UserRev} {e : UserRev} {id : ℕ}
    (hnd : (l.map (·.rid)).Nodup) (he : e ∈ l) (hid : e.rid = id) :
    l.find? (fun x => x.rid == id) = some e :=
  find?_key_of_mem' hnd he hid

/-! ## Claim C8: behaviour of Update(reviewId, rating?, comment?) -/

/-- A mirrored state with one review of rating 5 and comment "a". -/
def c8Db : DB :=
  ⟨[⟨1, "Lamp", some 5, 1, [⟨1, "alice", RVal.num 5, "a"⟩]⟩],
   [⟨"alice", some 5, 1, [⟨1, 1, "Lamp", RVal.num 5, "a"⟩]⟩]⟩

/-- C8's "re-aggregation only if the rating changed" is false: updating with
the same rating value 5 and a new comment leaves every stored rating value
unchanged, yet triggers re-aggregation of both sides (the code re-aggregates
whenever a rating is supplied, changed or not). -/
theorem c8_counterexample :
    (putReview c8Db 1 (some 5) (some "b")).2.1
        = [Ev.reaggItem 1, Ev.reaggUser "alice"] ∧
    (putReview c8Db 1 (some 5) (some "b")).2.2 = Res.okRes ∧
    (∀ it ∈ c8Db.items, ∀ r ∈ it.reviews, r.rating = RVal.num 5) ∧
    (∀ it ∈ (putReview c8Db 1 (some 5) (some "b")).1.items, ∀ r ∈ it.reviews,
      r.rating = RVal.num 5) :=
  ⟨by decide, by decide, by decide, by decide⟩

/-- `getItem` through a key-preserving pointwise update of the items. -/
theorem getItem_map_items (items : List Item) (users : List User) (g : Item → Item)
    (hg : ∀ it, (g it).iid = it.iid) (i : ℕ) :
    getItem ⟨items.map g, users⟩ i = (getItem ⟨items, users⟩ i).map g :=
  find?_key_map Item.iid i g hg items

/-- `getUser` through a key-preserving pointwise update of the users. -/
theorem getUser_map_users (items : List Item) (users : List User) (g : User → User)
    (hg : ∀ us, (g us).username = us.username) (u : String) :
    getUser ⟨items, users.map g⟩ u = (getUser ⟨items, users⟩ u).map g :=
  find?_key_map User.username u g hg users

/-- A conditional item update built from a key-preserving update preserves keys. -/
theorem iid_of_ifdoc (c : Item → Bool) (F : Item → Item) (hF : ∀ it, (F it).iid = it.iid) :
    ∀ it : Item, ((fun x => if c x then F x else x) it).iid = it.iid := by
  intro it
  by_cases hc : c it = true <;> simp [hc, hF]

/-- A conditional user update built from a key-preserving update preserves keys. -/
theorem username_of_ifdoc (c : User → Bool) (F : User → User)
    (hF : ∀ us, (F us).username = us.username) :
    ∀ us : User, ((fun x => if c x then F x else x) us).username = us.username := by
  intro us
  by_cases hc : c us = true <;> simp [hc, hF]

/-- The PUT item-document update keeps the document key. -/
theorem putItemDoc_iid (id : ℕ) (r? : Option ℚ) (c? : Option String) (it : Item) :
    (putItemDoc id r? c? it).iid = it.iid := rfl

/-- The PUT user-document update keeps the document key. -/
theorem putUserDoc_username (id : ℕ) (r? : Option ℚ) (c? : Option String) (us : User) :
    (putUserDoc id r? c? us).username = us.username := rfl

/-- C8 amended: Update locates the review by identifier on the item side
(answering NotFound with unchanged state when no item contains it), recovers
the owning username, applies the same field changes to the first
identifier-matched embedded copy in each of the two lists, and triggers
re-aggregation of both sides exactly when a rating is supplied — not only
when the stored rating value actually changes. -/
theorem c8_update_spec (db : DB) (id : ℕ) (rating? : Option ℚ) (comment? : Option String)
    (hWF : WF db)
    (hval : (match rating? with | some q => qltB q 1 || qltB 10 q | none => false) = false)
    (hsome : (rating?.isNone && comment?.isNone) = false) :
    ((∀ it ∈ db.items, ∀ r ∈ it.reviews, r.rid ≠ id) →
      putReview db id rating? comment? = (db, [], .notFound)) ∧
    (∀ itemW ∈ db.items, ∀ review ∈ itemW.reviews, review.rid = id →
      setItemRevFields rating? comment? review ≠ review →
      ∃ us ∈ db.users, us.username = review.username ∧
        (putReview db id rating? comment?).2.2 = Res.okRes ∧
        (putReview db id rating? comment?).2.1
          = (if rating?.isSome then [Ev.reaggItem itemW.iid, Ev.reaggUser review.username]
             else []) ∧
        (match rating? with
         | some _ =>
           getItem (putReview db id rating? comment?).1 itemW.iid =
             some { putItemDoc id rating? comment? itemW with
               rating := simpleAvg ((putItemDoc id rating? comment? itemW).reviews.map (·.rating)) } ∧
           getUser (putReview db id rating? comment?).1 review.username =
             some { putUserDoc id rating? comment? us with
               averageRating :=
                 simpleAvg ((putUserDoc id rating? comment? us).itemReviews.map (·.rating)) }
         | none =>
           getItem (putReview db id rating? comment?).1 itemW.iid =
             some (putItemDoc id rating? comment? itemW) ∧
           getUser (putReview db id rating? comment?).1 review.username =
             some (putUserDoc id rating? comment? us)) ∧
        (∀ it ∈ db.items, it.iid ≠ itemW.iid →
          getItem (putReview db id rating? comment?).1 it.iid = some it) ∧
        (∀ u ∈ db.users, u.username ≠ review.username →
          getUser (putReview db id rating? comment?).1 u.username = some u)) := by
  constructor
  · intro habs
    have hnone : db.items.find? (fun it => it.reviews.any (fun r => r.rid == id)) = none := by
      rw [List.find?_eq_none]
      intro it hit hc
      obtain ⟨r, hr, hb⟩ := List.any_eq_true.mp hc
      exact habs it hit r hr (by simpa using hb)
    simp [putReview, hval, hsome, hnone]
  · intro itemW hitW review hrev hid hchange
    obtain ⟨us, hus, husname, e, he, herid, heitem, herat⟩ :=
      hWF.mirrorFwd itemW hitW review hrev
    have hfind := wf_find_item_by_rid hWF hitW hrev hid
    have hfrev := find_rev_by_rid (hWF.itemRidsNodup itemW hitW) hrev hid
    have hpfind : db.items.find? (putItemFilter itemW.iid id) = some itemW := by
      rw [show putItemFilter itemW.iid id
            = (fun it => it.iid == itemW.iid && it.reviews.any (fun r => r.rid == id)) from rfl]
      exact find?_key_filter_of_mem hWF.itemsNodup hitW rfl
        (List.any_eq_true.mpr ⟨review, hrev, by simp [hid]⟩)
    have hne : putItemDoc id rating? comment? itemW ≠ itemW := by
      intro hc
      have hrw := congrArg Item.reviews hc
      simp only [putItemDoc] at hrw
      exact updFirst_ne_of_find? hfrev hchange hrw
    have hitemMod : modifiedOne (putItemFilter itemW.iid id)
        (putItemDoc id rating? comment?) db.items = true :=
      modifiedOne_of_ne hpfind hne
    have hput : putReview db id rating? comment? =
        (if rating?.isSome then
          (updateUserRatingSimple
            (updateItemRatingSimple
              ⟨updFirst (putItemFilter itemW.iid id) (putItemDoc id rating? comment?) db.items,
               updFirst (putUserFilter review.username id) (putUserDoc id rating? comment?) db.users⟩
              itemW.iid)
            review.username,
           [Ev.reaggItem itemW.iid, Ev.reaggUser review.username], Res.okRes)
         else
          (⟨updFirst (putItemFilter itemW.iid id) (putItemDoc id rating? comment?) db.items,
            updFirst (putUserFilter review.username id) (putUserDoc id rating? comment?) db.users⟩,
           [], Res.okRes)) := by
      simp only [putReview, hval, hsome, Bool.false_eq_true, if_false, hfind, hfrev,
        hitemMod, Bool.not_true, Bool.false_and]
    have hgI : updFirst (putItemFilter itemW.iid id) (putItemDoc id rating? comment?) db.items
        = db.items.map (fun it =>
            if it.iid == itemW.iid && it.reviews.any (fun r => r.rid == id)
            then putItemDoc id rating? comment? it else it) := by
      rw [show putItemFilter itemW.iid id
            = (fun it => it.iid == itemW.iid && it.reviews.any (fun r => r.rid == id)) from rfl]
      exact updFirst_keyc_eq_map Item.iid itemW.iid _ _ _ hWF.itemsNodup
    have hgU : updFirst (putUserFilter review.username id) (putUserDoc id rating? comment?) db.users
        = db.users.map (fun u =>
            if u.username == review.username && u.itemReviews.any (fun x => x.rid == id)
            then putUserDoc id rating? comment? u else u) := by
      rw [show putUserFilter review.username id
            = (fun u => u.username == review.username
                && u.itemReviews.any (fun x => x.rid == id)) from rfl]
      exact updFirst_keyc_eq_map User.username review.username _ _ _ hWF.usersNodup
    have hgetW : db.items.find? (fun it => it.iid == itemW.iid) = some itemW :=
      find?_key_of_mem' hWF.itemsNodup hitW rfl
    have hgetU : db.users.find? (fun u => u.username == review.username) = some us :=
      find?_key_of_mem' hWF.usersNodup hus husname
    have hcondW : (itemW.iid == itemW.iid && itemW.reviews.any (fun r => r.rid == id)) = true := by
      rw [Bool.and_eq_true]
      exact ⟨beq_self_eq_true _, List.any_eq_true.mpr ⟨review, hrev, by simp [hid]⟩⟩
    have hcondU : (us.username == review.username
        && us.itemReviews.any (fun x => x.rid == id)) = true := by
      rw [Bool.and_eq_true]
      exact ⟨by simp [husname], List.any_eq_true.mpr ⟨e, he, by simp [herid, hid]⟩⟩
    have hgiid : ∀ it : Item, ((fun x =>
        if x.iid == itemW.iid && x.reviews.any (fun r => r.rid == id)
        then putItemDoc id rating? comment? x else x) it).iid = it.iid :=
      iid_of_ifdoc _ _ (putItemDoc_iid id rating? comment?)
    have hguser : ∀ us' : User, ((fun x =>
        if x.username == review.username && x.itemReviews.any (fun y => y.rid == id)
        then putUserDoc id rating? comment? x else x) us').username = us'.username :=
      username_of_ifdoc _ _ (putUserDoc_username id rating? comment?)
    rcases rating? with _ | q
    · simp only [Option.isSome_none, Bool.false_eq_true, if_false] at hput
      refine ⟨us, hus, husname, by rw [hput], by rw [hput]; simp, ⟨?_, ?_⟩, ?_, ?_⟩
      · show getItem (putReview db id none comment?).1 itemW.iid = _
        rw [hput]
        show (updFirst (putItemFilter itemW.iid id) (putItemDoc id none comment?)
          db.items).find? (fun it => it.iid == itemW.iid) = _
        rw [hgI, find?_key_map Item.iid itemW.iid _ hgiid db.items, hgetW,
          Option.map_some']
        simp only [hcondW, if_true]
      · show getUser (putReview db id none comment?).1 review.username = _
        rw [hput]
        show (updFirst (putUserFilter review.username id) (putUserDoc id none comment?)
          db.users).find? (fun u => u.username == review.username) = _
        rw [hgU, find?_key_map User.username review.username _ hguser db.users, hgetU,
          Option.map_some']
        simp only [hcondU, if_true]
      · intro it hit hne2
        rw [hput]
        show (updFirst (putItemFilter itemW.iid id) (putItemDoc id none comment?)
          db.items).find? (fun x => x.iid == it.iid) = _
        rw [hgI, find?_key_map Item.iid it.iid _ hgiid db.items,
          find?_key_of_mem' hWF.itemsNodup hit rfl, Option.map_some']
        simp [hne2]
      · intro u hu hne2
        rw [hput]
        show (updFirst (putUserFilter review.username id) (putUserDoc id none comment?)
          db.users).find? (fun x => x.username == u.username) = _
        rw [hgU, find?_key_map User.username u.username _ hguser db.users,
          find?_key_of_mem' hWF.usersNodup hu rfl, Option.map_some']
        simp [hne2]
    · simp only [Option.isSome_some, if_true] at hput
      have hget1 : getItem ⟨updFirst (putItemFilter itemW.iid id)
            (putItemDoc id (some q) comment?) db.items,
          updFirst (putUserFilter review.username id)
            (putUserDoc id (some q) comment?) db.users⟩ itemW.iid
          = some (putItemDoc id (some q) comment? itemW) := by
        show (updFirst (putItemFilter itemW.iid id) (putItemDoc id (some q) comment?)
          db.items).find? (fun it => it.iid == itemW.iid) = _
        rw [hgI, find?_key_map Item.iid itemW.iid _ hgiid db.items, hgetW,
          Option.map_some']
        simp only [hcondW, if_true]
      have hUIR : updateItemRatingSimple
          ⟨updFirst (putItemFilter itemW.iid id)
              (putItemDoc id (some q) comment?) db.items,
            updFirst (putUserFilter review.username id)
              (putUserDoc id (some q) comment?) db.users⟩ itemW.iid
          = ⟨updFirst (fun it => it.iid == itemW.iid)
               (fun it => { it with rating := simpleAvg ((putItemDoc id (some q) comment? itemW).reviews.map (·.rating)) })
               (updFirst (putItemFilter itemW.iid id)
                 (putItemDoc id (some q) comment?) db.items),
             updFirst (putUserFilter review.username id)
               (putUserDoc id (some q) comment?) db.users⟩ := by
        simp only [updateItemRatingSimple, hget1]
      have hget2 : getUser (updateItemRatingSimple
          ⟨updFirst (putItemFilter itemW.iid id)
              (putItemDoc id (some q) comment?) db.items,
            updFirst (putUserFilter review.username id)
              (putUserDoc id (some q) comment?) db.users⟩ itemW.iid) review.username
          = some (putUserDoc id (some q) comment? us) := by
        rw [hUIR]
        show (updFirst (putUserFilter review.username id) (putUserDoc id (some q) comment?)
          db.users).find? (fun u => u.username == review.username) = _
        rw [hgU, find?_key_map User.username review.username _ hguser db.users, hgetU,
          Option.map_some']
        simp only [hcondU, if_true]
      have hUUR : updateUserRatingSimple (updateItemRatingSimple
          ⟨updFirst (putItemFilter itemW.iid id)
              (putItemDoc id (some q) comment?) db.items,
            updFirst (putUserFilter review.username id)
              (putUserDoc id (some q) comment?) db.users⟩ itemW.iid) review.username
          = ⟨updFirst (fun it => it.iid == itemW.iid)
               (fun it => { it with rating := simpleAvg ((putItemDoc id (some q) comment? itemW).reviews.map (·.rating)) })
               (updFirst (putItemFilter itemW.iid id)
                 (putItemDoc id (some q) comment?) db.items),
             updFirst (fun u => u.username == review.username)
               (fun u => { u with averageRating := simpleAvg ((putUserDoc id (some q) comment? us).itemReviews.map (·.rating)) })
               (updFirst (putUserFilter review.username id)
                 (putUserDoc id (some q) comment?) db.users)⟩ := by
        rw [show updateUserRatingSimple (updateItemRatingSimple
          ⟨updFirst (putItemFilter itemW.iid id)
              (putItemDoc id (some q) comment?) db.items,
            updFirst (putUserFilter review.username id)
              (putUserDoc id (some q) comment?) db.users⟩ itemW.iid) review.username
          = match getUser (updateItemRatingSimple
              ⟨updFirst (putItemFilter itemW.iid id)
                  (putItemDoc id (some q) comment?) db.items,
                updFirst (putUserFilter review.username id)
                  (putUserDoc id (some q) comment?) db.users⟩ itemW.iid) review.username with
            | none => updateItemRatingSimple
              ⟨updFirst (putItemFilter itemW.iid id)
                  (putItemDoc id (some q) comment?) db.items,
                updFirst (putUserFilter review.username id)
                  (putUserDoc id (some q) comment?) db.users⟩ itemW.iid
            | some user => ⟨(updateItemRatingSimple
                ⟨updFirst (putItemFilter itemW.iid id)
                    (putItemDoc id (some q) comment?) db.items,
                  updFirst (putUserFilter review.username id)
                    (putUserDoc id (some q) comment?) db.users⟩ itemW.iid).items,
                updFirst (fun u => u.username == review.username)
                  (fun u => { u with averageRating := simpleAvg (user.itemReviews.map (·.rating)) })
                  (updateItemRatingSimple
                    ⟨updFirst (putItemFilter itemW.iid id)
                        (putItemDoc id (some q) comment?) db.items,
                      updFirst (putUserFilter review.username id)
                        (putUserDoc id (some q) comment?) db.users⟩ itemW.iid).users⟩
          from rfl]
        rw [hget2, hUIR]
      have hnd1 : ((updFirst (putItemFilter itemW.iid id)
          (putItemDoc id (some q) comment?) db.items).map (·.iid)).Nodup := by
        rw [hgI, map_key_map hgiid]
        exact hWF.itemsNodup
      have hnd2 : ((updFirst (putUserFilter review.username id)
          (putUserDoc id (some q) comment?) db.users).map (·.username)).Nodup := by
        rw [hgU, map_key_map hguser]
        exact hWF.usersNodup
      have hget2' : (updFirst (putUserFilter review.username id)
          (putUserDoc id (some q) comment?) db.users).find?
            (fun u => u.username == review.username)
          = some (putUserDoc id (some q) comment? us) := by
        rw [hgU, find?_key_map User.username review.username _ hguser db.users, hgetU,
          Option.map_some']
        simp only [hcondU, if_true]
      refine ⟨us, hus, husname, by rw [hput], by rw [hput]; simp, ⟨?_, ?_⟩, ?_, ?_⟩
      · show getItem (putReview db id (some q) comment?).1 itemW.iid = _
        rw [hput, hUUR]
        show (updFirst (fun it => it.iid == itemW.iid)
            (fun it => { it with rating := simpleAvg ((putItemDoc id (some q) comment? itemW).reviews.map (·.rating)) })
            (updFirst (putItemFilter itemW.iid id)
              (putItemDoc id (some q) comment?) db.items)).find?
          (fun it => it.iid == itemW.iid) = _
        rw [find?_key_updFirst_self _ itemW.iid _ (by intro x; rfl)]
        rw [show (updFirst (putItemFilter itemW.iid id) (putItemDoc id (some q) comment?)
            db.items).find? (fun x => x.iid == itemW.iid)
          = some (putItemDoc id (some q) comment? itemW) from hget1]
        rfl
      · show getUser (putReview db id (some q) comment?).1 review.username = _
        rw [hput, hUUR]
        show (updFirst (fun u => u.username == review.username)
            (fun u => { u with averageRating := simpleAvg ((putUserDoc id (some q) comment? us).itemReviews.map (·.rating)) })
            (updFirst (putUserFilter review.username id)
              (putUserDoc id (some q) comment?) db.users)).find?
          (fun u => u.username == review.username) = _
        rw [find?_key_updFirst_self _ review.username _ (by intro x; rfl), hget2']
        rfl
      · intro it hit hne2
        rw [hput, hUUR]
        show (updFirst (fun x => x.iid == itemW.iid)
            (fun x => { x with rating := simpleAvg ((putItemDoc id (some q) comment? itemW).reviews.map (·.rating)) })
            (updFirst (putItemFilter itemW.iid id)
              (putItemDoc id (some q) comment?) db.items)).find?
          (fun x => x.iid == it.iid) = _
        rw [find?_key_updFirst_other _ it.iid itemW.iid _ (by intro x; rfl) (Ne.symm hne2)]
        rw [show putItemFilter itemW.iid id
            = (fun x => x.iid == itemW.iid && x.reviews.any (fun r => r.rid == id)) from rfl]
        rw [find?_keyc_updFirst_other _ _ it.iid itemW.iid _ (by intro x; rfl) (Ne.symm hne2)]
        exact find?_key_of_mem' hWF.itemsNodup hit rfl
      · intro u hu hne2
        rw [hput, hUUR]
        show (updFirst (fun x => x.username == review.username)
            (fun x => { x with averageRating := simpleAvg ((putUserDoc id (some q) comment? us).itemReviews.map (·.rating)) })
            (updFirst (putUserFilter review.username id)
              (putUserDoc id (some q) comment?) db.users)).find?
          (fun x => x.username == u.username) = _
        rw [find?_key_updFirst_other _ u.username review.username _ (by intro x; rfl)
          (Ne.symm hne2)]
        rw [show putUserFilter review.username id
            = (fun x => x.username == review.username
                && x.itemReviews.any (fun y => y.rid == id)) from rfl]
        rw [find?_keyc_updFirst_other _ _ u.username review.username _ (by intro x; rfl)
          (Ne.symm hne2)]
        exact find?_key_of_mem' hWF.usersNodup hu rfl

/-- Witness for the amended C8 at `c8Db` (rating 5 updated to 6). -/
theorem c8_witness :
    (putReview c8Db 1 (some 6) none).2.2 = Res.okRes ∧
    (putReview c8Db 1 (some 6) none).2.1 = [Ev.reaggItem 1, Ev.reaggUser "alice"] := by
  have h := (c8_update_spec c8Db 1 (some 6) none
      (by refine ⟨?_, ?_, ?_, ?_, ?_, ?_, ?_, ?_, ?_, ?_⟩ <;> decide)
      (by decide) (by decide)).2
    ⟨1, "Lamp", some 5, 1, [⟨1, "alice", RVal.num 5, "a"⟩]⟩ (by decide)
    ⟨1, "alice", RVal.num 5, "a"⟩ (by decide) rfl (by decide)
  obtain ⟨us, hus, hname, hok, hevs, hrest⟩ := h
  exact ⟨hok, by simp [hevs]⟩

/-! ## Evaluation lemmas for the rating helpers -/

theorem updateItemRatingSimple_eval (db : DB) (i : ℕ) (item : Item)
    (h : getItem db i = some item) :
    updateItemRatingSimple db i
      = ⟨updFirst (fun it => it.iid == i)
          (fun it => { it with rating := simpleAvg (item.reviews.map (·.rating)) }) db.items,
         db.users⟩ := by
  simp only [updateItemRatingSimple, h]

theorem updateUserRatingSimple_eval (db : DB) (u : String) (user : User)
    (h : getUser db u = some user) :
    updateUserRatingSimple db u
      = ⟨db.items,
         updFirst (fun us => us.username == u)
           (fun us => { us with
             averageRating := simpleAvg (user.itemReviews.map (·.rating)) }) db.users⟩ := by
  simp only [updateUserRatingSimple, h]

theorem updateItemRatingRobust_eval (db : DB) (i : ℕ) (item : Item)
    (h : getItem db i = some item) :
    updateItemRatingRobust db i
      = ⟨updFirst (fun it => it.iid == i)
          (fun it => { it with
            rating := some (robustAvg (item.reviews.map (·.rating))) }) db.items,
         db.users⟩ := by
  simp only [updateItemRatingRobust, h]

theorem updateUserRatingRobust_eval (db : DB) (u : String) (user : User)
    (h : getUser db u = some user) :
    updateUserRatingRobust db u
      = ⟨db.items,
         updFirst (fun us => us.username == u)
           (fun us => { us with
             averageRating := some (robustAvg (user.itemReviews.map (·.rating))) }) db.users⟩ := by
  simp only [updateUserRatingRobust, h]

theorem updateUserRatingRobust_eval_none (db : DB) (u : String)
    (h : getUser db u = none) : updateUserRatingRobust db u = db := by
  simp only [updateUserRatingRobust, h]

theorem updateItemRatingRobust_eval_none (db : DB) (i : ℕ)
    (h : getItem db i = none) : updateItemRatingRobust db i = db := by
  simp only [updateItemRatingRobust, h]

/-- Removing the unique key-matched element of a list shortens it by one. -/
theorem length_filter_not_key {α : Type _} {β : Type _} [BEq β] [LawfulBEq β]
    {key : α → β} {l : List α} {x : α} {k : β}
    (h : (l.map key).Nodup) (hx : x ∈ l) (hk : key x = k) :
    (l.filter (fun y => !(key y == k))).length + 1 = l.length := by
  subst hk
  induction l with
  | nil => cases hx
  | cons y t ih =>
    rw [List.map_cons, List.nodup_cons] at h
    rcases List.mem_cons.mp hx with rfl | hxt
    · rw [List.filter_cons_of_neg (by simp)]
      rw [List.filter_eq_self.mpr (fun z hz => by
        have : key z ≠ key x := fun hc => h.1 (hc ▸ List.mem_map_of_mem key hz)
        simp [this])]
      simp
    · have hne : key y ≠ key x := fun hc => h.1 (hc ▸ List.mem_map_of_mem key hxt)
      rw [List.filter_cons_of_pos (by simp [hne])]
      have := ih h.2 hxt
      simp only [List.length_cons]
      omega

/-! ## Claim C5: Delete(reviewId) -/

/-- C5: when some item holds a review with the given identifier (and the state
is well formed, so the mirror copy lives with the owning user), DELETE removes
the embedded copy from both the item's and the user's lists (each list
shrinks by exactly one), decrements both `reviewCount` fields by exactly 1,
re-aggregates both sides, succeeds, and touches no other document; when the
identifier is absent from every item it fails with NotFound and leaves the
state unchanged. -/
theorem c5_delete_spec (db : DB) (id : ℕ) (hWF : WF db) :
    ((∀ it ∈ db.items, ∀ r ∈ it.reviews, r.rid ≠ id) →
      deleteReview db id = (db, .notFound)) ∧
    (∀ itemW ∈ db.items, ∀ review ∈ itemW.reviews, review.rid = id →
      ∃ us ∈ db.users, us.username = review.username ∧
        (deleteReview db id).2 = Res.okRes ∧
        getItem (deleteReview db id).1 itemW.iid =
          some { itemW with
            reviews := itemW.reviews.filter (fun r => !(r.rid == id)),
            reviewCount := itemW.reviewCount - 1,
            rating := simpleAvg
              ((itemW.reviews.filter (fun r => !(r.rid == id))).map (·.rating)) } ∧
        getUser (deleteReview db id).1 review.username =
          some { us with
            itemReviews := us.itemReviews.filter (fun e => !(e.rid == id)),
            reviewCount := us.reviewCount - 1,
            averageRating := simpleAvg
              ((us.itemReviews.filter (fun e => !(e.rid == id))).map (·.rating)) } ∧
        (itemW.reviews.filter (fun r => !(r.rid == id))).length + 1
          = itemW.reviews.length ∧
        (us.itemReviews.filter (fun e => !(e.rid == id))).length + 1
          = us.itemReviews.length ∧
        (∀ it ∈ db.items, it.iid ≠ itemW.iid →
          getItem (deleteReview db id).1 it.iid = some it) ∧
        (∀ u ∈ db.users, u.username ≠ review.username →
          getUser (deleteReview db id).1 u.username = some u)) := by
  constructor
  · intro habs
    have hnone : db.items.find? (fun it => it.reviews.any (fun r => r.rid == id)) = none := by
      rw [List.find?_eq_none]
      intro it hit hc
      obtain ⟨r, hr, hb⟩ := List.any_eq_true.mp hc
      exact habs it hit r hr (by simpa using hb)
    simp [deleteReview, hnone]
  · intro itemW hitW review hrev hid
    obtain ⟨us, hus, husname, e, he, herid, heitem, herat⟩ :=
      hWF.mirrorFwd itemW hitW review hrev
    have hfind := wf_find_item_by_rid hWF hitW hrev hid
    have hfrev := find_rev_by_rid (hWF.itemRidsNodup itemW hitW) hrev hid
    have hgetW : db.items.find? (fun it => it.iid == itemW.iid) = some itemW :=
      find?_key_of_mem' hWF.itemsNodup hitW rfl
    have hgetU : db.users.find? (fun u => u.username == review.username) = some us :=
      find?_key_of_mem' hWF.usersNodup hus husname
    have hitemMod : modifiedOne (fun it => it.iid == itemW.iid)
        (delItemDoc id) db.items = true :=
      modifiedOne_of_ne hgetW (delItemDoc_ne id itemW)
    have hdel : deleteReview db id =
        (updateUserRatingSimple
          (updateItemRatingSimple
            ⟨updFirst (fun it => it.iid == itemW.iid) (delItemDoc id) db.items,
             updFirst (fun u => u.username == review.username) (delUserDoc id) db.users⟩
            itemW.iid)
          review.username, Res.okRes) := by
      simp only [deleteReview, hfind, hfrev, hitemMod, Bool.not_true, Bool.false_and,
        Bool.false_eq_true, if_false]
    have hget1 : getItem ⟨updFirst (fun it => it.iid == itemW.iid) (delItemDoc id) db.items,
        updFirst (fun u => u.username == review.username) (delUserDoc id) db.users⟩ itemW.iid
        = some (delItemDoc id itemW) := by
      show (updFirst (fun it => it.iid == itemW.iid) (delItemDoc id) db.items).find?
        (fun it => it.iid == itemW.iid) = _
      rw [find?_key_updFirst_self _ itemW.iid _ (by intro x; rfl), hgetW]
      rfl
    have hUIR := updateItemRatingSimple_eval _ itemW.iid _ hget1
    have hget2 : getUser (updateItemRatingSimple
        ⟨updFirst (fun it => it.iid == itemW.iid) (delItemDoc id) db.items,
         updFirst (fun u => u.username == review.username) (delUserDoc id) db.users⟩
        itemW.iid) review.username = some (delUserDoc id us) := by
      rw [hUIR]
      show (updFirst (fun u => u.username == review.username) (delUserDoc id) db.users).find?
        (fun u => u.username == review.username) = _
      rw [find?_key_updFirst_self _ review.username _ (by intro x; rfl), hgetU]
      rfl
    have hUUR := updateUserRatingSimple_eval _ review.username _ hget2
    refine ⟨us, hus, husname, by rw [hdel], ?_, ?_,
      length_filter_not_key (hWF.itemRidsNodup itemW hitW) hrev hid,
      length_filter_not_key (hWF.userRidsNodup us hus) he (by rw [herid, hid]), ?_, ?_⟩
    · show getItem (deleteReview db id).1 itemW.iid = _
      rw [hdel]
      show getItem (updateUserRatingSimple _ review.username) itemW.iid = _
      rw [hUUR, hUIR]
      show (updFirst (fun it => it.iid == itemW.iid)
          (fun it => { it with
            rating := simpleAvg ((delItemDoc id itemW).reviews.map (·.rating)) })
          (updFirst (fun it => it.iid == itemW.iid) (delItemDoc id) db.items)).find?
        (fun it => it.iid == itemW.iid) = _
      rw [find?_key_updFirst_self _ itemW.iid _ (by intro x; rfl),
        find?_key_updFirst_self _ itemW.iid _ (by intro x; rfl), hgetW]
      rfl
    · show getUser (deleteReview db id).1 review.username = _
      rw [hdel, hUUR, hUIR]
      show (updFirst (fun u => u.username == review.username)
          (fun u => { u with
            averageRating := simpleAvg ((delUserDoc id us).itemReviews.map (·.rating)) })
          (updFirst (fun u => u.username == review.username) (delUserDoc id) db.users)).find?
        (fun u => u.username == review.username) = _
      rw [find?_key_updFirst_self _ review.username _ (by intro x; rfl),
        find?_key_updFirst_self _ review.username _ (by intro x; rfl), hgetU]
      rfl
    · intro it hit hne2
      rw [hdel, hUUR, hUIR]
      show (updFirst (fun x => x.iid == itemW.iid)
          (fun x => { x with
            rating := simpleAvg ((delItemDoc id itemW).reviews.map (·.rating)) })
          (updFirst (fun x => x.iid == itemW.iid) (delItemDoc id) db.items)).find?
        (fun x => x.iid == it.iid) = _
      rw [find?_key_updFirst_other _ it.iid itemW.iid _ (by intro x; rfl) (Ne.symm hne2),
        find?_key_updFirst_other _ it.iid itemW.iid _ (by intro x; rfl) (Ne.symm hne2)]
      exact find?_key_of_mem' hWF.itemsNodup hit rfl
    · intro u hu hne2
      rw [hdel, hUUR, hUIR]
      show (updFirst (fun x => x.username == review.username)
          (fun x => { x with
            averageRating := simpleAvg ((delUserDoc id us).itemReviews.map (·.rating)) })
          (updFirst (fun x => x.username == review.username) (delUserDoc id) db.users)).find?
        (fun x => x.username == u.username) = _
      rw [find?_key_updFirst_other _ u.username review.username _ (by intro x; rfl)
          (Ne.symm hne2),
        find?_key_updFirst_other _ u.username review.username _ (by intro x; rfl)
          (Ne.symm hne2)]
      exact find?_key_of_mem' hWF.usersNodup hu rfl

/-- A mirrored two-review state used by several witnesses. -/
def twoRevDb : DB :=
  ⟨[⟨1, "Lamp", some 6, 2, [⟨1, "alice", RVal.num 8, "great"⟩, ⟨2, "bob", RVal.num 4, "meh"⟩]⟩],
   [⟨"alice", some 8, 1, [⟨1, 1, "Lamp", RVal.num 8, "great"⟩]⟩,
    ⟨"bob", some 4, 1, [⟨2, 1, "Lamp", RVal.num 4, "meh"⟩]⟩]⟩

/-- Witness for C5 at `twoRevDb`, deleting review 1. -/
theorem c5_witness :
    (deleteReview twoRevDb 1).2 = Res.okRes ∧
    getItem (deleteReview twoRevDb 1).1 1 =
      some ⟨1, "Lamp", some 4, 1, [⟨2, "bob", RVal.num 4, "meh"⟩]⟩ ∧
    getUser (deleteReview twoRevDb 1).1 "alice" =
      some ⟨"alice", some 0, 0, []⟩ ∧
    getUser (deleteReview twoRevDb 1).1 "bob" =
      some ⟨"bob", some 4, 1, [⟨2, 1, "Lamp", RVal.num 4, "meh"⟩]⟩ := by
  have h := (c5_delete_spec twoRevDb 1
      (by refine ⟨?_, ?_, ?_, ?_, ?_, ?_, ?_, ?_, ?_, ?_⟩ <;> decide)).2
    ⟨1, "Lamp", some 6, 2, [⟨1, "alice", RVal.num 8, "great"⟩, ⟨2, "bob", RVal.num 4, "meh"⟩]⟩
    (by decide)
    ⟨1, "alice", RVal.num 8, "great"⟩ (by decide) rfl
  obtain ⟨us, hus, hname, hok, hitem, huser, hlen1, hlen2, hoth1, hoth2⟩ := h
  have husval : us = ⟨"alice", some 8, 1, [⟨1, 1, "Lamp", RVal.num 8, "great"⟩]⟩ := by
    have : us ∈ twoRevDb.users := hus
    have hn : us.username = "alice" := hname
    rcases List.mem_cons.mp this with rfl | h2
    · rfl
    · rcases List.mem_cons.mp h2 with rfl | h3
      · exact absurd hn (by decide)
      · cases h3
  subst husval
  refine ⟨hok, by rw [hitem]; decide, by rw [huser]; decide, ?_⟩
  have := hoth2 ⟨"bob", some 4, 1, [⟨2, 1, "Lamp", RVal.num 4, "meh"⟩]⟩ (by decide) (by decide)
  rw [this]

/-! ## Claim C4: Submit effects -/

/-- An item and a user with no reviews yet. -/
def freshDb : DB := ⟨[⟨1, "Lamp", some 0, 0, []⟩], [⟨"alice", some 0, 0, []⟩]⟩


/-! ## Claim C6: item-deletion cascade -/

/-- Re-aggregation of a user document from its own embedded list (robust helper). -/
def reaggUserDoc (us : User) : User :=
  { us with averageRating := some (robustAvg (us.itemReviews.map (·.rating))) }

/-- The cascade loop of item deletion: starting from disjoint, duplicate-free
reviewer names, it pulls each reviewer's entries for the item exactly once,
accumulates the distinct names in order, and logs one pull event per review. -/
theorem cascadeStep_fold (id : ℕ) (rs : List ItemRev) (items : List Item) (users : List User)
    (s0 : List String) (e0 : List Ev)
    (hnodup : (users.map (·.username)).Nodup)
    (hnames : (rs.map (·.username)).Nodup)
    (hnone : ∀ r ∈ rs, r.username ≠ "")
    (hfresh : ∀ r ∈ rs, r.username ∉ s0) :
    rs.foldl (cascadeStep id) (⟨items, users⟩, s0, e0)
      = (⟨items, users.map (fun us =>
            if us.username ∈ rs.map (·.username) then pullDecUser id us else us)⟩,
         s0 ++ rs.map (·.username),
         e0 ++ rs.map (fun r => Ev.pullUser r.username)) := by
  induction rs generalizing users s0 e0 with
  | nil =>
    have hmapid : users.map (fun us =>
        if us.username ∈ ([] : List ItemRev).map (·.username) then pullDecUser id us
        else us) = users := by
      conv_rhs => rw [← List.map_id users]
      exact List.map_congr_left (fun us _ => by simp)
    simp [hmapid]
  | cons r rs' ih =>
    have hrne := hnone r (List.mem_cons_self r rs')
    have hstep : cascadeStep id (⟨items, users⟩, s0, e0) r
        = (⟨items, updFirst (fun us => us.username == r.username) (pullDecUser id) users⟩,
           s0 ++ [r.username], e0 ++ [Ev.pullUser r.username]) := by
      rw [show cascadeStep id (⟨items, users⟩, s0, e0) r
          = if r.username == "" then ((⟨items, users⟩ : DB), s0, e0)
            else (⟨items, updFirst (fun us => us.username == r.username)
                    (pullDecUser id) users⟩,
              (if r.username ∈ s0 then s0 else s0 ++ [r.username]),
              e0 ++ [Ev.pullUser r.username]) from rfl]
      rw [if_neg (by simp [hrne]), if_neg (hfresh r (List.mem_cons_self r rs'))]
    rw [List.map_cons, List.nodup_cons] at hnames
    have hnd1 : ((updFirst (fun us => us.username == r.username) (pullDecUser id)
        users).map (·.username)).Nodup := by
      rw [map_updFirst (by intro x; rfl)]
      exact hnodup
    have hrec := ih (updFirst (fun us => us.username == r.username) (pullDecUser id) users)
      (s0 ++ [r.username]) (e0 ++ [Ev.pullUser r.username]) hnd1 hnames.2
      (fun x hx => hnone x (List.mem_cons_of_mem r hx))
      (fun x hx => by
        intro hc
        rcases List.mem_append.mp hc with h1 | h2
        · exact hfresh x (List.mem_cons_of_mem r hx) h1
        · have hxr : x.username = r.username := List.mem_singleton.mp h2
          exact hnames.1 (hxr ▸ List.mem_map_of_mem (·.username) hx))
    rw [List.foldl_cons, hstep, hrec]
    have hcomp : (updFirst (fun us => us.username == r.username) (pullDecUser id) users).map
        (fun us => if us.username ∈ rs'.map (·.username) then pullDecUser id us else us)
      = users.map (fun us =>
          if us.username ∈ (r :: rs').map (·.username) then pullDecUser id us else us) := by
      rw [updFirst_key_eq_map User.username r.username _ _ hnodup, List.map_map]
      refine List.map_congr_left (fun us hu => ?_)
      simp only [Function.comp]
      by_cases hcase : us.username = r.username
      · have h1 : (us.username == r.username) = true := by simp [hcase]
        have h2 : (pullDecUser id us).username ∉ rs'.map (·.username) := by
          rw [show (pullDecUser id us).username = us.username from rfl, hcase]
          exact hnames.1
        have h3 : us.username ∈ (r :: rs').map (·.username) := by
          rw [List.map_cons, hcase]
          exact List.mem_cons_self _ _
        rw [if_pos h1, if_neg h2, if_pos h3]
      · have h1 : ¬((us.username == r.username) = true) := by simp [hcase]
        rw [if_neg h1]
        by_cases hmem : us.username ∈ rs'.map (·.username)
        · rw [if_pos hmem, if_pos (by
            rw [List.map_cons]
            exact List.mem_cons_of_mem _ hmem)]
        · rw [if_neg hmem, if_neg (by
            rw [List.map_cons]
            intro hc
            rcases List.mem_cons.mp hc with hh1 | hh2
            · exact hcase hh1
            · exact hmem hh2)]
    rw [hcomp]
    simp [List.append_assoc]

/-- The re-aggregation loop of item deletion: over duplicate-free usernames it
re-aggregates each named user exactly once, in order, logging one event each. -/
theorem reagg_fold (names : List String) (items : List Item) (users : List User) (e0 : List Ev)
    (hnodup : (users.map (·.username)).Nodup) (hnames : names.Nodup) :
    names.foldl (fun acc u => (updateUserRatingRobust acc.1 u, acc.2 ++ [Ev.reaggUser u]))
        (⟨items, users⟩, e0)
      = (⟨items, users.map (fun us => if us.username ∈ names then reaggUserDoc us else us)⟩,
         e0 ++ names.map Ev.reaggUser) := by
  induction names generalizing users e0 with
  | nil =>
    have hmapid : users.map (fun us =>
        if us.username ∈ ([] : List String) then reaggUserDoc us else us) = users := by
      conv_rhs => rw [← List.map_id users]
      exact List.map_congr_left (fun us _ => by simp)
    simp [hmapid]
  | cons n ns ih =>
    rw [List.nodup_cons] at hnames
    rcases hg : users.find? (fun us => us.username == n) with _ | u0
    · have hstep : updateUserRatingRobust ⟨items, users⟩ n = ⟨items, users⟩ :=
        updateUserRatingRobust_eval_none _ _ hg
      have hnone : ∀ us ∈ users, us.username ≠ n := by
        rw [List.find?_eq_none] at hg
        intro us hus hc
        exact hg us hus (by simp [hc])
      simp only [List.foldl_cons, hstep]
      rw [ih users (e0 ++ [Ev.reaggUser n]) hnodup hnames.2]
      have hmapeq : users.map (fun us => if us.username ∈ ns then reaggUserDoc us else us)
          = users.map (fun us => if us.username ∈ n :: ns then reaggUserDoc us else us) :=
        List.map_congr_left (fun us hus => by
          by_cases hmem : us.username ∈ ns
          · rw [if_pos hmem, if_pos (List.mem_cons_of_mem _ hmem)]
          · rw [if_neg hmem, if_neg (fun hc => by
              rcases List.mem_cons.mp hc with h1 | h2
              · exact hnone us hus h1
              · exact hmem h2)])
      rw [hmapeq]
      simp [List.append_assoc]
    · have hstep := updateUserRatingRobust_eval ⟨items, users⟩ n u0 hg
      have hmem0 := List.mem_of_find?_eq_some hg
      have hname0 : u0.username = n := by
        have h := List.find?_some hg
        exact eq_of_beq h
      have hnd1 : ((updFirst (fun us => us.username == n)
          (fun us => { us with
            averageRating := some (robustAvg (u0.itemReviews.map (·.rating))) })
          users).map (·.username)).Nodup := by
        rw [map_updFirst (by intro x; rfl)]
        exact hnodup
      simp only [List.foldl_cons, hstep]
      rw [ih _ _ hnd1 hnames.2]
      have hcomp : (updFirst (fun us => us.username == n)
            (fun us => { us with
              averageRating := some (robustAvg (u0.itemReviews.map (·.rating))) })
            users).map (fun us => if us.username ∈ ns then reaggUserDoc us else us)
          = users.map (fun us => if us.username ∈ n :: ns then reaggUserDoc us else us) := by
        rw [updFirst_key_eq_map User.username n _ _ hnodup, List.map_map]
        refine List.map_congr_left (fun us hus => ?_)
        simp only [Function.comp]
        by_cases hcase : us.username = n
        · have hueq : us = u0 :=
            List.inj_on_of_nodup_map hnodup hus hmem0 (by rw [hcase, hname0])
          have h1 : (us.username == n) = true := by simp [hcase]
          have h2 : ({ us with
              averageRating := some (robustAvg (u0.itemReviews.map (·.rating))) }
                : User).username ∉ ns := by
            show us.username ∉ ns
            rw [hcase]
            exact hnames.1
          rw [if_pos h1, if_neg h2, if_pos (by rw [hcase]; exact List.mem_cons_self _ _)]
          rw [hueq]
          rfl
        · have h1 : ¬((us.username == n) = true) := by simp [hcase]
          rw [if_neg h1]
          by_cases hmem : us.username ∈ ns
          · rw [if_pos hmem, if_pos (List.mem_cons_of_mem _ hmem)]
          · rw [if_neg hmem, if_neg (fun hc => by
              rcases List.mem_cons.mp hc with hh1 | hh2
              · exact hcase hh1
              · exact hmem hh2)]
      rw [hcomp]
      simp [List.append_assoc]

/-- `cascadeStep_fold` with the initial database given as a whole. -/
theorem cascadeStep_fold' (id : ℕ) (rs : List ItemRev) (d : DB) (s0 : List String)
    (e0 : List Ev)
    (hnodup : (d.users.map (·.username)).Nodup)
    (hnames : (rs.map (·.username)).Nodup)
    (hnone : ∀ r ∈ rs, r.username ≠ "")
    (hfresh : ∀ r ∈ rs, r.username ∉ s0) :
    rs.foldl (cascadeStep id) (d, s0, e0)
      = (⟨d.items, d.users.map (fun us =>
            if us.username ∈ rs.map (·.username) then pullDecUser id us else us)⟩,
         s0 ++ rs.map (·.username),
         e0 ++ rs.map (fun r => Ev.pullUser r.username)) := by
  obtain ⟨items, users⟩ := d
  exact cascadeStep_fold id rs items users s0 e0 hnodup hnames hnone hfresh

/-- C6: deleting an item with `N` embedded reviews removes the item record,
pulls exactly one mirrored review-by-user entry from each of the `N` distinct
reviewers (their usernames are pairwise distinct, so `K = N`), decrements each
affected user's `reviewCount` once per removed review, leaves every other
document untouched, and — after the item record is removed — re-aggregates
each affected user exactly once, as the event trace shows. -/
theorem c6_item_cascade (db : DB) (hWF : WF db) (itemW : Item) (hitW : itemW ∈ db.items) :
    (deleteItem db itemW.iid).2.2 = Res.okRes ∧
    (deleteItem db itemW.iid).2.1
      = (itemW.reviews.map (fun r => Ev.pullUser r.username)) ++ [Ev.delItem itemW.iid]
        ++ (itemW.reviews.map (·.username)).map Ev.reaggUser ∧
    (itemW.reviews.map (·.username)).Nodup ∧
    (itemW.reviews.map (·.username)).length = itemW.reviews.length ∧
    getItem (deleteItem db itemW.iid).1 itemW.iid = none ∧
    (∀ us ∈ db.users, us.username ∈ itemW.reviews.map (·.username) →
      getUser (deleteItem db itemW.iid).1 us.username = some { us with
        itemReviews := us.itemReviews.filter (fun e => !(e.itemId == itemW.iid)),
        reviewCount := us.reviewCount - 1,
        averageRating := some (robustAvg ((us.itemReviews.filter
          (fun e => !(e.itemId == itemW.iid))).map (·.rating))) } ∧
      (us.itemReviews.filter (fun e => !(e.itemId == itemW.iid))).length + 1
        = us.itemReviews.length) ∧
    (∀ us ∈ db.users, us.username ∉ itemW.reviews.map (·.username) →
      getUser (deleteItem db itemW.iid).1 us.username = some us) ∧
    (∀ it ∈ db.items, it.iid ≠ itemW.iid →
      getItem (deleteItem db itemW.iid).1 it.iid = some it) := by
  have hnames : (itemW.reviews.map (·.username)).Nodup := hWF.pairUnique itemW hitW
  have hnonempty : ∀ r ∈ itemW.reviews, r.username ≠ "" :=
    fun r hr => (hWF.revFields itemW hitW r hr).1
  have hgetW : getItem db itemW.iid = some itemW :=
    find?_key_of_mem' hWF.itemsNodup hitW rfl
  have hg1 : ∀ us : User, ((fun us =>
      if us.username ∈ itemW.reviews.map (·.username)
      then pullDecUser itemW.iid us else us) us).username = us.username := by
    intro us
    by_cases h : us.username ∈ itemW.reviews.map (·.username) <;> simp [h, pullDecUser]
  have hg2 : ∀ us : User, ((fun us =>
      if us.username ∈ itemW.reviews.map (·.username)
      then reaggUserDoc us else us) us).username = us.username := by
    intro us
    by_cases h : us.username ∈ itemW.reviews.map (·.username) <;> simp [h, reaggUserDoc]
  have hfold := cascadeStep_fold' itemW.iid itemW.reviews db [] [] hWF.usersNodup hnames
    hnonempty (fun r _ hc => (List.not_mem_nil _) hc)
  have herase : db.items.eraseP (fun it => it.iid == itemW.iid)
      = db.items.filter (fun it => !(it.iid == itemW.iid)) :=
    eraseP_key_eq_filter Item.iid itemW.iid db.items hWF.itemsNodup
  have hany : db.items.any (fun it => it.iid == itemW.iid) = true :=
    List.any_eq_true.mpr ⟨itemW, hitW, beq_self_eq_true _⟩
  have hnd1 : ((db.users.map (fun us =>
      if us.username ∈ itemW.reviews.map (·.username)
      then pullDecUser itemW.iid us else us)).map (·.username)).Nodup := by
    rw [map_key_map hg1]
    exact hWF.usersNodup
  have hreagg := reagg_fold (itemW.reviews.map (·.username))
    (db.items.filter (fun it => !(it.iid == itemW.iid)))
    (db.users.map (fun us =>
      if us.username ∈ itemW.reviews.map (·.username)
      then pullDecUser itemW.iid us else us))
    ((itemW.reviews.map (fun r => Ev.pullUser r.username)) ++ [Ev.delItem itemW.iid])
    hnd1 hnames
  have hrun : deleteItem db itemW.iid
      = (⟨db.items.filter (fun it => !(it.iid == itemW.iid)),
          (db.users.map (fun us =>
            if us.username ∈ itemW.reviews.map (·.username)
            then pullDecUser itemW.iid us else us)).map (fun us =>
            if us.username ∈ itemW.reviews.map (·.username)
            then reaggUserDoc us else us)⟩,
         ((itemW.reviews.map (fun r => Ev.pullUser r.username)) ++ [Ev.delItem itemW.iid])
           ++ (itemW.reviews.map (·.username)).map Ev.reaggUser,
         Res.okRes) := by
    simp only [deleteItem, hgetW, hfold, List.nil_append, herase, hany, if_true, hreagg]
  refine ⟨by rw [hrun], by rw [hrun], hnames, by simp, ?_, ?_, ?_, ?_⟩
  · rw [hrun]
    show (db.items.filter (fun it => !(it.iid == itemW.iid))).find?
      (fun it => it.iid == itemW.iid) = none
    rw [List.find?_eq_none]
    intro x hx
    have h2 := (List.mem_filter.mp hx).2
    simp only [Bool.not_eq_eq_eq_not, Bool.not_true] at h2
    simp [h2]
  · intro us hus hmem
    have hlen : (us.itemReviews.filter (fun e => !(e.itemId == itemW.iid))).length + 1
        = us.itemReviews.length := by
      obtain ⟨r, hr, hrname⟩ := List.mem_map.mp hmem
      obtain ⟨us', hus', husname', e, he, herid, heitem, herat⟩ :=
        hWF.mirrorFwd itemW hitW r hr
      have : us' = us :=
        List.inj_on_of_nodup_map hWF.usersNodup hus' hus (by rw [husname', hrname])
      subst this
      exact length_filter_not_key (hWF.userPairUnique us' hus') he heitem
    refine ⟨?_, hlen⟩
    rw [hrun]
    show ((db.users.map (fun us =>
        if us.username ∈ itemW.reviews.map (·.username)
        then pullDecUser itemW.iid us else us)).map (fun us =>
        if us.username ∈ itemW.reviews.map (·.username)
        then reaggUserDoc us else us)).find? (fun u => u.username == us.username) = _
    rw [find?_key_map User.username us.username _ hg2 _,
      find?_key_map User.username us.username _ hg1 _,
      find?_key_of_mem' hWF.usersNodup hus rfl, Option.map_some', Option.map_some']
    rw [if_pos hmem]
    rw [if_pos (by
      show (pullDecUser itemW.iid us).username ∈ _
      exact hmem)]
    rfl
  · intro us hus hmem
    rw [hrun]
    show ((db.users.map (fun us =>
        if us.username ∈ itemW.reviews.map (·.username)
        then pullDecUser itemW.iid us else us)).map (fun us =>
        if us.username ∈ itemW.reviews.map (·.username)
        then reaggUserDoc us else us)).find? (fun u => u.username == us.username) = _
    rw [find?_key_map User.username us.username _ hg2 _,
      find?_key_map User.username us.username _ hg1 _,
      find?_key_of_mem' hWF.usersNodup hus rfl, Option.map_some', Option.map_some']
    rw [if_neg hmem, if_neg hmem]
  · intro it hit hne2
    rw [hrun]
    show (db.items.filter (fun x => !(x.iid == itemW.iid))).find?
      (fun x => x.iid == it.iid) = some it
    have hmemF : it ∈ db.items.filter (fun x => !(x.iid == itemW.iid)) :=
      List.mem_filter.mpr ⟨hit, by simp [hne2]⟩
    have hndF : ((db.items.filter (fun x => !(x.iid == itemW.iid))).map (·.iid)).Nodup :=
      ((List.filter_sublist db.items).map _).nodup hWF.itemsNodup
    exact find?_key_of_mem' hndF hmemF rfl

/-- Witness for C6 at `twoRevDb`: deleting the item removes both mirrored
entries, decrements both users' counts, and re-aggregates each of the two
distinct users exactly once, after the item deletion. -/
theorem c6_witness :
    (deleteItem twoRevDb 1).2.2 = Res.okRes ∧
    (deleteItem twoRevDb 1).2.1 = [Ev.pullUser "alice", Ev.pullUser "bob", Ev.delItem 1,
      Ev.reaggUser "alice", Ev.reaggUser "bob"] ∧
    getItem (deleteItem twoRevDb 1).1 1 = none ∧
    getUser (deleteItem twoRevDb 1).1 "alice" = some ⟨"alice", some 0, 0, []⟩ ∧
    getUser (deleteItem twoRevDb 1).1 "bob" = some ⟨"bob", some 0, 0, []⟩ := by
  have h := c6_item_cascade twoRevDb
    (by refine ⟨?_, ?_, ?_, ?_, ?_, ?_, ?_, ?_, ?_, ?_⟩ <;> decide)
    ⟨1, "Lamp", some 6, 2,
      [⟨1, "alice", RVal.num 8, "great"⟩, ⟨2, "bob", RVal.num 4, "meh"⟩]⟩ (by decide)
  obtain ⟨hok, hevs, hnd, hlen, hnone, haff, hun, hoth⟩ := h
  have ha := haff ⟨"alice", some 8, 1, [⟨1, 1, "Lamp", RVal.num 8, "great"⟩]⟩
    (by decide) (by decide)
  have hb := haff ⟨"bob", some 4, 1, [⟨2, 1, "Lamp", RVal.num 4, "meh"⟩]⟩
    (by decide) (by decide)
  exact ⟨hok, hevs.trans (by decide), hnone, ha.1.trans (by decide), hb.1.trans (by decide)⟩

/-! ## Reachability and the global invariant (towards C1 and C2) -/

/-- The simple (JavaScript `+`) aggregation helper agrees with the robust one
on any review list whose ratings are all numbers — shared backbone of the
consistency argument for the simple re-aggregations of DELETE and PUT. -/
theorem simpleAvg_num_eq (l : List RVal)
    (h : ∀ v ∈ l, ∃ q : ℚ, v = RVal.num q) :
    simpleAvg l = some (robustAvg l) := by
  have hsum := jsAdd_foldl_num l h 0
  have hlen := filterMap_ratingNum_length l h
  rw [simpleAvg, robustAvg_eq, hsum]
  rcases l with _ | ⟨v, t⟩
  · simp
  · have hpos : 0 < (v :: t).length := List.length_pos.mpr (by simp)
    have hne : (v :: t).filterMap ratingNum ≠ [] := by
      intro hc
      rw [← List.length_eq_zero, hlen] at hc
      simp at hc
    simp only [hpos, if_true, if_neg hne, zero_add, qdivNat_eq, hlen]

/-- Whether a review identifier occurs in some item's embedded review list. -/
def ridUsedI (db : DB) (id : ℕ) : Bool :=
  db.items.any (fun it => it.reviews.any (fun r => r.rid == id))

/-- Whether a review identifier occurs in some user's embedded list. -/
def ridUsedU (db : DB) (id : ℕ) : Bool :=
  db.users.any (fun us => us.itemReviews.any (fun e => e.rid == id))

/-- Whether a review identifier occurs anywhere in the database.  A freshly
minted ObjectId is unused in this sense; that uniqueness is the driver's
guarantee and enters the model as a hypothesis. -/
def ridUsed (db : DB) (id : ℕ) : Bool :=
  ridUsedI db id || ridUsedU db id

/-- An item document whose review list was replaced and whose rating was
re-aggregated robustly. -/
def reaggedItem (it : Item) (rs : List ItemRev) (n : ℤ) : Item :=
  ⟨it.iid, it.name, some (robustAvg (rs.map (·.rating))), n, rs⟩

/-- A user document whose review list was replaced and whose average was
re-aggregated robustly. -/
def reaggedUser (us : User) (es : List UserRev) (n : ℤ) : User :=
  ⟨us.username, some (robustAvg (es.map (·.rating))), n, es⟩

/-- As `reaggedItem`, with the simple (JavaScript `+`) aggregator of
`app/api/reviews/[id]/route.ts`. -/
def simpleReaggedItem (it : Item) (rs : List ItemRev) (n : ℤ) : Item :=
  ⟨it.iid, it.name, simpleAvg (rs.map (·.rating)), n, rs⟩

/-- As `reaggedUser`, with the simple aggregator. -/
def simpleReaggedUser (us : User) (es : List UserRev) (n : ℤ) : User :=
  ⟨us.username, simpleAvg (es.map (·.rating)), n, es⟩

/-- An item re-aggregated in place (the per-item write of the user-deletion
cascade's final loop). -/
def reaggItemDoc (it : Item) : Item :=
  { it with rating := some (robustAvg (it.reviews.map (·.rating))) }

/-- Surgical replacement in a collection: every document carrying the given
key (at most one, in the well-formed states we care about) is replaced by the
fixed document `xN`.  All single-review routes leave both collections in this
shape. -/
def surgKey {α : Type _} {β : Type _} [BEq β] (key : α → β) (l : List α) (k : β) (xN : α) :
    List α :=
  l.map (fun x => if key x == k then xN else x)

section SurgKey

variable {α : Type _} {β : Type _} [BEq β] [LawfulBEq β]

/-- `updateOne` by key on a duplicate-free collection containing a matching
member is the surgical replacement by the updated member. -/
theorem updFirst_key_surg (key : α → β) {l : List α} {x0 : α} {k : β}
    (hnd : (l.map key).Nodup) (hx0 : x0 ∈ l) (hk : key x0 = k) (f : α → α) :
    updFirst (fun x => key x == k) f l = surgKey key l k (f x0) := by
  rw [updFirst_key_eq_map key k f l hnd, surgKey]
  refine List.map_congr_left (fun x hx => ?_)
  by_cases hc : (key x == k) = true
  · have hxx : x = x0 := List.inj_on_of_nodup_map hnd hx hx0 (by rw [eq_of_beq hc, hk])
    rw [if_pos hc, if_pos hc, hxx]
  · rw [if_neg hc, if_neg hc]

/-- As `updFirst_key_surg`, for a filter conjoining the key with an extra
condition satisfied by the matching member. -/
theorem updFirst_keyc_surg (key : α → β) {l : List α} {x0 : α} {k : β} {c : α → Bool}
    (hnd : (l.map key).Nodup) (hx0 : x0 ∈ l) (hk : key x0 = k) (hc0 : c x0 = true)
    (f : α → α) :
    updFirst (fun x => key x == k && c x) f l = surgKey key l k (f x0) := by
  rw [updFirst_keyc_eq_map key k c f l hnd, surgKey]
  refine List.map_congr_left (fun x hx => ?_)
  by_cases hcc : (key x == k) = true
  · have hxx : x = x0 := List.inj_on_of_nodup_map hnd hx hx0 (by rw [eq_of_beq hcc, hk])
    subst hxx
    rw [if_pos (by simp [hcc, hc0]), if_pos hcc]
  · rw [if_neg (by simp [hcc]), if_neg hcc]

/-- Two surgical replacements at the same key collapse to the second. -/
theorem surgKey_surgKey {l : List α} {k : β} {xN xM : α} (hN : key xN = k) :
    surgKey key (surgKey key l k xN) k xM = surgKey key l k xM := by
  rw [surgKey, surgKey, surgKey, List.map_map]
  refine List.map_congr_left (fun x hx => ?_)
  simp only [Function.comp]
  by_cases hc : (key x == k) = true <;> simp [hc, hN]

/-- A surgical replacement whose document carries the key leaves the key
column unchanged. -/
theorem map_key_surgKey {l : List α} {k : β} {xN : α} (hN : key xN = k) :
    (surgKey key l k xN).map key = l.map key := by
  rw [surgKey, List.map_map]
  refine List.map_congr_left (fun x hx => ?_)
  simp only [Function.comp]
  by_cases hc : (key x == k) = true
  · rw [if_pos hc, hN, eq_of_beq hc]
  · rw [if_neg hc]

/-- `findOne` by the surgical key finds the replacement document. -/
theorem find?_key_surgKey_self {l : List α} {x0 : α} {k : β} {xN : α}
    (hnd : (l.map key).Nodup) (hx0 : x0 ∈ l) (hk : key x0 = k) (hN : key xN = k) :
    (surgKey key l k xN).find? (fun x => key x == k) = some xN := by
  have hg : ∀ x, key (if key x == k then xN else x) = key x := by
    intro x
    by_cases hc : (key x == k) = true
    · rw [if_pos hc, hN, eq_of_beq hc]
    · rw [if_neg hc]
  rw [surgKey, find?_key_map key k _ hg l, find?_key_of_mem' hnd hx0 hk,
    Option.map_some']
  rw [if_pos (by simp [hk])]

/-- `findOne` by any other key is unaffected by a surgical replacement. -/
theorem find?_key_surgKey_other {l : List α} {k k' : β} {xN : α}
    (hN : key xN = k) (hkk : k' ≠ k) :
    (surgKey key l k xN).find? (fun x => key x == k')
      = l.find? (fun x => key x == k') := by
  have hg : ∀ x, key (if key x == k then xN else x) = key x ∨
      (key (if key x == k then xN else x) = k ∧ key x = k) := by
    intro x
    by_cases hc : (key x == k) = true
    · rw [if_pos hc, hN, eq_of_beq hc]
      left
      rfl
    · rw [if_neg hc]
      left
      rfl
  induction l with
  | nil => rfl
  | cons x t ih =>
    by_cases hc : (key x == k) = true
    · have hx' : ¬(key x == k') = true := by
        intro hb
        exact hkk (by rw [← eq_of_beq hb, eq_of_beq hc])
      have hxN : ¬(key xN == k') = true := by
        intro hb
        exact hkk (by rw [← eq_of_beq hb, hN])
      rw [show surgKey key (x :: t) k xN = xN :: surgKey key t k xN from by
        simp [surgKey, hc]]
      rw [@List.find?_cons_of_neg _ (fun x => key x == k') xN _ hxN,
        @List.find?_cons_of_neg _ (fun x => key x == k') x t hx', ih]
    · rw [show surgKey key (x :: t) k xN = x :: surgKey key t k xN from by
        simp [surgKey, hc]]
      by_cases hx' : (key x == k') = true
      · rw [@List.find?_cons_of_pos _ (fun x => key x == k') x _ hx',
          @List.find?_cons_of_pos _ (fun x => key x == k') x t hx']
      · rw [@List.find?_cons_of_neg _ (fun x => key x == k') x _ hx',
          @List.find?_cons_of_neg _ (fun x => key x == k') x t hx', ih]

/-- Members of a surgical replacement: the new document, or an untouched
member with a different key. -/
theorem mem_surgKey_elim {l : List α} {k : β} {xN : α} {y : α}
    (hy : y ∈ surgKey key l k xN) : y = xN ∨ (y ∈ l ∧ key y ≠ k) := by
  obtain ⟨x, hx, hxy⟩ := List.mem_map.mp hy
  by_cases hc : (key x == k) = true
  · left
    rw [← hxy, if_pos hc]
  · right
    rw [← hxy, if_neg hc]
    exact ⟨hx, by simpa using hc⟩

/-- The replacement document is a member as soon as some member matched. -/
theorem self_mem_surgKey {l : List α} {x0 : α} {k : β} {xN : α}
    (hx0 : x0 ∈ l) (hk : key x0 = k) : xN ∈ surgKey key l k xN :=
  List.mem_map.mpr ⟨x0, hx0, by rw [if_pos (by simp [hk])]⟩

/-- Unmatched members persist through a surgical replacement. -/
theorem other_mem_surgKey {l : List α} {y : α} {k : β} (xN : α)
    (hy : y ∈ l) (hne : key y ≠ k) : y ∈ surgKey key l k xN :=
  List.mem_map.mpr ⟨y, hy, by rw [if_neg (by simpa using hne)]⟩

end SurgKey

/-- An `updateOne` whose found document the update does not change leaves the
collection unchanged. -/
theorem updFirst_eq_of_fix {α : Type _} {p : α → Bool} {f : α → α} {l : List α} {x : α}
    (hfind : l.find? p = some x) (hfx : f x = x) : updFirst p f l = l := by
  induction l with
  | nil => simp at hfind
  | cons y t ih =>
    by_cases hy : p y = true
    · rw [List.find?_cons_of_pos _ hy] at hfind
      injection hfind with hfind
      subst hfind
      simp [updFirst, hy, hfx]
    · rw [List.find?_cons_of_neg _ hy] at hfind
      simp [updFirst, hy, ih hfind]

/-- An `updateOne` with `modifiedCount = 0` leaves the collection unchanged. -/
theorem updFirst_eq_of_not_modified {α : Type _} [DecidableEq α] {p : α → Bool} {f : α → α}
    {l : List α} (h : modifiedOne p f l = false) : updFirst p f l = l := by
  unfold modifiedOne at h
  cases hfind : l.find? p with
  | none =>
    refine updFirst_eq_of_none (fun x hx => ?_)
    rw [List.find?_eq_none] at hfind
    exact Bool.not_eq_true _ ▸ Bool.eq_false_iff.mpr (hfind x hx)
  | some x =>
    rw [hfind] at h
    simp only [decide_eq_false_iff_not, Decidable.not_not] at h
    exact updFirst_eq_of_fix hfind h

/-- In a well-formed state every item-side rating is a number. -/
theorem wf_item_ratings_num {db : DB} (hWF : WF db) {it : Item} (hit : it ∈ db.items) :
    ∀ v ∈ it.reviews.map (·.rating), ∃ q : ℚ, v = RVal.num q := by
  intro v hv
  obtain ⟨r, hr, rfl⟩ := List.mem_map.mp hv
  obtain ⟨q, hq, _, _⟩ := (ratingOK_iff _).mp (hWF.revFields it hit r hr).2
  exact ⟨q, hq⟩

/-- In a well-formed state every user-side rating is a number (it mirrors an
item-side one). -/
theorem wf_user_ratings_num {db : DB} (hWF : WF db) {us : User} (hus : us ∈ db.users) :
    ∀ v ∈ us.itemReviews.map (·.rating), ∃ q : ℚ, v = RVal.num q := by
  intro v hv
  obtain ⟨e, he, rfl⟩ := List.mem_map.mp hv
  obtain ⟨it, hit, hiid, r, hr, hrid, hrn, hrat⟩ := hWF.mirrorBwd us hus e he
  obtain ⟨q, hq, _, _⟩ := (ratingOK_iff _).mp (hWF.revFields it hit r hr).2
  exact ⟨q, by rw [← hrat, hq]⟩

/-- The master preservation lemma for the single-review routes.  Each success
path replaces one item document and one user document surgically; the listed
local conditions relate the two new documents to the two old ones, and are
exactly what is needed to carry well-formedness and aggregate consistency
through the write. -/
theorem surgical_preserves (items : List Item) (users : List User)
    (hWF : WF ⟨items, users⟩) (hCon : Consistent ⟨items, users⟩)
    (item itemN : Item) (user userN : User)
    (hitem : item ∈ items) (huser : user ∈ users)
    (hNiid : itemN.iid = item.iid) (hNun : userN.username = user.username)
    (h3i : (itemN.reviews.map (·.rid)).Nodup)
    (h3u : (userN.itemReviews.map (·.rid)).Nodup)
    (h5 : ∀ r1 ∈ itemN.reviews, ∀ it' ∈ items, ∀ r2 ∈ it'.reviews,
      r2.rid = r1.rid → it'.iid = item.iid)
    (h6 : (itemN.reviews.map (·.username)).Nodup)
    (h7 : (userN.itemReviews.map (·.itemId)).Nodup)
    (h8a : ∀ r ∈ itemN.reviews, r.username = user.username →
      ∃ e ∈ userN.itemReviews, e.rid = r.rid ∧ e.itemId = item.iid ∧ e.rating = r.rating)
    (h8b : ∀ r ∈ itemN.reviews, r.username ≠ user.username → r ∈ item.reviews)
    (h8c : ∀ e ∈ user.itemReviews, e.itemId ≠ item.iid → e ∈ userN.itemReviews)
    (h9a : ∀ e ∈ userN.itemReviews, e.itemId = item.iid →
      ∃ r ∈ itemN.reviews, r.rid = e.rid ∧ r.username = user.username ∧ r.rating = e.rating)
    (h9b : ∀ e ∈ userN.itemReviews, e.itemId ≠ item.iid → e ∈ user.itemReviews)
    (h9c : ∀ r ∈ item.reviews, r.username ≠ user.username → r ∈ itemN.reviews)
    (h10 : ∀ r ∈ itemN.reviews, r.username ≠ "" ∧ ratingOK r.rating = true)
    (hc1r : itemN.rating = some (robustAvg (itemN.reviews.map (·.rating))))
    (hc1n : itemN.reviewCount = itemN.reviews.length)
    (hc2r : userN.averageRating = some (robustAvg (userN.itemReviews.map (·.rating))))
    (hc2n : userN.reviewCount = userN.itemReviews.length) :
    WF ⟨surgKey Item.iid items item.iid itemN,
        surgKey User.username users user.username userN⟩ ∧
    Consistent ⟨surgKey Item.iid items item.iid itemN,
        surgKey User.username users user.username userN⟩ := by
  have hmemI : ∀ y ∈ surgKey Item.iid items item.iid itemN,
      y = itemN ∨ (y ∈ items ∧ y.iid ≠ item.iid) := fun y hy => mem_surgKey_elim hy
  have hmemU : ∀ y ∈ surgKey User.username users user.username userN,
      y = userN ∨ (y ∈ users ∧ y.username ≠ user.username) := fun y hy => mem_surgKey_elim hy
  have hitemN : itemN ∈ surgKey Item.iid items item.iid itemN := self_mem_surgKey hitem rfl
  have huserN : userN ∈ surgKey User.username users user.username userN :=
    self_mem_surgKey huser rfl
  have hotherI : ∀ y ∈ items, y.iid ≠ item.iid → y ∈ surgKey Item.iid items item.iid itemN :=
    fun y hy h => other_mem_surgKey _ hy h
  have hotherU : ∀ y ∈ users, y.username ≠ user.username →
      y ∈ surgKey User.username users user.username userN :=
    fun y hy h => other_mem_surgKey _ hy h
  refine ⟨⟨?_, ?_, ?_, ?_, ?_, ?_, ?_, ?_, ?_, ?_⟩, ?_, ?_⟩
  · show ((surgKey Item.iid items item.iid itemN).map Item.iid).Nodup
    rw [map_key_surgKey hNiid]
    exact hWF.itemsNodup
  · show ((surgKey User.username users user.username userN).map User.username).Nodup
    rw [map_key_surgKey hNun]
    exact hWF.usersNodup
  · intro it' hit'
    rcases hmemI it' hit' with rfl | ⟨hm, _⟩
    · exact h3i
    · exact hWF.itemRidsNodup it' hm
  · intro us' hus'
    rcases hmemU us' hus' with rfl | ⟨hm, _⟩
    · exact h3u
    · exact hWF.userRidsNodup us' hm
  · intro it1 h1 it2 h2 r1 hr1 r2 hr2 hrid
    rcases hmemI it1 h1 with rfl | ⟨hm1, hne1⟩ <;> rcases hmemI it2 h2 with rfl | ⟨hm2, hne2⟩
    · rfl
    · exact absurd (h5 r1 hr1 it2 hm2 r2 hr2 hrid.symm) hne2
    · exact absurd (h5 r2 hr2 it1 hm1 r1 hr1 hrid) hne1
    · exact hWF.ridsCross it1 hm1 it2 hm2 r1 hr1 r2 hr2 hrid
  · intro it' hit'
    rcases hmemI it' hit' with rfl | ⟨hm, _⟩
    · exact h6
    · exact hWF.pairUnique it' hm
  · intro us' hus'
    rcases hmemU us' hus' with rfl | ⟨hm, _⟩
    · exact h7
    · exact hWF.userPairUnique us' hm
  · intro it' hit' r hr
    rcases hmemI it' hit' with rfl | ⟨hm, hne⟩
    · by_cases hu : r.username = user.username
      · obtain ⟨e, he, her, hei, hea⟩ := h8a r hr hu
        exact ⟨userN, huserN, by rw [hNun, hu], e, he, her, by rw [hNiid]; exact hei, hea⟩
      · have hrm := h8b r hr hu
        obtain ⟨us1, hus1, husn1, e, he, her, hei, hea⟩ := hWF.mirrorFwd item hitem r hrm
        have hus1ne : us1.username ≠ user.username := by rw [husn1]; exact hu
        exact ⟨us1, hotherU us1 hus1 hus1ne, husn1, e, he, her,
          by rw [hNiid]; exact hei, hea⟩
    · obtain ⟨us1, hus1, husn1, e, he, her, hei, hea⟩ := hWF.mirrorFwd it' hm r hr
      by_cases hu : us1.username = user.username
      · have hus1eq : us1 = user := List.inj_on_of_nodup_map hWF.usersNodup hus1 huser hu
        subst hus1eq
        have hee := h8c e he (by rw [hei]; exact hne)
        exact ⟨userN, huserN, by rw [hNun, ← husn1], e, hee, her, hei, hea⟩
      · exact ⟨us1, hotherU us1 hus1 hu, husn1, e, he, her, hei, hea⟩
  · intro us' hus' e he
    rcases hmemU us' hus' with rfl | ⟨hm, hne⟩
    · by_cases hid : e.itemId = item.iid
      · obtain ⟨r, hrm, hrr, hrn, hra⟩ := h9a e he hid
        exact ⟨itemN, hitemN, by rw [hNiid, hid], r, hrm, hrr, by rw [hNun]; exact hrn, hra⟩
      · have hem := h9b e he hid
        obtain ⟨it1, hit1, hii, r, hrm, hrr, hrn, hra⟩ := hWF.mirrorBwd user huser e hem
        have hit1ne : it1.iid ≠ item.iid := by rw [hii]; exact hid
        exact ⟨it1, hotherI it1 hit1 hit1ne, hii, r, hrm, hrr,
          by rw [hNun]; exact hrn, hra⟩
    · obtain ⟨it1, hit1, hii, r, hrm, hrr, hrn, hra⟩ := hWF.mirrorBwd us' hm e he
      by_cases hid : it1.iid = item.iid
      · have hit1eq : it1 = item := List.inj_on_of_nodup_map hWF.itemsNodup hit1 hitem hid
        subst hit1eq
        have hrne : r.username ≠ user.username := by rw [hrn]; exact hne
        have hrr2 := h9c r hrm hrne
        exact ⟨itemN, hitemN, by rw [hNiid]; exact hii, r, hrr2, hrr, hrn, hra⟩
      · exact ⟨it1, hotherI it1 hit1 hid, hii, r, hrm, hrr, hrn, hra⟩
  · intro it' hit' r hr
    rcases hmemI it' hit' with rfl | ⟨hm, _⟩
    · exact h10 r hr
    · exact hWF.revFields it' hm r hr
  · intro it' hit'
    rcases hmemI it' hit' with rfl | ⟨hm, _⟩
    · exact ⟨hc1r, hc1n⟩
    · exact hCon.1 it' hm
  · intro us' hus'
    rcases hmemU us' hus' with rfl | ⟨hm, _⟩
    · exact ⟨hc2r, hc2n⟩
    · exact hCon.2 us' hm

/-- Canonical form of a successful DELETE `/api/reviews/[id]`: both
collections undergo a surgical replacement — the located item and the owning
user get the filtered lists, decremented counts and (simple) re-aggregated
averages — and the route reports success. -/
theorem deleteReview_shape (db : DB) (id : ℕ) (hWF : WF db)
    (itemW : Item) (hitW : itemW ∈ db.items)
    (review : ItemRev) (hrev : review ∈ itemW.reviews) (hid : review.rid = id)
    (us0 : User) (hus0 : us0 ∈ db.users) (husn : us0.username = review.username) :
    deleteReview db id =
      (⟨surgKey Item.iid db.items itemW.iid
          (simpleReaggedItem itemW (itemW.reviews.filter (fun r => !(r.rid == id)))
            (itemW.reviewCount - 1)),
        surgKey User.username db.users review.username
          (simpleReaggedUser us0 (us0.itemReviews.filter (fun e => !(e.rid == id)))
            (us0.reviewCount - 1))⟩, Res.okRes) := by
  have hfind := wf_find_item_by_rid hWF hitW hrev hid
  have hfrev := find_rev_by_rid (hWF.itemRidsNodup itemW hitW) hrev hid
  have hgetW : db.items.find? (fun it => it.iid == itemW.iid) = some itemW :=
    find?_key_of_mem' hWF.itemsNodup hitW rfl
  have hitemMod : modifiedOne (fun it => it.iid == itemW.iid)
      (delItemDoc id) db.items = true :=
    modifiedOne_of_ne hgetW (delItemDoc_ne id itemW)
  have hdel : deleteReview db id =
      (updateUserRatingSimple
        (updateItemRatingSimple
          ⟨updFirst (fun it => it.iid == itemW.iid) (delItemDoc id) db.items,
           updFirst (fun u => u.username == review.username) (delUserDoc id) db.users⟩
          itemW.iid)
        review.username, Res.okRes) := by
    simp only [deleteReview, hfind, hfrev, hitemMod, Bool.not_true, Bool.false_and,
      Bool.false_eq_true, if_false]
  have hI1 : updFirst (fun it => it.iid == itemW.iid) (delItemDoc id) db.items
      = surgKey Item.iid db.items itemW.iid (delItemDoc id itemW) :=
    updFirst_key_surg Item.iid hWF.itemsNodup hitW rfl (delItemDoc id)
  have hU1 : updFirst (fun u => u.username == review.username) (delUserDoc id) db.users
      = surgKey User.username db.users review.username (delUserDoc id us0) :=
    updFirst_key_surg User.username hWF.usersNodup hus0 husn (delUserDoc id)
  have hNi : (delItemDoc id itemW).iid = itemW.iid := rfl
  have hNu : (delUserDoc id us0).username = review.username := husn
  have hndI1 : ((surgKey Item.iid db.items itemW.iid (delItemDoc id itemW)).map
      Item.iid).Nodup := by
    rw [map_key_surgKey hNi]
    exact hWF.itemsNodup
  have hmemI1 : delItemDoc id itemW
      ∈ surgKey Item.iid db.items itemW.iid (delItemDoc id itemW) :=
    self_mem_surgKey hitW rfl
  have hndU1 : ((surgKey User.username db.users review.username
      (delUserDoc id us0)).map User.username).Nodup := by
    rw [map_key_surgKey hNu]
    exact hWF.usersNodup
  have hmemU1 : delUserDoc id us0
      ∈ surgKey User.username db.users review.username (delUserDoc id us0) :=
    self_mem_surgKey hus0 husn
  have hget1 : getItem ⟨updFirst (fun it => it.iid == itemW.iid) (delItemDoc id) db.items,
      updFirst (fun u => u.username == review.username) (delUserDoc id) db.users⟩ itemW.iid
      = some (delItemDoc id itemW) := by
    show (updFirst (fun it => it.iid == itemW.iid) (delItemDoc id) db.items).find?
      (fun it => it.iid == itemW.iid) = _
    rw [hI1]
    exact find?_key_surgKey_self hWF.itemsNodup hitW rfl rfl
  have hUIR := updateItemRatingSimple_eval _ itemW.iid _ hget1
  have hget2 : getUser (updateItemRatingSimple
      ⟨updFirst (fun it => it.iid == itemW.iid) (delItemDoc id) db.items,
       updFirst (fun u => u.username == review.username) (delUserDoc id) db.users⟩
      itemW.iid) review.username = some (delUserDoc id us0) := by
    rw [hUIR]
    show (updFirst (fun u => u.username == review.username) (delUserDoc id) db.users).find?
      (fun u => u.username == review.username) = _
    rw [hU1]
    exact find?_key_surgKey_self hWF.usersNodup hus0 husn husn
  have hUUR := updateUserRatingSimple_eval _ review.username _ hget2
  rw [hdel, hUUR, hUIR]
  show ((⟨updFirst (fun it => it.iid == itemW.iid)
        (fun it => { it with
          rating := simpleAvg ((delItemDoc id itemW).reviews.map (·.rating)) })
        (updFirst (fun it => it.iid == itemW.iid) (delItemDoc id) db.items),
      updFirst (fun u => u.username == review.username)
        (fun u => { u with
          averageRating := simpleAvg ((delUserDoc id us0).itemReviews.map (·.rating)) })
        (updFirst (fun u => u.username == review.username) (delUserDoc id) db.users)⟩ : DB),
    Res.okRes) = _
  rw [hI1, hU1,
    updFirst_key_surg Item.iid hndI1 hmemI1 hNi
      (fun it => { it with
        rating := simpleAvg ((delItemDoc id itemW).reviews.map (·.rating)) }),
    updFirst_key_surg User.username hndU1 hmemU1 hNu
      (fun u => { u with
        averageRating := simpleAvg ((delUserDoc id us0).itemReviews.map (·.rating)) }),
    surgKey_surgKey hNi, surgKey_surgKey hNu]
  rfl

/-- Filtering preserves duplicate-freeness of any projected column. -/
theorem nodup_map_filter {α : Type _} {β : Type _} (key : α → β) (p : α → Bool)
    {l : List α} (h : (l.map key).Nodup) : ((l.filter p).map key).Nodup :=
  List.Nodup.sublist (List.Sublist.map key (List.filter_sublist l)) h

/-- DELETE `/api/reviews/[id]` preserves well-formedness and aggregate
consistency, on every control path. -/
theorem deleteReview_preserves (db : DB) (id : ℕ) (hWF : WF db) (hCon : Consistent db) :
    WF (deleteReview db id).1 ∧ Consistent (deleteReview db id).1 := by
  rcases hfind : db.items.find? (fun it => it.reviews.any (fun r => r.rid == id))
    with _ | itemW
  · have hstate : deleteReview db id = (db, .notFound) := by
      simp [deleteReview, hfind]
    rw [hstate]
    exact ⟨hWF, hCon⟩
  · have hitW := List.mem_of_find?_eq_some hfind
    rcases hfrev : itemW.reviews.find? (fun r => r.rid == id) with _ | review
    · have hstate : deleteReview db id = (db, .notFound) := by
        simp [deleteReview, hfind, hfrev]
      rw [hstate]
      exact ⟨hWF, hCon⟩
    · have hrev := List.mem_of_find?_eq_some hfrev
      have hid : review.rid = id := by simpa using List.find?_some hfrev
      obtain ⟨us0, hus0, husn, e0, he0, he0rid, he0iid, he0rat⟩ :=
        hWF.mirrorFwd itemW hitW review hrev
      rw [deleteReview_shape db id hWF itemW hitW review hrev hid us0 hus0 husn, ← husn]
      have hfilt : ∀ r ∈ itemW.reviews.filter (fun r => !(r.rid == id)),
          r ∈ itemW.reviews ∧ r.rid ≠ id := by
        intro r hr
        refine ⟨List.mem_of_mem_filter hr, ?_⟩
        have := (List.mem_filter.mp hr).2
        simpa using this
      have hfiltU : ∀ e ∈ us0.itemReviews.filter (fun e => !(e.rid == id)),
          e ∈ us0.itemReviews ∧ e.rid ≠ id := by
        intro e he
        refine ⟨List.mem_of_mem_filter he, ?_⟩
        have := (List.mem_filter.mp he).2
        simpa using this
      refine surgical_preserves db.items db.users hWF hCon itemW _ us0 _ hitW hus0 rfl rfl
        ?_ ?_ ?_ ?_ ?_ ?_ ?_ ?_ ?_ ?_ ?_ ?_ ?_ ?_ ?_ ?_
      · exact nodup_map_filter _ _ (hWF.itemRidsNodup itemW hitW)
      · exact nodup_map_filter _ _ (hWF.userRidsNodup us0 hus0)
      · intro r1 hr1 it' hm r2 hr2 hrid
        exact hWF.ridsCross it' hm itemW hitW r2 hr2 r1 (hfilt r1 hr1).1 hrid
      · exact nodup_map_filter _ _ (hWF.pairUnique itemW hitW)
      · exact nodup_map_filter _ _ (hWF.userPairUnique us0 hus0)
      · intro r hr hu
        obtain ⟨hrm, hrne⟩ := hfilt r hr
        obtain ⟨us1, hus1, husn1, e, he, her, hei, hea⟩ := hWF.mirrorFwd itemW hitW r hrm
        have hus1eq : us1 = us0 :=
          List.inj_on_of_nodup_map hWF.usersNodup hus1 hus0 (by rw [husn1, hu])
        subst hus1eq
        refine ⟨e, List.mem_filter.mpr ⟨he, by simp [her, hrne]⟩, her, hei, hea⟩
      · intro r hr _
        exact (hfilt r hr).1
      · intro e he hne
        have herid : e.rid ≠ id := by
          intro hc
          obtain ⟨it1, hit1, hii, r1, hr1m, hr1r, _, _⟩ := hWF.mirrorBwd us0 hus0 e he
          have : it1.iid = itemW.iid :=
            hWF.ridsCross it1 hit1 itemW hitW r1 hr1m review hrev (by rw [hr1r, hc, hid])
          exact hne (by rw [← hii, this])
        exact List.mem_filter.mpr ⟨he, by simpa using herid⟩
      · intro e he hei
        obtain ⟨hem, hene⟩ := hfiltU e he
        obtain ⟨it1, hit1, hii, r1, hr1m, hr1r, hr1n, hr1a⟩ := hWF.mirrorBwd us0 hus0 e hem
        have hit1eq : it1 = itemW :=
          List.inj_on_of_nodup_map hWF.itemsNodup hit1 hitW (by rw [hii, hei])
        subst hit1eq
        refine ⟨r1, List.mem_filter.mpr ⟨hr1m, by simp [hr1r, hene]⟩, hr1r, hr1n, hr1a⟩
      · intro e he _
        exact (hfiltU e he).1
      · intro r hrm hrne
        have : r.rid ≠ id := by
          intro hc
          exact hrne (by
            have : r = review := List.inj_on_of_nodup_map
              (hWF.itemRidsNodup itemW hitW) hrm hrev (by rw [hc, hid])
            rw [this, ← husn])
        exact List.mem_filter.mpr ⟨hrm, by simpa using this⟩
      · intro r hr
        exact hWF.revFields itemW hitW r (hfilt r hr).1
      · show simpleAvg ((itemW.reviews.filter (fun r => !(r.rid == id))).map (·.rating))
          = some (robustAvg ((itemW.reviews.filter (fun r => !(r.rid == id))).map (·.rating)))
        refine simpleAvg_num_eq _ (fun v hv => ?_)
        obtain ⟨r, hr, rfl⟩ := List.mem_map.mp hv
        exact wf_item_ratings_num hWF hitW _
          (List.mem_map_of_mem _ (List.mem_of_mem_filter hr))
      · show itemW.reviewCount - 1
          = ((itemW.reviews.filter (fun r => !(r.rid == id))).length : ℤ)
        have hlen := length_filter_not_key (hWF.itemRidsNodup itemW hitW) hrev hid
        have hcnt := (hCon.1 itemW hitW).2
        omega
      · show simpleAvg ((us0.itemReviews.filter (fun e => !(e.rid == id))).map (·.rating))
          = some (robustAvg ((us0.itemReviews.filter (fun e => !(e.rid == id))).map (·.rating)))
        refine simpleAvg_num_eq _ (fun v hv => ?_)
        obtain ⟨e, he, rfl⟩ := List.mem_map.mp hv
        exact wf_user_ratings_num hWF hus0 _
          (List.mem_map_of_mem _ (List.mem_of_mem_filter he))
      · show us0.reviewCount - 1
          = ((us0.itemReviews.filter (fun e => !(e.rid == id))).length : ℤ)
        have hlen := length_filter_not_key (hWF.userRidsNodup us0 hus0) he0
          (by rw [he0rid, hid])
        have hcnt := (hCon.2 us0 hus0).2
        omega

/-- Core preservation argument for a successful PUT `/api/reviews/[id]`: both
post-state documents carry the positionally updated review lists; the stored
aggregates are parameters, constrained to be the robust average of the new
lists (the two callers discharge this for the re-aggregated and for the
untouched rating respectively). -/
theorem putReview_surgical (db : DB) (id : ℕ) (rating? : Option ℚ) (comment? : Option String)
    (hWF : WF db) (hCon : Consistent db)
    (itemW : Item) (hitW : itemW ∈ db.items)
    (review : ItemRev) (hrev : review ∈ itemW.reviews) (hid : review.rid = id)
    (us0 : User) (hus0 : us0 ∈ db.users) (husn : us0.username = review.username)
    (e0 : UserRev) (he0 : e0 ∈ us0.itemReviews) (he0rid : e0.rid = review.rid)
    (he0iid : e0.itemId = itemW.iid) (he0rat : e0.rating = review.rating)
    (hqOK : ∀ q : ℚ, rating? = some q → ratingOK (RVal.num q) = true)
    (ratN avgN : Option ℚ)
    (hratN : ratN = some (robustAvg
      ((updFirst (fun r => r.rid == id) (setItemRevFields rating? comment?)
        itemW.reviews).map (·.rating))))
    (havgN : avgN = some (robustAvg
      ((updFirst (fun e => e.rid == id) (setUserRevFields rating? comment?)
        us0.itemReviews).map (·.rating)))) :
    WF ⟨surgKey Item.iid db.items itemW.iid
          ⟨itemW.iid, itemW.name, ratN, itemW.reviewCount,
            updFirst (fun r => r.rid == id) (setItemRevFields rating? comment?)
              itemW.reviews⟩,
        surgKey User.username db.users us0.username
          ⟨us0.username, avgN, us0.reviewCount,
            updFirst (fun e => e.rid == id) (setUserRevFields rating? comment?)
              us0.itemReviews⟩⟩ ∧
    Consistent ⟨surgKey Item.iid db.items itemW.iid
          ⟨itemW.iid, itemW.name, ratN, itemW.reviewCount,
            updFirst (fun r => r.rid == id) (setItemRevFields rating? comment?)
              itemW.reviews⟩,
        surgKey User.username db.users us0.username
          ⟨us0.username, avgN, us0.reviewCount,
            updFirst (fun e => e.rid == id) (setUserRevFields rating? comment?)
              us0.itemReviews⟩⟩ := by
  have hrs : updFirst (fun r => r.rid == id) (setItemRevFields rating? comment?) itemW.reviews
      = surgKey ItemRev.rid itemW.reviews id (setItemRevFields rating? comment? review) :=
    updFirst_key_surg ItemRev.rid (hWF.itemRidsNodup itemW hitW) hrev hid _
  have hes : updFirst (fun e => e.rid == id) (setUserRevFields rating? comment?) us0.itemReviews
      = surgKey UserRev.rid us0.itemReviews id (setUserRevFields rating? comment? e0) :=
    updFirst_key_surg UserRev.rid (hWF.userRidsNodup us0 hus0) he0 (by rw [he0rid, hid]) _
  have hsetr : (setItemRevFields rating? comment? review).rid = id := hid
  have hsete : (setUserRevFields rating? comment? e0).rid = id := by
    show e0.rid = id
    rw [he0rid, hid]
  have hmemR : ∀ r ∈ updFirst (fun r => r.rid == id) (setItemRevFields rating? comment?)
      itemW.reviews,
      r = setItemRevFields rating? comment? review ∨ (r ∈ itemW.reviews ∧ r.rid ≠ id) := by
    rw [hrs]
    exact fun r hr => mem_surgKey_elim hr
  have hmemE : ∀ e ∈ updFirst (fun e => e.rid == id) (setUserRevFields rating? comment?)
      us0.itemReviews,
      e = setUserRevFields rating? comment? e0 ∨ (e ∈ us0.itemReviews ∧ e.rid ≠ id) := by
    rw [hes]
    exact fun e he => mem_surgKey_elim he
  have hsetrat : (setUserRevFields rating? comment? e0).rating
      = (setItemRevFields rating? comment? review).rating := by
    cases rating? with
    | none => exact he0rat
    | some q => rfl
  refine surgical_preserves db.items db.users hWF hCon itemW _ us0 _ hitW hus0 rfl rfl
    ?_ ?_ ?_ ?_ ?_ ?_ ?_ ?_ ?_ ?_ ?_ ?_ ?_ ?_ ?_ ?_
  · show (((updFirst (fun r => r.rid == id) (setItemRevFields rating? comment?)
      itemW.reviews)).map (·.rid)).Nodup
    rw [hrs, map_key_surgKey hsetr]
    exact hWF.itemRidsNodup itemW hitW
  · show (((updFirst (fun e => e.rid == id) (setUserRevFields rating? comment?)
      us0.itemReviews)).map (·.rid)).Nodup
    rw [hes, map_key_surgKey hsete]
    exact hWF.userRidsNodup us0 hus0
  · intro r1 hr1 it' hm r2 hr2 hrid2
    rcases hmemR r1 hr1 with rfl | ⟨hr1m, _⟩
    · exact hWF.ridsCross it' hm itemW hitW r2 hr2 review hrev (by rw [hrid2, hsetr, hid])
    · exact hWF.ridsCross it' hm itemW hitW r2 hr2 r1 hr1m hrid2
  · show (((updFirst (fun r => r.rid == id) (setItemRevFields rating? comment?)
      itemW.reviews)).map (·.username)).Nodup
    rw [map_updFirst (by intro x; rfl)]
    exact hWF.pairUnique itemW hitW
  · show (((updFirst (fun e => e.rid == id) (setUserRevFields rating? comment?)
      us0.itemReviews)).map (·.itemId)).Nodup
    rw [map_updFirst (by intro x; rfl)]
    exact hWF.userPairUnique us0 hus0
  · intro r hr hu
    rcases hmemR r hr with rfl | ⟨hrm, hrne⟩
    · refine ⟨setUserRevFields rating? comment? e0, ?_, ?_, ?_, ?_⟩
      · show setUserRevFields rating? comment? e0 ∈ updFirst (fun e => e.rid == id)
          (setUserRevFields rating? comment?) us0.itemReviews
        rw [hes]
        exact self_mem_surgKey he0 (by rw [he0rid, hid])
      · show e0.rid = (setItemRevFields rating? comment? review).rid
        exact he0rid
      · exact he0iid
      · exact hsetrat
    · obtain ⟨us1, hus1, husn1, e, he, her, hei, hea⟩ := hWF.mirrorFwd itemW hitW r hrm
      have hus1eq : us1 = us0 :=
        List.inj_on_of_nodup_map hWF.usersNodup hus1 hus0 (husn1.trans hu)
      rw [hus1eq] at he
      refine ⟨e, ?_, her, hei, hea⟩
      show e ∈ updFirst (fun e => e.rid == id) (setUserRevFields rating? comment?)
        us0.itemReviews
      rw [hes]
      refine other_mem_surgKey _ he ?_
      show ¬e.rid = id
      rw [her]
      exact hrne
  · intro r hr hne
    rcases hmemR r hr with rfl | ⟨hrm, _⟩
    · exact absurd (show (setItemRevFields rating? comment? review).username = us0.username
        from husn.symm) hne
    · exact hrm
  · intro e he hne
    have herid : e.rid ≠ id := by
      intro hc
      obtain ⟨it1, hit1, hii, r1, hr1m, hr1r, _, _⟩ := hWF.mirrorBwd us0 hus0 e he
      have : it1.iid = itemW.iid :=
        hWF.ridsCross it1 hit1 itemW hitW r1 hr1m review hrev (by rw [hr1r, hc, hid])
      exact hne (by rw [← hii, this])
    show e ∈ updFirst (fun e => e.rid == id) (setUserRevFields rating? comment?)
      us0.itemReviews
    rw [hes]
    exact other_mem_surgKey _ he herid
  · intro e he hei
    rcases hmemE e he with rfl | ⟨hem, hene⟩
    · refine ⟨setItemRevFields rating? comment? review, ?_, ?_, ?_, ?_⟩
      · show setItemRevFields rating? comment? review ∈ updFirst (fun r => r.rid == id)
          (setItemRevFields rating? comment?) itemW.reviews
        rw [hrs]
        exact self_mem_surgKey hrev hid
      · show (setItemRevFields rating? comment? review).rid = e0.rid
        exact he0rid.symm
      · exact husn.symm
      · exact hsetrat.symm
    · obtain ⟨it1, hit1, hii, r1, hr1m, hr1r, hr1n, hr1a⟩ := hWF.mirrorBwd us0 hus0 e hem
      have hit1eq : it1 = itemW :=
        List.inj_on_of_nodup_map hWF.itemsNodup hit1 hitW (by rw [hii, hei])
      rw [hit1eq] at hr1m
      refine ⟨r1, ?_, hr1r, hr1n, hr1a⟩
      show r1 ∈ updFirst (fun r => r.rid == id) (setItemRevFields rating? comment?)
        itemW.reviews
      rw [hrs]
      refine other_mem_surgKey _ hr1m ?_
      show ¬r1.rid = id
      rw [hr1r]
      exact hene
  · intro e he hne
    rcases hmemE e he with rfl | ⟨hem, _⟩
    · exact absurd (show (setUserRevFields rating? comment? e0).itemId = itemW.iid
        from he0iid) hne
    · exact hem
  · intro r hrm hrne
    have hrne2 : r.rid ≠ id := by
      intro hc
      refine hrne ?_
      have : r = review := List.inj_on_of_nodup_map
        (hWF.itemRidsNodup itemW hitW) hrm hrev (by rw [hc, hid])
      rw [this, ← husn]
    show r ∈ updFirst (fun r => r.rid == id) (setItemRevFields rating? comment?)
      itemW.reviews
    rw [hrs]
    exact other_mem_surgKey _ hrm hrne2
  · intro r hr
    rcases hmemR r hr with rfl | ⟨hrm, _⟩
    · constructor
      · exact (hWF.revFields itemW hitW review hrev).1
      · cases hq : rating? with
        | none =>
          show ratingOK review.rating = true
          exact (hWF.revFields itemW hitW review hrev).2
        | some q =>
          show ratingOK (RVal.num q) = true
          exact hqOK q hq
    · exact hWF.revFields itemW hitW r hrm
  · exact hratN
  · show itemW.reviewCount = ((updFirst (fun r => r.rid == id)
      (setItemRevFields rating? comment?) itemW.reviews).length : ℤ)
    have hlen : (updFirst (fun r => r.rid == id) (setItemRevFields rating? comment?)
        itemW.reviews).length = itemW.reviews.length := by
      rw [hrs]
      exact List.length_map _ _
    rw [hlen]
    exact (hCon.1 itemW hitW).2
  · exact havgN
  · show us0.reviewCount = ((updFirst (fun e => e.rid == id)
      (setUserRevFields rating? comment?) us0.itemReviews).length : ℤ)
    have hlen : (updFirst (fun e => e.rid == id) (setUserRevFields rating? comment?)
        us0.itemReviews).length = us0.itemReviews.length := by
      rw [hes]
      exact List.length_map _ _
    rw [hlen]
    exact (hCon.2 us0 hus0).2

/-- PUT `/api/reviews/[id]` preserves well-formedness and aggregate
consistency, on every control path. -/
theorem putReview_preserves (db : DB) (id : ℕ) (rating? : Option ℚ) (comment? : Option String)
    (hWF : WF db) (hCon : Consistent db) :
    WF (putReview db id rating? comment?).1 ∧ Consistent (putReview db id rating? comment?).1 := by
  by_cases hbad : (match rating? with
    | some q => qltB q 1 || qltB 10 q
    | none => false) = true
  · have hstate : putReview db id rating? comment? = (db, [], .invalid) := by
      simp only [putReview, hbad, if_true]
    rw [hstate]
    exact ⟨hWF, hCon⟩
  · have hbad' := Bool.eq_false_iff.mpr hbad
    by_cases hnn : (rating?.isNone && comment?.isNone) = true
    · have hstate : putReview db id rating? comment? = (db, [], .invalid) := by
        simp only [putReview, hbad', Bool.false_eq_true, if_false, hnn, if_true]
      rw [hstate]
      exact ⟨hWF, hCon⟩
    · have hnn' : (rating?.isNone && comment?.isNone) = false := Bool.eq_false_iff.mpr hnn
      rcases hfind : db.items.find? (fun it => it.reviews.any (fun r => r.rid == id))
        with _ | itemW
      · have hstate : putReview db id rating? comment? = (db, [], .notFound) := by
          simp only [putReview, hbad', Bool.false_eq_true, if_false, hnn', hfind]
        rw [hstate]
        exact ⟨hWF, hCon⟩
      · rcases hfrev : itemW.reviews.find? (fun r => r.rid == id) with _ | review
        · have hstate : putReview db id rating? comment? = (db, [], .notFound) := by
            simp only [putReview, hbad', Bool.false_eq_true, if_false, hnn', hfind, hfrev]
          rw [hstate]
          exact ⟨hWF, hCon⟩
        · have hitW := List.mem_of_find?_eq_some hfind
          have hrev := List.mem_of_find?_eq_some hfrev
          have hid : review.rid = id := by simpa using List.find?_some hfrev
          obtain ⟨us0, hus0, husn, e0, he0, he0rid, he0iid, he0rat⟩ :=
            hWF.mirrorFwd itemW hitW review hrev
          have hcI : itemW.reviews.any (fun r => r.rid == id) = true :=
            List.any_eq_true.mpr ⟨review, hrev, by simp [hid]⟩
          have hcU : us0.itemReviews.any (fun e => e.rid == id) = true :=
            List.any_eq_true.mpr ⟨e0, he0, by simp [he0rid, hid]⟩
          have hI1 : updFirst (putItemFilter itemW.iid id) (putItemDoc id rating? comment?)
              db.items
              = surgKey Item.iid db.items itemW.iid (putItemDoc id rating? comment? itemW) := by
            show updFirst (fun it => it.iid == itemW.iid
                && it.reviews.any (fun r => r.rid == id))
              (putItemDoc id rating? comment?) db.items = _
            exact updFirst_keyc_surg Item.iid hWF.itemsNodup hitW rfl hcI _
          have hU1 : updFirst (putUserFilter review.username id)
              (putUserDoc id rating? comment?) db.users
              = surgKey User.username db.users review.username
                (putUserDoc id rating? comment? us0) := by
            show updFirst (fun us => us.username == review.username
                && us.itemReviews.any (fun e => e.rid == id))
              (putUserDoc id rating? comment?) db.users = _
            exact updFirst_keyc_surg User.username hWF.usersNodup hus0 husn hcU _
          by_cases hmod : (!(modifiedOne (putItemFilter itemW.iid id)
              (putItemDoc id rating? comment?) db.items)
              && !(modifiedOne (putUserFilter review.username id)
              (putUserDoc id rating? comment?) db.users)) = true
          · have hmods : modifiedOne (putItemFilter itemW.iid id)
                (putItemDoc id rating? comment?) db.items = false
                ∧ modifiedOne (putUserFilter review.username id)
                (putUserDoc id rating? comment?) db.users = false := by
              have h := hmod
              simp only [Bool.and_eq_true, Bool.not_eq_true'] at h
              exact h
            have hIeq : updFirst (putItemFilter itemW.iid id)
                (putItemDoc id rating? comment?) db.items = db.items :=
              updFirst_eq_of_not_modified hmods.1
            have hUeq : updFirst (putUserFilter review.username id)
                (putUserDoc id rating? comment?) db.users = db.users :=
              updFirst_eq_of_not_modified hmods.2
            have hstate : putReview db id rating? comment?
                = (⟨db.items, db.users⟩, [], .noneModified) := by
              simp only [putReview, hbad', Bool.false_eq_true, if_false, hnn', hfind, hfrev,
                hmod, if_true, hIeq, hUeq]
            rw [hstate]
            exact ⟨hWF, hCon⟩
          · have hmod' : (!(modifiedOne (putItemFilter itemW.iid id)
                (putItemDoc id rating? comment?) db.items)
                && !(modifiedOne (putUserFilter review.username id)
                (putUserDoc id rating? comment?) db.users)) = false :=
              Bool.eq_false_iff.mpr hmod
            rcases rating? with _ | q
            · have hcn : comment?.isNone = false := by simpa using hnn'
              have hstate : putReview db id none comment?
                  = (⟨updFirst (putItemFilter itemW.iid id) (putItemDoc id none comment?)
                        db.items,
                      updFirst (putUserFilter review.username id)
                        (putUserDoc id none comment?) db.users⟩, [], .okRes) := by
                simp only [putReview, hfind, hfrev, hmod', Bool.false_eq_true, if_false,
                  Option.isNone_none, Bool.true_and, hcn, Option.isSome_none]
              rw [hstate, hI1, hU1, ← husn]
              have hmaprat : ((updFirst (fun r => r.rid == id)
                  (setItemRevFields none comment?) itemW.reviews).map (·.rating))
                  = itemW.reviews.map (·.rating) := map_updFirst (by intro x; rfl) _
              have hmaprat2 : ((updFirst (fun e => e.rid == id)
                  (setUserRevFields none comment?) us0.itemReviews).map (·.rating))
                  = us0.itemReviews.map (·.rating) := map_updFirst (by intro x; rfl) _
              refine putReview_surgical db id none comment? hWF hCon itemW hitW review hrev
                hid us0 hus0 husn e0 he0 he0rid he0iid he0rat
                (fun q hq => Option.noConfusion hq) itemW.rating us0.averageRating ?_ ?_
              · rw [hmaprat]
                exact (hCon.1 itemW hitW).1
              · rw [hmaprat2]
                exact (hCon.2 us0 hus0).1
            · have hq' : (qltB q 1 || qltB 10 q) = false := hbad'
              have hok : ratingOK (RVal.num q) = true := by
                show (!(qltB q 1) && !(qltB 10 q)) = true
                rw [(Bool.or_eq_false_iff.mp hq').1, (Bool.or_eq_false_iff.mp hq').2]
                rfl
              have hget1 : getItem ⟨updFirst (putItemFilter itemW.iid id)
                    (putItemDoc id (some q) comment?) db.items,
                  updFirst (putUserFilter review.username id)
                    (putUserDoc id (some q) comment?) db.users⟩ itemW.iid
                  = some (putItemDoc id (some q) comment? itemW) := by
                show (updFirst (putItemFilter itemW.iid id)
                  (putItemDoc id (some q) comment?) db.items).find?
                  (fun it => it.iid == itemW.iid) = _
                rw [hI1]
                exact find?_key_surgKey_self hWF.itemsNodup hitW rfl rfl
              have hUIR := updateItemRatingSimple_eval _ itemW.iid _ hget1
              have hget2 : getUser (updateItemRatingSimple
                  ⟨updFirst (putItemFilter itemW.iid id)
                      (putItemDoc id (some q) comment?) db.items,
                    updFirst (putUserFilter review.username id)
                      (putUserDoc id (some q) comment?) db.users⟩ itemW.iid) review.username
                  = some (putUserDoc id (some q) comment? us0) := by
                rw [hUIR]
                show (updFirst (putUserFilter review.username id)
                  (putUserDoc id (some q) comment?) db.users).find?
                  (fun us => us.username == review.username) = _
                rw [hU1]
                exact find?_key_surgKey_self hWF.usersNodup hus0 husn husn
              have hUUR := updateUserRatingSimple_eval _ review.username _ hget2
              have hstate : putReview db id (some q) comment?
                  = (updateUserRatingSimple (updateItemRatingSimple
                      ⟨updFirst (putItemFilter itemW.iid id)
                          (putItemDoc id (some q) comment?) db.items,
                        updFirst (putUserFilter review.username id)
                          (putUserDoc id (some q) comment?) db.users⟩ itemW.iid)
                      review.username,
                    [Ev.reaggItem itemW.iid, Ev.reaggUser review.username], .okRes) := by
                simp only [putReview, hq', Bool.false_eq_true, if_false, Option.isNone_some,
                  Bool.false_and, hfind, hfrev, hmod', Option.isSome_some, if_true]
              have hNi2 : (putItemDoc id (some q) comment? itemW).iid = itemW.iid := rfl
              have hNu2 : (putUserDoc id (some q) comment? us0).username = review.username :=
                husn
              have hndI1 : ((surgKey Item.iid db.items itemW.iid
                  (putItemDoc id (some q) comment? itemW)).map Item.iid).Nodup := by
                rw [map_key_surgKey hNi2]
                exact hWF.itemsNodup
              have hmemI1 : putItemDoc id (some q) comment? itemW
                  ∈ surgKey Item.iid db.items itemW.iid
                    (putItemDoc id (some q) comment? itemW) :=
                self_mem_surgKey hitW rfl
              have hndU1 : ((surgKey User.username db.users review.username
                  (putUserDoc id (some q) comment? us0)).map User.username).Nodup := by
                rw [map_key_surgKey hNu2]
                exact hWF.usersNodup
              have hmemU1 : putUserDoc id (some q) comment? us0
                  ∈ surgKey User.username db.users review.username
                    (putUserDoc id (some q) comment? us0) :=
                self_mem_surgKey hus0 husn
              rw [hstate, hUUR, hUIR]
              show WF (⟨updFirst (fun it => it.iid == itemW.iid)
                    (fun it => { it with rating := simpleAvg ((putItemDoc id (some q) comment? itemW).reviews.map (·.rating)) })
                    (updFirst (putItemFilter itemW.iid id)
                      (putItemDoc id (some q) comment?) db.items),
                  updFirst (fun us => us.username == review.username)
                    (fun us => { us with averageRating := simpleAvg ((putUserDoc id (some q) comment? us0).itemReviews.map (·.rating)) })
                    (updFirst (putUserFilter review.username id)
                      (putUserDoc id (some q) comment?) db.users)⟩ : DB)
                ∧ Consistent (⟨updFirst (fun it => it.iid == itemW.iid)
                    (fun it => { it with rating := simpleAvg ((putItemDoc id (some q) comment? itemW).reviews.map (·.rating)) })
                    (updFirst (putItemFilter itemW.iid id)
                      (putItemDoc id (some q) comment?) db.items),
                  updFirst (fun us => us.username == review.username)
                    (fun us => { us with averageRating := simpleAvg ((putUserDoc id (some q) comment? us0).itemReviews.map (·.rating)) })
                    (updFirst (putUserFilter review.username id)
                      (putUserDoc id (some q) comment?) db.users)⟩ : DB)
              rw [hI1, hU1,
                updFirst_key_surg Item.iid hndI1 hmemI1 hNi2
                  (fun it => { it with rating := simpleAvg ((putItemDoc id (some q) comment? itemW).reviews.map (·.rating)) }),
                updFirst_key_surg User.username hndU1 hmemU1 hNu2
                  (fun us => { us with averageRating := simpleAvg ((putUserDoc id (some q) comment? us0).itemReviews.map (·.rating)) }),
                surgKey_surgKey hNi2, surgKey_surgKey hNu2, ← husn]
              have hrs : updFirst (fun r => r.rid == id) (setItemRevFields (some q) comment?)
                  itemW.reviews
                  = surgKey ItemRev.rid itemW.reviews id
                    (setItemRevFields (some q) comment? review) :=
                updFirst_key_surg ItemRev.rid (hWF.itemRidsNodup itemW hitW) hrev hid _
              have hes : updFirst (fun e => e.rid == id) (setUserRevFields (some q) comment?)
                  us0.itemReviews
                  = surgKey UserRev.rid us0.itemReviews id
                    (setUserRevFields (some q) comment? e0) :=
                updFirst_key_surg UserRev.rid (hWF.userRidsNodup us0 hus0) he0
                  (by rw [he0rid, hid]) _
              refine putReview_surgical db id (some q) comment? hWF hCon itemW hitW review
                hrev hid us0 hus0 husn e0 he0 he0rid he0iid he0rat
                (fun q' hq2 => by injection hq2 with h; exact h ▸ hok) _ _ ?_ ?_
              · refine simpleAvg_num_eq _ (fun v hv => ?_)
                obtain ⟨r, hr, rfl⟩ := List.mem_map.mp hv
                have hr2 : r ∈ surgKey ItemRev.rid itemW.reviews id
                    (setItemRevFields (some q) comment? review) := by
                  rw [← hrs]
                  exact hr
                rcases mem_surgKey_elim hr2 with rfl | ⟨hrm, _⟩
                · exact ⟨q, rfl⟩
                · exact wf_item_ratings_num hWF hitW _ (List.mem_map_of_mem _ hrm)
              · refine simpleAvg_num_eq _ (fun v hv => ?_)
                obtain ⟨e, he, rfl⟩ := List.mem_map.mp hv
                have he2 : e ∈ surgKey UserRev.rid us0.itemReviews id
                    (setUserRevFields (some q) comment? e0) := by
                  rw [← hes]
                  exact he
                rcases mem_surgKey_elim he2 with rfl | ⟨hem, _⟩
                · exact ⟨q, rfl⟩
                · exact wf_user_ratings_num hWF hus0 _ (List.mem_map_of_mem _ hem)

/-- Canonical form of a successful first-time submission: both documents get
the new embedded review appended, `reviewCount + 1`, and a robust
re-aggregation; the route reports 201. -/
theorem postReview_shape_fresh (db : DB) (itemId : ℕ) (username : String) (rating : ℚ)
    (comment : Option String) (freshId : ℕ) (hWF : WF db)
    (hv1 : (username == "" || rating == 0) = false)
    (hv2 : (qltB rating 1 || qltB 10 rating) = false)
    (item : Item) (hgi : getItem db itemId = some item)
    (user : User) (hgu : getUser db username = some user)
    (hnp : item.reviews.any (fun r => r.username == username) = false) :
    postReview db itemId username rating comment freshId
      = (⟨surgKey Item.iid db.items itemId
            (reaggedItem item
              (item.reviews ++ [⟨freshId, username, RVal.num rating, comment.getD ""⟩])
              (item.reviewCount + 1)),
          surgKey User.username db.users username
            (reaggedUser user
              (user.itemReviews
                ++ [⟨freshId, itemId, item.name, RVal.num rating, comment.getD ""⟩])
              (user.reviewCount + 1))⟩, Res.created) := by
  have hitem : item ∈ db.items := List.mem_of_find?_eq_some hgi
  have hiid : item.iid = itemId := by simpa using List.find?_some hgi
  have huser : user ∈ db.users := List.mem_of_find?_eq_some hgu
  have hun : user.username = username := by simpa using List.find?_some hgu
  have hex : db.items.find? (fun it => it.iid == itemId
      && it.reviews.any (fun r => r.username == username)) = none := by
    rw [List.find?_eq_none]
    intro it hit hc
    have hiid2 : it.iid = itemId := eq_of_beq (Bool.and_elim_left hc)
    have hiteq : it = item :=
      List.inj_on_of_nodup_map hWF.itemsNodup hit hitem (hiid2.trans hiid.symm)
    rw [hiteq] at hc
    have := Bool.and_elim_right hc
    rw [hnp] at this
    exact Bool.false_ne_true this
  have hstate : postReview db itemId username rating comment freshId
      = (updateUserRatingRobust (updateItemRatingRobust
          ⟨updFirst (fun it => it.iid == itemId)
              (fun it => { it with reviews := it.reviews
                ++ [⟨freshId, username, RVal.num rating, comment.getD ""⟩] })
              (updFirst (fun it => it.iid == itemId)
                (fun it => { it with reviewCount := it.reviewCount + 1 }) db.items),
            updFirst (fun us => us.username == username)
              (fun us => { us with itemReviews := us.itemReviews
                ++ [⟨freshId, itemId, item.name, RVal.num rating, comment.getD ""⟩] })
              (updFirst (fun us => us.username == username)
                (fun us => { us with reviewCount := us.reviewCount + 1 }) db.users)⟩
          itemId) username, Res.created) := by
    simp only [postReview, hv1, Bool.false_eq_true, if_false, hv2, hgi, hgu, hex]
  have hA1 : updFirst (fun it => it.iid == itemId)
      (fun it => { it with reviewCount := it.reviewCount + 1 }) db.items
      = surgKey Item.iid db.items itemId { item with reviewCount := item.reviewCount + 1 } :=
    updFirst_key_surg Item.iid hWF.itemsNodup hitem hiid _
  have hB1 : updFirst (fun us => us.username == username)
      (fun us => { us with reviewCount := us.reviewCount + 1 }) db.users
      = surgKey User.username db.users username
        { user with reviewCount := user.reviewCount + 1 } :=
    updFirst_key_surg User.username hWF.usersNodup huser hun _
  have hN1 : ({ item with reviewCount := item.reviewCount + 1 } : Item).iid = itemId := hiid
  have hN1u : ({ user with reviewCount := user.reviewCount + 1 } : User).username = username :=
    hun
  have hndA1 : ((surgKey Item.iid db.items itemId
      { item with reviewCount := item.reviewCount + 1 }).map Item.iid).Nodup := by
    rw [map_key_surgKey hN1]
    exact hWF.itemsNodup
  have hmemA1 : ({ item with reviewCount := item.reviewCount + 1 } : Item)
      ∈ surgKey Item.iid db.items itemId { item with reviewCount := item.reviewCount + 1 } :=
    self_mem_surgKey hitem hiid
  have hndB1 : ((surgKey User.username db.users username
      { user with reviewCount := user.reviewCount + 1 }).map User.username).Nodup := by
    rw [map_key_surgKey hN1u]
    exact hWF.usersNodup
  have hmemB1 : ({ user with reviewCount := user.reviewCount + 1 } : User)
      ∈ surgKey User.username db.users username
        { user with reviewCount := user.reviewCount + 1 } :=
    self_mem_surgKey huser hun
  have hA2 : updFirst (fun it => it.iid == itemId)
      (fun it => { it with reviews := it.reviews
        ++ [⟨freshId, username, RVal.num rating, comment.getD ""⟩] })
      (surgKey Item.iid db.items itemId { item with reviewCount := item.reviewCount + 1 })
      = surgKey Item.iid db.items itemId
        { item with reviewCount := item.reviewCount + 1, reviews := item.reviews ++ [⟨freshId, username, RVal.num rating, comment.getD ""⟩] } := by
    rw [updFirst_key_surg Item.iid hndA1 hmemA1 hN1 _, surgKey_surgKey hN1]
  have hB2 : updFirst (fun us => us.username == username)
      (fun us => { us with itemReviews := us.itemReviews
        ++ [⟨freshId, itemId, item.name, RVal.num rating, comment.getD ""⟩] })
      (surgKey User.username db.users username
        { user with reviewCount := user.reviewCount + 1 })
      = surgKey User.username db.users username
        { user with reviewCount := user.reviewCount + 1, itemReviews := user.itemReviews ++ [⟨freshId, itemId, item.name, RVal.num rating, comment.getD ""⟩] } := by
    rw [updFirst_key_surg User.username hndB1 hmemB1 hN1u _, surgKey_surgKey hN1u]
  have hN2 : ({ item with reviewCount := item.reviewCount + 1, reviews := item.reviews ++ [⟨freshId, username, RVal.num rating, comment.getD ""⟩] }
      : Item).iid = itemId := hiid
  have hN2u : ({ user with reviewCount := user.reviewCount + 1, itemReviews := user.itemReviews ++ [⟨freshId, itemId, item.name, RVal.num rating, comment.getD ""⟩] }
      : User).username = username := hun
  have hndA2 : ((surgKey Item.iid db.items itemId
      { item with reviewCount := item.reviewCount + 1, reviews := item.reviews ++ [⟨freshId, username, RVal.num rating, comment.getD ""⟩] }).map
      Item.iid).Nodup := by
    rw [map_key_surgKey hN2]
    exact hWF.itemsNodup
  have hmemA2 : ({ item with reviewCount := item.reviewCount + 1, reviews := item.reviews ++ [⟨freshId, username, RVal.num rating, comment.getD ""⟩] }
      : Item) ∈ surgKey Item.iid db.items itemId
        { item with reviewCount := item.reviewCount + 1, reviews := item.reviews ++ [⟨freshId, username, RVal.num rating, comment.getD ""⟩] } :=
    self_mem_surgKey hitem hiid
  have hndB2 : ((surgKey User.username db.users username
      { user with reviewCount := user.reviewCount + 1, itemReviews := user.itemReviews ++ [⟨freshId, itemId, item.name, RVal.num rating, comment.getD ""⟩] }).map
      User.username).Nodup := by
    rw [map_key_surgKey hN2u]
    exact hWF.usersNodup
  have hmemB2 : ({ user with reviewCount := user.reviewCount + 1, itemReviews := user.itemReviews ++ [⟨freshId, itemId, item.name, RVal.num rating, comment.getD ""⟩] }
      : User) ∈ surgKey User.username db.users username
        { user with reviewCount := user.reviewCount + 1, itemReviews := user.itemReviews ++ [⟨freshId, itemId, item.name, RVal.num rating, comment.getD ""⟩] } :=
    self_mem_surgKey huser hun
  rw [hstate]
  have hget3 : getItem ⟨updFirst (fun it => it.iid == itemId)
        (fun it => { it with reviews := it.reviews
          ++ [⟨freshId, username, RVal.num rating, comment.getD ""⟩] })
        (updFirst (fun it => it.iid == itemId)
          (fun it => { it with reviewCount := it.reviewCount + 1 }) db.items),
      updFirst (fun us => us.username == username)
        (fun us => { us with itemReviews := us.itemReviews
          ++ [⟨freshId, itemId, item.name, RVal.num rating, comment.getD ""⟩] })
        (updFirst (fun us => us.username == username)
          (fun us => { us with reviewCount := us.reviewCount + 1 }) db.users)⟩ itemId
      = some { item with reviewCount := item.reviewCount + 1, reviews := item.reviews ++ [⟨freshId, username, RVal.num rating, comment.getD ""⟩] } := by
    show (updFirst (fun it => it.iid == itemId)
      (fun it => { it with reviews := it.reviews
        ++ [⟨freshId, username, RVal.num rating, comment.getD ""⟩] })
      (updFirst (fun it => it.iid == itemId)
        (fun it => { it with reviewCount := it.reviewCount + 1 }) db.items)).find?
      (fun it => it.iid == itemId) = _
    rw [hA1, hA2]
    exact find?_key_surgKey_self hWF.itemsNodup hitem hiid hN2
  have hUIR := updateItemRatingRobust_eval _ itemId _ hget3
  have hget4 : getUser (updateItemRatingRobust
      ⟨updFirst (fun it => it.iid == itemId)
          (fun it => { it with reviews := it.reviews
            ++ [⟨freshId, username, RVal.num rating, comment.getD ""⟩] })
          (updFirst (fun it => it.iid == itemId)
            (fun it => { it with reviewCount := it.reviewCount + 1 }) db.items),
        updFirst (fun us => us.username == username)
          (fun us => { us with itemReviews := us.itemReviews
            ++ [⟨freshId, itemId, item.name, RVal.num rating, comment.getD ""⟩] })
          (updFirst (fun us => us.username == username)
            (fun us => { us with reviewCount := us.reviewCount + 1 }) db.users)⟩ itemId)
      username
      = some { user with reviewCount := user.reviewCount + 1, itemReviews := user.itemReviews ++ [⟨freshId, itemId, item.name, RVal.num rating, comment.getD ""⟩] } := by
    rw [hUIR]
    show (updFirst (fun us => us.username == username)
      (fun us => { us with itemReviews := us.itemReviews
        ++ [⟨freshId, itemId, item.name, RVal.num rating, comment.getD ""⟩] })
      (updFirst (fun us => us.username == username)
        (fun us => { us with reviewCount := us.reviewCount + 1 }) db.users)).find?
      (fun us => us.username == username) = _
    rw [hB1, hB2]
    exact find?_key_surgKey_self hWF.usersNodup huser hun hN2u
  have hUUR := updateUserRatingRobust_eval _ username _ hget4
  rw [hUUR, hUIR]
  show ((⟨updFirst (fun it => it.iid == itemId)
        (fun it => { it with rating := some (robustAvg (({ item with reviewCount := item.reviewCount + 1, reviews := item.reviews ++ [⟨freshId, username, RVal.num rating, comment.getD ""⟩] } : Item).reviews.map (·.rating))) })
        (updFirst (fun it => it.iid == itemId)
          (fun it => { it with reviews := it.reviews
            ++ [⟨freshId, username, RVal.num rating, comment.getD ""⟩] })
          (updFirst (fun it => it.iid == itemId)
            (fun it => { it with reviewCount := it.reviewCount + 1 }) db.items)),
      updFirst (fun us => us.username == username)
        (fun us => { us with averageRating := some (robustAvg (({ user with reviewCount := user.reviewCount + 1, itemReviews := user.itemReviews ++ [⟨freshId, itemId, item.name, RVal.num rating, comment.getD ""⟩] } : User).itemReviews.map (·.rating))) })
        (updFirst (fun us => us.username == username)
          (fun us => { us with itemReviews := us.itemReviews
            ++ [⟨freshId, itemId, item.name, RVal.num rating, comment.getD ""⟩] })
          (updFirst (fun us => us.username == username)
            (fun us => { us with reviewCount := us.reviewCount + 1 }) db.users))⟩ : DB),
    Res.created) = _
  rw [hA1, hA2, hB1, hB2,
    updFirst_key_surg Item.iid hndA2 hmemA2 hN2
      (fun it => { it with rating := some (robustAvg (({ item with reviewCount := item.reviewCount + 1, reviews := item.reviews ++ [⟨freshId, username, RVal.num rating, comment.getD ""⟩] } : Item).reviews.map (·.rating))) }),
    updFirst_key_surg User.username hndB2 hmemB2 hN2u
      (fun us => { us with averageRating := some (robustAvg (({ user with reviewCount := user.reviewCount + 1, itemReviews := user.itemReviews ++ [⟨freshId, itemId, item.name, RVal.num rating, comment.getD ""⟩] } : User).itemReviews.map (·.rating))) }),
    surgKey_surgKey hN2, surgKey_surgKey hN2u]
  rfl

/-- Canonical form of a successful re-submission (the upsert's replace path):
the prior review's identifier is pulled from both embedded lists, the new
review is appended with the fresh identifier, counts stay put, and both sides
are robustly re-aggregated. -/
theorem postReview_shape_replace (db : DB) (itemId : ℕ) (username : String) (rating : ℚ)
    (comment : Option String) (freshId : ℕ) (hWF : WF db)
    (hv1 : (username == "" || rating == 0) = false)
    (hv2 : (qltB rating 1 || qltB 10 rating) = false)
    (item : Item) (hgi : getItem db itemId = some item)
    (user : User) (hgu : getUser db username = some user)
    (exRev : ItemRev)
    (hfex : item.reviews.find? (fun r => r.username == username) = some exRev) :
    postReview db itemId username rating comment freshId
      = (⟨surgKey Item.iid db.items itemId
            (reaggedItem item
              (item.reviews.filter (fun r => !(r.rid == exRev.rid))
                ++ [⟨freshId, username, RVal.num rating, comment.getD ""⟩])
              item.reviewCount),
          surgKey User.username db.users username
            (reaggedUser user
              (user.itemReviews.filter (fun e => !(e.rid == exRev.rid))
                ++ [⟨freshId, itemId, item.name, RVal.num rating, comment.getD ""⟩])
              user.reviewCount)⟩, Res.created) := by
  have hitem : item ∈ db.items := List.mem_of_find?_eq_some hgi
  have hiid : item.iid = itemId := by simpa using List.find?_some hgi
  have huser : user ∈ db.users := List.mem_of_find?_eq_some hgu
  have hun : user.username = username := by simpa using List.find?_some hgu
  have hexrev : exRev ∈ item.reviews := List.mem_of_find?_eq_some hfex
  have hexu : exRev.username = username := by simpa using List.find?_some hfex
  have hcx : item.reviews.any (fun r => r.username == username) = true :=
    List.any_eq_true.mpr ⟨exRev, hexrev, by simp [hexu]⟩
  have hex : db.items.find? (fun it => it.iid == itemId
      && it.reviews.any (fun r => r.username == username)) = some item :=
    find?_key_filter_of_mem hWF.itemsNodup hitem hiid hcx
  have hstate : postReview db itemId username rating comment freshId
      = (updateUserRatingRobust (updateItemRatingRobust
          ⟨updFirst (fun it => it.iid == itemId)
              (fun it => { it with reviews := it.reviews
                ++ [⟨freshId, username, RVal.num rating, comment.getD ""⟩] })
              (updFirst (fun it => it.iid == itemId)
                (fun it => { it with
                  reviews := it.reviews.filter (fun r => !(r.rid == exRev.rid)) }) db.items),
            updFirst (fun us => us.username == username)
              (fun us => { us with itemReviews := us.itemReviews
                ++ [⟨freshId, itemId, item.name, RVal.num rating, comment.getD ""⟩] })
              (updFirst (fun us => us.username == username)
                (fun us => { us with
                  itemReviews := us.itemReviews.filter (fun e => !(e.rid == exRev.rid)) })
                db.users)⟩
          itemId) username, Res.created) := by
    simp only [postReview, hv1, Bool.false_eq_true, if_false, hv2, hgi, hgu, hex, hfex]
  have hA1 : updFirst (fun it => it.iid == itemId)
      (fun it => { it with
        reviews := it.reviews.filter (fun r => !(r.rid == exRev.rid)) }) db.items
      = surgKey Item.iid db.items itemId
        { item with reviews := item.reviews.filter (fun r => !(r.rid == exRev.rid)) } :=
    updFirst_key_surg Item.iid hWF.itemsNodup hitem hiid _
  have hB1 : updFirst (fun us => us.username == username)
      (fun us => { us with
        itemReviews := us.itemReviews.filter (fun e => !(e.rid == exRev.rid)) }) db.users
      = surgKey User.username db.users username
        { user with itemReviews := user.itemReviews.filter (fun e => !(e.rid == exRev.rid)) } :=
    updFirst_key_surg User.username hWF.usersNodup huser hun _
  have hN1 : ({ item with
      reviews := item.reviews.filter (fun r => !(r.rid == exRev.rid)) } : Item).iid
      = itemId := hiid
  have hN1u : ({ user with
      itemReviews := user.itemReviews.filter (fun e => !(e.rid == exRev.rid)) } : User).username
      = username := hun
  have hndA1 : ((surgKey Item.iid db.items itemId
      { item with reviews := item.reviews.filter (fun r => !(r.rid == exRev.rid)) }).map
      Item.iid).Nodup := by
    rw [map_key_surgKey hN1]
    exact hWF.itemsNodup
  have hmemA1 : ({ item with
      reviews := item.reviews.filter (fun r => !(r.rid == exRev.rid)) } : Item)
      ∈ surgKey Item.iid db.items itemId
        { item with reviews := item.reviews.filter (fun r => !(r.rid == exRev.rid)) } :=
    self_mem_surgKey hitem hiid
  have hndB1 : ((surgKey User.username db.users username
      { user with
        itemReviews := user.itemReviews.filter (fun e => !(e.rid == exRev.rid)) }).map
      User.username).Nodup := by
    rw [map_key_surgKey hN1u]
    exact hWF.usersNodup
  have hmemB1 : ({ user with
      itemReviews := user.itemReviews.filter (fun e => !(e.rid == exRev.rid)) } : User)
      ∈ surgKey User.username db.users username
        { user with
          itemReviews := user.itemReviews.filter (fun e => !(e.rid == exRev.rid)) } :=
    self_mem_surgKey huser hun
  have hA2 : updFirst (fun it => it.iid == itemId)
      (fun it => { it with reviews := it.reviews
        ++ [⟨freshId, username, RVal.num rating, comment.getD ""⟩] })
      (surgKey Item.iid db.items itemId
        { item with reviews := item.reviews.filter (fun r => !(r.rid == exRev.rid)) })
      = surgKey Item.iid db.items itemId
        { item with reviews := item.reviews.filter (fun r => !(r.rid == exRev.rid)) ++ [⟨freshId, username, RVal.num rating, comment.getD ""⟩] } := by
    rw [updFirst_key_surg Item.iid hndA1 hmemA1 hN1 _, surgKey_surgKey hN1]
  have hB2 : updFirst (fun us => us.username == username)
      (fun us => { us with itemReviews := us.itemReviews
        ++ [⟨freshId, itemId, item.name, RVal.num rating, comment.getD ""⟩] })
      (surgKey User.username db.users username
        { user with itemReviews := user.itemReviews.filter (fun e => !(e.rid == exRev.rid)) })
      = surgKey User.username db.users username
        { user with itemReviews := user.itemReviews.filter (fun e => !(e.rid == exRev.rid)) ++ [⟨freshId, itemId, item.name, RVal.num rating, comment.getD ""⟩] } := by
    rw [updFirst_key_surg User.username hndB1 hmemB1 hN1u _, surgKey_surgKey hN1u]
  have hN2 : ({ item with reviews := item.reviews.filter (fun r => !(r.rid == exRev.rid)) ++ [⟨freshId, username, RVal.num rating, comment.getD ""⟩] } : Item).iid = itemId := hiid
  have hN2u : ({ user with itemReviews := user.itemReviews.filter (fun e => !(e.rid == exRev.rid)) ++ [⟨freshId, itemId, item.name, RVal.num rating, comment.getD ""⟩] } : User).username = username := hun
  have hndA2 : ((surgKey Item.iid db.items itemId
      { item with reviews := item.reviews.filter (fun r => !(r.rid == exRev.rid)) ++ [⟨freshId, username, RVal.num rating, comment.getD ""⟩] }).map Item.iid).Nodup := by
    rw [map_key_surgKey hN2]
    exact hWF.itemsNodup
  have hmemA2 : ({ item with reviews := item.reviews.filter (fun r => !(r.rid == exRev.rid)) ++ [⟨freshId, username, RVal.num rating, comment.getD ""⟩] } : Item)
      ∈ surgKey Item.iid db.items itemId
        { item with reviews := item.reviews.filter (fun r => !(r.rid == exRev.rid)) ++ [⟨freshId, username, RVal.num rating, comment.getD ""⟩] } :=
    self_mem_surgKey hitem hiid
  have hndB2 : ((surgKey User.username db.users username
      { user with itemReviews := user.itemReviews.filter (fun e => !(e.rid == exRev.rid)) ++ [⟨freshId, itemId, item.name, RVal.num rating, comment.getD ""⟩] }).map User.username).Nodup := by
    rw [map_key_surgKey hN2u]
    exact hWF.usersNodup
  have hmemB2 : ({ user with itemReviews := user.itemReviews.filter (fun e => !(e.rid == exRev.rid)) ++ [⟨freshId, itemId, item.name, RVal.num rating, comment.getD ""⟩] } : User)
      ∈ surgKey User.username db.users username
        { user with itemReviews := user.itemReviews.filter (fun e => !(e.rid == exRev.rid)) ++ [⟨freshId, itemId, item.name, RVal.num rating, comment.getD ""⟩] } :=
    self_mem_surgKey huser hun
  rw [hstate]
  have hget3 : getItem ⟨updFirst (fun it => it.iid == itemId)
        (fun it => { it with reviews := it.reviews
          ++ [⟨freshId, username, RVal.num rating, comment.getD ""⟩] })
        (updFirst (fun it => it.iid == itemId)
          (fun it => { it with
            reviews := it.reviews.filter (fun r => !(r.rid == exRev.rid)) }) db.items),
      updFirst (fun us => us.username == username)
        (fun us => { us with itemReviews := us.itemReviews
          ++ [⟨freshId, itemId, item.name, RVal.num rating, comment.getD ""⟩] })
        (updFirst (fun us => us.username == username)
          (fun us => { us with
            itemReviews := us.itemReviews.filter (fun e => !(e.rid == exRev.rid)) })
          db.users)⟩ itemId
      = some { item with reviews := item.reviews.filter (fun r => !(r.rid == exRev.rid)) ++ [⟨freshId, username, RVal.num rating, comment.getD ""⟩] } := by
    show (updFirst (fun it => it.iid == itemId)
      (fun it => { it with reviews := it.reviews
        ++ [⟨freshId, username, RVal.num rating, comment.getD ""⟩] })
      (updFirst (fun it => it.iid == itemId)
        (fun it => { it with
          reviews := it.reviews.filter (fun r => !(r.rid == exRev.rid)) }) db.items)).find?
      (fun it => it.iid == itemId) = _
    rw [hA1, hA2]
    exact find?_key_surgKey_self hWF.itemsNodup hitem hiid hN2
  have hUIR := updateItemRatingRobust_eval _ itemId _ hget3
  have hget4 : getUser (updateItemRatingRobust
      ⟨updFirst (fun it => it.iid == itemId)
          (fun it => { it with reviews := it.reviews
            ++ [⟨freshId, username, RVal.num rating, comment.getD ""⟩] })
          (updFirst (fun it => it.iid == itemId)
            (fun it => { it with
              reviews := it.reviews.filter (fun r => !(r.rid == exRev.rid)) }) db.items),
        updFirst (fun us => us.username == username)
          (fun us => { us with itemReviews := us.itemReviews
            ++ [⟨freshId, itemId, item.name, RVal.num rating, comment.getD ""⟩] })
          (updFirst (fun us => us.username == username)
            (fun us => { us with
              itemReviews := us.itemReviews.filter (fun e => !(e.rid == exRev.rid)) })
            db.users)⟩ itemId) username
      = some { user with itemReviews := user.itemReviews.filter (fun e => !(e.rid == exRev.rid)) ++ [⟨freshId, itemId, item.name, RVal.num rating, comment.getD ""⟩] } := by
    rw [hUIR]
    show (updFirst (fun us => us.username == username)
      (fun us => { us with itemReviews := us.itemReviews
        ++ [⟨freshId, itemId, item.name, RVal.num rating, comment.getD ""⟩] })
      (updFirst (fun us => us.username == username)
        (fun us => { us with
          itemReviews := us.itemReviews.filter (fun e => !(e.rid == exRev.rid)) })
        db.users)).find?
      (fun us => us.username == username) = _
    rw [hB1, hB2]
    exact find?_key_surgKey_self hWF.usersNodup huser hun hN2u
  have hUUR := updateUserRatingRobust_eval _ username _ hget4
  rw [hUUR, hUIR]
  show ((⟨updFirst (fun it => it.iid == itemId)
        (fun it => { it with rating := some (robustAvg (({ item with reviews := item.reviews.filter (fun r => !(r.rid == exRev.rid)) ++ [⟨freshId, username, RVal.num rating, comment.getD ""⟩] } : Item).reviews.map (·.rating))) })
        (updFirst (fun it => it.iid == itemId)
          (fun it => { it with reviews := it.reviews
            ++ [⟨freshId, username, RVal.num rating, comment.getD ""⟩] })
          (updFirst (fun it => it.iid == itemId)
            (fun it => { it with
              reviews := it.reviews.filter (fun r => !(r.rid == exRev.rid)) }) db.items)),
      updFirst (fun us => us.username == username)
        (fun us => { us with averageRating := some (robustAvg (({ user with itemReviews := user.itemReviews.filter (fun e => !(e.rid == exRev.rid)) ++ [⟨freshId, itemId, item.name, RVal.num rating, comment.getD ""⟩] } : User).itemReviews.map (·.rating))) })
        (updFirst (fun us => us.username == username)
          (fun us => { us with itemReviews := us.itemReviews
            ++ [⟨freshId, itemId, item.name, RVal.num rating, comment.getD ""⟩] })
          (updFirst (fun us => us.username == username)
            (fun us => { us with
              itemReviews := us.itemReviews.filter (fun e => !(e.rid == exRev.rid)) })
            db.users))⟩ : DB),
    Res.created) = _
  rw [hA1, hA2, hB1, hB2,
    updFirst_key_surg Item.iid hndA2 hmemA2 hN2
      (fun it => { it with rating := some (robustAvg (({ item with reviews := item.reviews.filter (fun r => !(r.rid == exRev.rid)) ++ [⟨freshId, username, RVal.num rating, comment.getD ""⟩] } : Item).reviews.map (·.rating))) }),
    updFirst_key_surg User.username hndB2 hmemB2 hN2u
      (fun us => { us with averageRating := some (robustAvg (({ user with itemReviews := user.itemReviews.filter (fun e => !(e.rid == exRev.rid)) ++ [⟨freshId, itemId, item.name, RVal.num rating, comment.getD ""⟩] } : User).itemReviews.map (·.rating))) }),
    surgKey_surgKey hN2, surgKey_surgKey hN2u]
  rfl

/-- An unused review identifier occurs in no embedded list on either side. -/
theorem ridUsed_false_elim (db : DB) (id : ℕ) (h : ridUsed db id = false) :
    (∀ it ∈ db.items, ∀ r ∈ it.reviews, r.rid ≠ id) ∧
    (∀ us ∈ db.users, ∀ e ∈ us.itemReviews, e.rid ≠ id) := by
  constructor
  · intro it hit r hr hc
    have hI : ridUsedI db id = true :=
      List.any_eq_true.mpr ⟨it, hit, List.any_eq_true.mpr ⟨r, hr, by simp [hc]⟩⟩
    rw [ridUsed, hI] at h
    simp at h
  · intro us hus e he hc
    have hU : ridUsedU db id = true :=
      List.any_eq_true.mpr ⟨us, hus, List.any_eq_true.mpr ⟨e, he, by simp [hc]⟩⟩
    rw [ridUsed, hU] at h
    simp at h

/-- Appending a single document with a fresh key preserves duplicate-freeness
of the key column. -/
theorem nodup_map_append_single {α : Type _} {β : Type _} (key : α → β) {l : List α} {x : α}
    (h : (l.map key).Nodup) (hx : ∀ y ∈ l, key y ≠ key x) :
    ((l ++ [x]).map key).Nodup := by
  rw [List.map_append]
  refine List.Nodup.append h (List.nodup_singleton _) ?_
  intro a ha1 ha2
  obtain ⟨y, hy, hyk⟩ := List.mem_map.mp ha1
  have ha : a = key x := by simpa using ha2
  exact hx y hy (by rw [hyk, ha])

/-- POST `/api/reviews` preserves well-formedness and aggregate consistency on
every control path, provided the minted review identifier is fresh. -/
theorem postReview_preserves (db : DB) (itemId : ℕ) (username : String) (rating : ℚ)
    (comment : Option String) (freshId : ℕ) (hWF : WF db) (hCon : Consistent db)
    (hfresh : ridUsed db freshId = false) :
    WF (postReview db itemId username rating comment freshId).1 ∧
    Consistent (postReview db itemId username rating comment freshId).1 := by
  by_cases hv1 : (username == "" || rating == 0) = true
  · have hstate : postReview db itemId username rating comment freshId = (db, .invalid) := by
      simp only [postReview, hv1, if_true]
    rw [hstate]
    exact ⟨hWF, hCon⟩
  · have hv1' := Bool.eq_false_iff.mpr hv1
    by_cases hv2 : (qltB rating 1 || qltB 10 rating) = true
    · have hstate : postReview db itemId username rating comment freshId = (db, .invalid) := by
        simp only [postReview, hv1', Bool.false_eq_true, if_false, hv2, if_true]
      rw [hstate]
      exact ⟨hWF, hCon⟩
    · have hv2' := Bool.eq_false_iff.mpr hv2
      rcases hgi : getItem db itemId with _ | item
      · have hstate : postReview db itemId username rating comment freshId
            = (db, .notFound) := by
          simp only [postReview, hv1', Bool.false_eq_true, if_false, hv2', hgi]
        rw [hstate]
        exact ⟨hWF, hCon⟩
      · rcases hgu : getUser db username with _ | user
        · have hstate : postReview db itemId username rating comment freshId
              = (db, .notFound) := by
            simp only [postReview, hv1', Bool.false_eq_true, if_false, hv2', hgi, hgu]
          rw [hstate]
          exact ⟨hWF, hCon⟩
        · have hitem : item ∈ db.items := List.mem_of_find?_eq_some hgi
          have hiid : item.iid = itemId := by simpa using List.find?_some hgi
          have huser : user ∈ db.users := List.mem_of_find?_eq_some hgu
          have hun : user.username = username := by simpa using List.find?_some hgu
          obtain ⟨hfI, hfU⟩ := ridUsed_false_elim db freshId hfresh
          have husne : username ≠ "" := by
            have h1 := (Bool.or_eq_false_iff.mp hv1').1
            simpa using h1
          have hok : ratingOK (RVal.num rating) = true := by
            show (!(qltB rating 1) && !(qltB 10 rating)) = true
            rw [(Bool.or_eq_false_iff.mp hv2').1, (Bool.or_eq_false_iff.mp hv2').2]
            rfl
          rcases hex : db.items.find? (fun it => it.iid == itemId
              && it.reviews.any (fun r => r.username == username)) with _ | exIt
          · -- first-time submission
            have hnp : item.reviews.any (fun r => r.username == username) = false := by
              cases hany : item.reviews.any (fun r => r.username == username)
              · rfl
              · exfalso
                rw [List.find?_eq_none] at hex
                exact hex item hitem (by simp [hiid, hany])
            have hnames : ∀ r ∈ item.reviews, r.username ≠ username := by
              intro r hr hc
              have hanyr : item.reviews.any (fun x => x.username == username) = true :=
                List.any_eq_true.mpr ⟨r, hr, by simp [hc]⟩
              rw [hnp] at hanyr
              exact Bool.false_ne_true hanyr
            have hids : ∀ e ∈ user.itemReviews, e.itemId ≠ itemId := by
              intro e he hc
              obtain ⟨it1, hit1, hii, r1, hr1m, hr1n2, hr1n, _⟩ := hWF.mirrorBwd user huser e he
              have hit1eq : it1 = item :=
                List.inj_on_of_nodup_map hWF.itemsNodup hit1 hitem (by rw [hii, hc, ← hiid])
              rw [hit1eq] at hr1m
              have hr1u : r1.username = username := by rw [hr1n, hun]
              have hanyr : item.reviews.any (fun x => x.username == username) = true :=
                List.any_eq_true.mpr ⟨r1, hr1m, by simp [hr1u]⟩
              rw [hnp] at hanyr
              exact Bool.false_ne_true hanyr
            rw [postReview_shape_fresh db itemId username rating comment freshId hWF hv1' hv2'
              item hgi user hgu hnp, ← hiid, ← hun]
            refine surgical_preserves db.items db.users hWF hCon item _ user _ hitem huser
              rfl rfl ?_ ?_ ?_ ?_ ?_ ?_ ?_ ?_ ?_ ?_ ?_ ?_ ?_ ?_ ?_ ?_
            · exact nodup_map_append_single _ (hWF.itemRidsNodup item hitem)
                (fun y hy => hfI item hitem y hy)
            · exact nodup_map_append_single _ (hWF.userRidsNodup user huser)
                (fun y hy => hfU user huser y hy)
            · intro r1 hr1 it' hm r2 hr2 hrid2
              rcases List.mem_append.mp hr1 with hr1m | hr1s
              · exact hWF.ridsCross it' hm item hitem r2 hr2 r1 hr1m hrid2
              · rw [List.mem_singleton.mp hr1s] at hrid2
                exact absurd hrid2 (hfI it' hm r2 hr2)
            · exact nodup_map_append_single _ (hWF.pairUnique item hitem)
                (fun y hy hc => hnames y hy (by rw [hc, hun]))
            · exact nodup_map_append_single _ (hWF.userPairUnique user huser)
                (fun y hy hc => hids y hy (by rw [hc, hiid]))
            · intro r hr hu
              rcases List.mem_append.mp hr with hrm | hrs
              · exact absurd (hu.trans hun) (hnames r hrm)
              · rw [List.mem_singleton.mp hrs]
                exact ⟨⟨freshId, item.iid, item.name, RVal.num rating, comment.getD ""⟩,
                  List.mem_append_right _ (List.mem_singleton_self _), rfl, rfl, rfl⟩
            · intro r hr hne
              rcases List.mem_append.mp hr with hrm | hrs
              · exact hrm
              · rw [List.mem_singleton.mp hrs] at hne
                exact absurd rfl hne
            · intro e he _
              exact List.mem_append_left _ he
            · intro e he hei
              rcases List.mem_append.mp he with hem | hes
              · exact absurd (hei.trans hiid) (hids e hem)
              · rw [List.mem_singleton.mp hes]
                exact ⟨⟨freshId, user.username, RVal.num rating, comment.getD ""⟩,
                  List.mem_append_right _ (List.mem_singleton_self _), rfl, rfl, rfl⟩
            · intro e he hne
              rcases List.mem_append.mp he with hem | hes
              · exact hem
              · rw [List.mem_singleton.mp hes] at hne
                exact absurd rfl hne
            · intro r hrm _
              exact List.mem_append_left _ hrm
            · intro r hr
              rcases List.mem_append.mp hr with hrm | hrs
              · exact hWF.revFields item hitem r hrm
              · rw [List.mem_singleton.mp hrs]
                exact ⟨by rw [show (⟨freshId, user.username, RVal.num rating, comment.getD ""⟩
                  : ItemRev).username = user.username from rfl, hun]; exact husne, hok⟩
            · rfl
            · show item.reviewCount + 1 = ((item.reviews
                ++ [(⟨freshId, user.username, RVal.num rating, comment.getD ""⟩ : ItemRev)]).length : ℤ)
              have hcnt := (hCon.1 item hitem).2
              have hlen : (item.reviews
                  ++ [(⟨freshId, user.username, RVal.num rating, comment.getD ""⟩
                    : ItemRev)]).length = item.reviews.length + 1 := by
                simp
              omega
            · rfl
            · show user.reviewCount + 1 = ((user.itemReviews
                ++ [(⟨freshId, item.iid, item.name, RVal.num rating, comment.getD ""⟩
                  : UserRev)]).length : ℤ)
              have hcnt := (hCon.2 user huser).2
              have hlen : (user.itemReviews
                  ++ [(⟨freshId, item.iid, item.name, RVal.num rating, comment.getD ""⟩
                    : UserRev)]).length = user.itemReviews.length + 1 := by
                simp
              omega
          · -- re-submission: the prior review is replaced
            rcases hfex0 : exIt.reviews.find? (fun r => r.username == username) with _ | exRev
            · exfalso
              have hexp0 := List.find?_some hex
              have hexp : (exIt.iid == itemId
                  && exIt.reviews.any (fun r => r.username == username)) = true := hexp0
              obtain ⟨r, hr, hb⟩ := List.any_eq_true.mp (Bool.and_elim_right hexp)
              rw [List.find?_eq_none] at hfex0
              exact hfex0 r hr hb
            · have hexm := List.mem_of_find?_eq_some hex
              have hexp02 := List.find?_some hex
              have hexp2 : (exIt.iid == itemId
                  && exIt.reviews.any (fun r => r.username == username)) = true := hexp02
              have hexiid : exIt.iid = itemId := eq_of_beq (Bool.and_elim_left hexp2)
              have hexeq : exIt = item :=
                List.inj_on_of_nodup_map hWF.itemsNodup hexm hitem (hexiid.trans hiid.symm)
              rw [hexeq] at hfex0
              have hexrev : exRev ∈ item.reviews := List.mem_of_find?_eq_some hfex0
              have hexu : exRev.username = username := by simpa using List.find?_some hfex0
              obtain ⟨us1, hus1, husn1, e1, he1, he1rid, he1iid, he1rat⟩ :=
                hWF.mirrorFwd item hitem exRev hexrev
              have hus1eq : us1 = user := List.inj_on_of_nodup_map hWF.usersNodup hus1 huser
                (by rw [husn1, hexu, hun])
              rw [hus1eq] at he1
              have hfiltI : ∀ r ∈ item.reviews.filter (fun r => !(r.rid == exRev.rid)),
                  r ∈ item.reviews ∧ r.rid ≠ exRev.rid := by
                intro r hr
                refine ⟨List.mem_of_mem_filter hr, ?_⟩
                have := (List.mem_filter.mp hr).2
                simpa using this
              have hfiltU : ∀ e ∈ user.itemReviews.filter (fun e => !(e.rid == exRev.rid)),
                  e ∈ user.itemReviews ∧ e.rid ≠ exRev.rid := by
                intro e he
                refine ⟨List.mem_of_mem_filter he, ?_⟩
                have := (List.mem_filter.mp he).2
                simpa using this
              have hnamesF : ∀ r ∈ item.reviews.filter (fun r => !(r.rid == exRev.rid)),
                  r.username ≠ username := by
                intro r hr hc
                obtain ⟨hrm, hrne⟩ := hfiltI r hr
                have : r = exRev := List.inj_on_of_nodup_map (hWF.pairUnique item hitem)
                  hrm hexrev (by rw [hc, hexu])
                exact hrne (by rw [this])
              have hidsF : ∀ e ∈ user.itemReviews.filter (fun e => !(e.rid == exRev.rid)),
                  e.itemId ≠ itemId := by
                intro e he hc
                obtain ⟨hem, hene⟩ := hfiltU e he
                obtain ⟨it1, hit1, hii, r1, hr1m, hr1r, hr1n, _⟩ :=
                  hWF.mirrorBwd user huser e hem
                have hit1eq : it1 = item :=
                  List.inj_on_of_nodup_map hWF.itemsNodup hit1 hitem (by rw [hii, hc, ← hiid])
                rw [hit1eq] at hr1m
                have hr1ex : r1 = exRev := List.inj_on_of_nodup_map
                  (hWF.pairUnique item hitem) hr1m hexrev (by rw [hr1n, hun, hexu])
                exact hene (by rw [← hr1r, hr1ex])
              rw [postReview_shape_replace db itemId username rating comment freshId hWF
                hv1' hv2' item hgi user hgu exRev hfex0, ← hiid, ← hun]
              refine surgical_preserves db.items db.users hWF hCon item _ user _ hitem huser
                rfl rfl ?_ ?_ ?_ ?_ ?_ ?_ ?_ ?_ ?_ ?_ ?_ ?_ ?_ ?_ ?_ ?_
              · exact nodup_map_append_single _
                  (nodup_map_filter _ _ (hWF.itemRidsNodup item hitem))
                  (fun y hy => hfI item hitem y (hfiltI y hy).1)
              · exact nodup_map_append_single _
                  (nodup_map_filter _ _ (hWF.userRidsNodup user huser))
                  (fun y hy => hfU user huser y (hfiltU y hy).1)
              · intro r1 hr1 it' hm r2 hr2 hrid2
                rcases List.mem_append.mp hr1 with hr1m | hr1s
                · exact hWF.ridsCross it' hm item hitem r2 hr2 r1 (hfiltI r1 hr1m).1 hrid2
                · rw [List.mem_singleton.mp hr1s] at hrid2
                  exact absurd hrid2 (hfI it' hm r2 hr2)
              · exact nodup_map_append_single _
                  (nodup_map_filter _ _ (hWF.pairUnique item hitem))
                  (fun y hy hc => hnamesF y hy (by rw [hc, hun]))
              · exact nodup_map_append_single _
                  (nodup_map_filter _ _ (hWF.userPairUnique user huser))
                  (fun y hy hc => hidsF y hy (by rw [hc, hiid]))
              · intro r hr hu
                rcases List.mem_append.mp hr with hrm | hrs
                · exact absurd (hu.trans hun) (hnamesF r hrm)
                · rw [List.mem_singleton.mp hrs]
                  exact ⟨⟨freshId, item.iid, item.name, RVal.num rating, comment.getD ""⟩,
                    List.mem_append_right _ (List.mem_singleton_self _), rfl, rfl, rfl⟩
              · intro r hr hne
                rcases List.mem_append.mp hr with hrm | hrs
                · exact (hfiltI r hrm).1
                · rw [List.mem_singleton.mp hrs] at hne
                  exact absurd rfl hne
              · intro e he hne
                have herid : e.rid ≠ exRev.rid := by
                  intro hc
                  have : e = e1 := List.inj_on_of_nodup_map
                    (hWF.userRidsNodup user huser) he he1 (by rw [hc, he1rid])
                  exact hne (by rw [this, he1iid])
                refine List.mem_append_left _ (List.mem_filter.mpr ⟨he, by simpa using herid⟩)
              · intro e he hei
                rcases List.mem_append.mp he with hem | hes
                · exact absurd (hei.trans hiid) (hidsF e hem)
                · rw [List.mem_singleton.mp hes]
                  exact ⟨⟨freshId, user.username, RVal.num rating, comment.getD ""⟩,
                    List.mem_append_right _ (List.mem_singleton_self _), rfl, rfl, rfl⟩
              · intro e he hne
                rcases List.mem_append.mp he with hem | hes
                · exact (hfiltU e hem).1
                · rw [List.mem_singleton.mp hes] at hne
                  exact absurd rfl hne
              · intro r hrm hrne
                have hrid : r.rid ≠ exRev.rid := by
                  intro hc
                  have : r = exRev := List.inj_on_of_nodup_map
                    (hWF.itemRidsNodup item hitem) hrm hexrev hc
                  exact hrne (by rw [this, hexu, ← hun])
                exact List.mem_append_left _ (List.mem_filter.mpr ⟨hrm, by simpa using hrid⟩)
              · intro r hr
                rcases List.mem_append.mp hr with hrm | hrs
                · exact hWF.revFields item hitem r (hfiltI r hrm).1
                · rw [List.mem_singleton.mp hrs]
                  exact ⟨by rw [show (⟨freshId, user.username, RVal.num rating, comment.getD ""⟩
                    : ItemRev).username = user.username from rfl, hun]; exact husne, hok⟩
              · rfl
              · show item.reviewCount = (((item.reviews.filter (fun r => !(r.rid == exRev.rid)))
                  ++ [(⟨freshId, user.username, RVal.num rating, comment.getD ""⟩
                    : ItemRev)]).length : ℤ)
                have hcnt := (hCon.1 item hitem).2
                have hflen := length_filter_not_key (hWF.itemRidsNodup item hitem) hexrev rfl
                have hlen : ((item.reviews.filter (fun r => !(r.rid == exRev.rid)))
                    ++ [(⟨freshId, user.username, RVal.num rating, comment.getD ""⟩
                      : ItemRev)]).length
                    = (item.reviews.filter (fun r => !(r.rid == exRev.rid))).length + 1 := by
                  simp
                omega
              · rfl
              · show user.reviewCount = (((user.itemReviews.filter (fun e => !(e.rid == exRev.rid)))
                  ++ [(⟨freshId, item.iid, item.name, RVal.num rating, comment.getD ""⟩
                    : UserRev)]).length : ℤ)
                have hcnt := (hCon.2 user huser).2
                have hflen := length_filter_not_key (hWF.userRidsNodup user huser) he1 he1rid
                have hlen : ((user.itemReviews.filter (fun e => !(e.rid == exRev.rid)))
                    ++ [(⟨freshId, item.iid, item.name, RVal.num rating, comment.getD ""⟩
                      : UserRev)]).length
                    = (user.itemReviews.filter (fun e => !(e.rid == exRev.rid))).length + 1 := by
                  simp
                omega

/-- DELETE `/api/items/[id]` preserves well-formedness and aggregate
consistency, on every control path. -/
theorem deleteItem_preserves (db : DB) (id : ℕ) (hWF : WF db) (hCon : Consistent db) :
    WF (deleteItem db id).1 ∧ Consistent (deleteItem db id).1 := by
  rcases hgi : getItem db id with _ | itemW
  · have hstate : deleteItem db id = (db, [], .notFound) := by
      simp only [deleteItem, hgi]
    rw [hstate]
    exact ⟨hWF, hCon⟩
  · have hitW := List.mem_of_find?_eq_some hgi
    have hiidW : itemW.iid = id := by simpa using List.find?_some hgi
    subst hiidW
    have hnames : (itemW.reviews.map (·.username)).Nodup := hWF.pairUnique itemW hitW
    have hnonempty : ∀ r ∈ itemW.reviews, r.username ≠ "" :=
      fun r hr => (hWF.revFields itemW hitW r hr).1
    have hg1 : ∀ us : User, ((fun us =>
        if us.username ∈ itemW.reviews.map (·.username)
        then pullDecUser itemW.iid us else us) us).username = us.username := by
      intro us
      by_cases h : us.username ∈ itemW.reviews.map (·.username) <;> simp [h, pullDecUser]
    have hfold := cascadeStep_fold' itemW.iid itemW.reviews db [] [] hWF.usersNodup hnames
      hnonempty (fun r _ hc => (List.not_mem_nil _) hc)
    have herase : db.items.eraseP (fun it => it.iid == itemW.iid)
        = db.items.filter (fun it => !(it.iid == itemW.iid)) :=
      eraseP_key_eq_filter Item.iid itemW.iid db.items hWF.itemsNodup
    have hany : db.items.any (fun it => it.iid == itemW.iid) = true :=
      List.any_eq_true.mpr ⟨itemW, hitW, beq_self_eq_true _⟩
    have hnd1 : ((db.users.map (fun us =>
        if us.username ∈ itemW.reviews.map (·.username)
        then pullDecUser itemW.iid us else us)).map (·.username)).Nodup := by
      rw [map_key_map hg1]
      exact hWF.usersNodup
    have hreagg := reagg_fold (itemW.reviews.map (·.username))
      (db.items.filter (fun it => !(it.iid == itemW.iid)))
      (db.users.map (fun us =>
        if us.username ∈ itemW.reviews.map (·.username)
        then pullDecUser itemW.iid us else us))
      ((itemW.reviews.map (fun r => Ev.pullUser r.username)) ++ [Ev.delItem itemW.iid])
      hnd1 hnames
    have hrun : deleteItem db itemW.iid
        = (⟨db.items.filter (fun it => !(it.iid == itemW.iid)),
            (db.users.map (fun us =>
              if us.username ∈ itemW.reviews.map (·.username)
              then pullDecUser itemW.iid us else us)).map (fun us =>
              if us.username ∈ itemW.reviews.map (·.username)
              then reaggUserDoc us else us)⟩,
           ((itemW.reviews.map (fun r => Ev.pullUser r.username)) ++ [Ev.delItem itemW.iid])
             ++ (itemW.reviews.map (·.username)).map Ev.reaggUser,
           Res.okRes) := by
      simp only [deleteItem, hgi, hfold, List.nil_append, herase, hany, if_true, hreagg]
    have hcomp : (db.users.map (fun us =>
          if us.username ∈ itemW.reviews.map (·.username)
          then pullDecUser itemW.iid us else us)).map (fun us =>
          if us.username ∈ itemW.reviews.map (·.username)
          then reaggUserDoc us else us)
        = db.users.map (fun us =>
          if us.username ∈ itemW.reviews.map (·.username)
          then reaggUserDoc (pullDecUser itemW.iid us) else us) := by
      rw [List.map_map]
      refine List.map_congr_left (fun us hus => ?_)
      simp only [Function.comp]
      by_cases hmem : us.username ∈ itemW.reviews.map (·.username)
      · simp [hmem, pullDecUser]
      · simp [hmem]
    rw [hrun]
    show WF ⟨db.items.filter (fun it => !(it.iid == itemW.iid)),
        (db.users.map (fun us =>
          if us.username ∈ itemW.reviews.map (·.username)
          then pullDecUser itemW.iid us else us)).map (fun us =>
          if us.username ∈ itemW.reviews.map (·.username)
          then reaggUserDoc us else us)⟩
      ∧ Consistent ⟨db.items.filter (fun it => !(it.iid == itemW.iid)),
        (db.users.map (fun us =>
          if us.username ∈ itemW.reviews.map (·.username)
          then pullDecUser itemW.iid us else us)).map (fun us =>
          if us.username ∈ itemW.reviews.map (·.username)
          then reaggUserDoc us else us)⟩
    rw [hcomp]
    have hmemI : ∀ it' ∈ db.items.filter (fun it => !(it.iid == itemW.iid)),
        it' ∈ db.items ∧ it'.iid ≠ itemW.iid := by
      intro it' h
      refine ⟨List.mem_of_mem_filter h, ?_⟩
      have := (List.mem_filter.mp h).2
      simpa using this
    have hgG : ∀ us : User, ((fun us =>
        if us.username ∈ itemW.reviews.map (·.username)
        then reaggUserDoc (pullDecUser itemW.iid us) else us) us).username = us.username := by
      intro us
      by_cases h : us.username ∈ itemW.reviews.map (·.username) <;>
        simp [h, reaggUserDoc, pullDecUser]
    have hmirror : ∀ us ∈ db.users, us.username ∈ itemW.reviews.map (·.username) →
        ∃ e ∈ us.itemReviews, e.itemId = itemW.iid := by
      intro us hus hP
      obtain ⟨r, hr, hrname⟩ := List.mem_map.mp hP
      obtain ⟨us', hus', husname', e, he, herid, heitem, herat⟩ :=
        hWF.mirrorFwd itemW hitW r hr
      have huseq : us' = us :=
        List.inj_on_of_nodup_map hWF.usersNodup hus' hus (by rw [husname', hrname])
      rw [huseq] at he
      exact ⟨e, he, heitem⟩
    refine ⟨⟨?_, ?_, ?_, ?_, ?_, ?_, ?_, ?_, ?_, ?_⟩, ?_, ?_⟩
    · exact ((List.filter_sublist db.items).map _).nodup hWF.itemsNodup
    · show ((db.users.map (fun us =>
        if us.username ∈ itemW.reviews.map (·.username)
        then reaggUserDoc (pullDecUser itemW.iid us) else us)).map (·.username)).Nodup
      rw [map_key_map hgG]
      exact hWF.usersNodup
    · intro it' hit'
      exact hWF.itemRidsNodup it' (hmemI it' hit').1
    · intro us' hus'
      obtain ⟨us, hus, rfl⟩ := List.mem_map.mp hus'
      by_cases hP : us.username ∈ itemW.reviews.map (·.username)
      · rw [if_pos hP]
        show (((us.itemReviews.filter (fun e => !(e.itemId == itemW.iid)))).map (·.rid)).Nodup
        exact nodup_map_filter _ _ (hWF.userRidsNodup us hus)
      · rw [if_neg hP]
        exact hWF.userRidsNodup us hus
    · intro it1 h1 it2 h2 r1 hr1 r2 hr2 hrid
      exact hWF.ridsCross it1 (hmemI it1 h1).1 it2 (hmemI it2 h2).1 r1 hr1 r2 hr2 hrid
    · intro it' hit'
      exact hWF.pairUnique it' (hmemI it' hit').1
    · intro us' hus'
      obtain ⟨us, hus, rfl⟩ := List.mem_map.mp hus'
      by_cases hP : us.username ∈ itemW.reviews.map (·.username)
      · rw [if_pos hP]
        show (((us.itemReviews.filter (fun e => !(e.itemId == itemW.iid)))).map (·.itemId)).Nodup
        exact nodup_map_filter _ _ (hWF.userPairUnique us hus)
      · rw [if_neg hP]
        exact hWF.userPairUnique us hus
    · intro it' hit' r hr
      obtain ⟨hm, hne⟩ := hmemI it' hit'
      obtain ⟨us1, hus1, husn1, e, he, her, hei, hea⟩ := hWF.mirrorFwd it' hm r hr
      by_cases hP1 : us1.username ∈ itemW.reviews.map (·.username)
      · refine ⟨reaggUserDoc (pullDecUser itemW.iid us1),
          List.mem_map.mpr ⟨us1, hus1, by rw [if_pos hP1]⟩, husn1, e, ?_, her, hei, hea⟩
        show e ∈ us1.itemReviews.filter (fun e => !(e.itemId == itemW.iid))
        refine List.mem_filter.mpr ⟨he, ?_⟩
        have : e.itemId ≠ itemW.iid := by rw [hei]; exact hne
        simpa using this
      · exact ⟨us1, List.mem_map.mpr ⟨us1, hus1, by rw [if_neg hP1]⟩, husn1,
          e, he, her, hei, hea⟩
    · intro us' hus' e he
      obtain ⟨us, hus, rfl⟩ := List.mem_map.mp hus'
      by_cases hP : us.username ∈ itemW.reviews.map (·.username)
      · rw [if_pos hP] at he ⊢
        have he2 : e ∈ us.itemReviews ∧ e.itemId ≠ itemW.iid := by
          have h3 : e ∈ us.itemReviews.filter (fun e => !(e.itemId == itemW.iid)) := he
          refine ⟨List.mem_of_mem_filter h3, ?_⟩
          have := (List.mem_filter.mp h3).2
          simpa using this
        obtain ⟨it1, hit1, hii, r1, hr1m, hr1r, hr1n, hr1a⟩ :=
          hWF.mirrorBwd us hus e he2.1
        have hit1ne : it1.iid ≠ itemW.iid := by rw [hii]; exact he2.2
        exact ⟨it1, List.mem_filter.mpr ⟨hit1, by simpa using hit1ne⟩, hii,
          r1, hr1m, hr1r, hr1n, hr1a⟩
      · rw [if_neg hP] at he ⊢
        obtain ⟨it1, hit1, hii, r1, hr1m, hr1r, hr1n, hr1a⟩ := hWF.mirrorBwd us hus e he
        have hit1ne : it1.iid ≠ itemW.iid := by
          intro hc
          have hit1eq : it1 = itemW :=
            List.inj_on_of_nodup_map hWF.itemsNodup hit1 hitW hc
          rw [hit1eq] at hr1m
          exact hP (by rw [← hr1n]; exact List.mem_map_of_mem _ hr1m)
        exact ⟨it1, List.mem_filter.mpr ⟨hit1, by simpa using hit1ne⟩, hii,
          r1, hr1m, hr1r, hr1n, hr1a⟩
    · intro it' hit' r hr
      exact hWF.revFields it' (hmemI it' hit').1 r hr
    · intro it' hit'
      exact hCon.1 it' (hmemI it' hit').1
    · intro us' hus'
      obtain ⟨us, hus, rfl⟩ := List.mem_map.mp hus'
      by_cases hP : us.username ∈ itemW.reviews.map (·.username)
      · rw [if_pos hP]
        obtain ⟨e, he, heitem⟩ := hmirror us hus hP
        have hlen := length_filter_not_key (hWF.userPairUnique us hus) he heitem
        have hcnt := (hCon.2 us hus).2
        constructor
        · rfl
        · show us.reviewCount - 1
            = ((us.itemReviews.filter (fun e => !(e.itemId == itemW.iid))).length : ℤ)
          omega
      · rw [if_neg hP]
        exact hCon.2 us hus

/-- The cascade loop of user deletion: over entries with duplicate-free item
ids it pulls each referenced item exactly once and accumulates the distinct
item ids in order. -/
theorem cascadeStepU_fold (u : String) (es : List UserRev) (items : List Item)
    (users : List User) (s0 : List ℕ)
    (hnodup : (items.map (·.iid)).Nodup)
    (hids : (es.map (·.itemId)).Nodup)
    (hfresh : ∀ e ∈ es, e.itemId ∉ s0) :
    es.foldl (cascadeStepU u) (⟨items, users⟩, s0)
      = (⟨items.map (fun it =>
            if it.iid ∈ es.map (·.itemId) then pullDecItem u it else it), users⟩,
         s0 ++ es.map (·.itemId)) := by
  induction es generalizing items s0 with
  | nil =>
    have hmapid : items.map (fun it =>
        if it.iid ∈ ([] : List UserRev).map (·.itemId) then pullDecItem u it else it)
        = items := by
      conv_rhs => rw [← List.map_id items]
      exact List.map_congr_left (fun it _ => by simp)
    simp [hmapid]
  | cons e es' ih =>
    have hstep : cascadeStepU u (⟨items, users⟩, s0) e
        = (⟨updFirst (fun it => it.iid == e.itemId) (pullDecItem u) items, users⟩,
           s0 ++ [e.itemId]) := by
      rw [show cascadeStepU u (⟨items, users⟩, s0) e
          = (⟨updFirst (fun it => it.iid == e.itemId) (pullDecItem u) items, users⟩,
             if e.itemId ∈ s0 then s0 else s0 ++ [e.itemId]) from rfl]
      rw [if_neg (hfresh e (List.mem_cons_self e es'))]
    rw [List.map_cons, List.nodup_cons] at hids
    have hnd1 : ((updFirst (fun it => it.iid == e.itemId) (pullDecItem u) items).map
        (·.iid)).Nodup := by
      rw [map_updFirst (by intro x; rfl)]
      exact hnodup
    have hrec := ih (updFirst (fun it => it.iid == e.itemId) (pullDecItem u) items)
      (s0 ++ [e.itemId]) hnd1 hids.2
      (fun x hx => by
        intro hc
        rcases List.mem_append.mp hc with h1 | h2
        · exact hfresh x (List.mem_cons_of_mem e hx) h1
        · have hxr : x.itemId = e.itemId := List.mem_singleton.mp h2
          exact hids.1 (hxr ▸ List.mem_map_of_mem (·.itemId) hx))
    rw [List.foldl_cons, hstep, hrec]
    have hcomp : (updFirst (fun it => it.iid == e.itemId) (pullDecItem u) items).map
        (fun it => if it.iid ∈ es'.map (·.itemId) then pullDecItem u it else it)
      = items.map (fun it =>
          if it.iid ∈ (e :: es').map (·.itemId) then pullDecItem u it else it) := by
      rw [updFirst_key_eq_map Item.iid e.itemId _ _ hnodup, List.map_map]
      refine List.map_congr_left (fun it hit => ?_)
      simp only [Function.comp]
      by_cases hcase : it.iid = e.itemId
      · have h1 : (it.iid == e.itemId) = true := by simp [hcase]
        have h2 : (pullDecItem u it).iid ∉ es'.map (·.itemId) := by
          rw [show (pullDecItem u it).iid = it.iid from rfl, hcase]
          exact hids.1
        have h3 : it.iid ∈ (e :: es').map (·.itemId) := by
          rw [List.map_cons, hcase]
          exact List.mem_cons_self _ _
        rw [if_pos h1, if_neg h2, if_pos h3]
      · have h1 : ¬((it.iid == e.itemId) = true) := by simp [hcase]
        rw [if_neg h1]
        by_cases hmem : it.iid ∈ es'.map (·.itemId)
        · rw [if_pos hmem, if_pos (by
            rw [List.map_cons]
            exact List.mem_cons_of_mem _ hmem)]
        · rw [if_neg hmem, if_neg (by
            rw [List.map_cons]
            intro hc
            rcases List.mem_cons.mp hc with hh1 | hh2
            · exact hcase hh1
            · exact hmem hh2)]
    rw [hcomp]
    simp [List.append_assoc]

/-- `cascadeStepU_fold` with the initial database given as a whole. -/
theorem cascadeStepU_fold' (u : String) (es : List UserRev) (d : DB) (s0 : List ℕ)
    (hnodup : (d.items.map (·.iid)).Nodup)
    (hids : (es.map (·.itemId)).Nodup)
    (hfresh : ∀ e ∈ es, e.itemId ∉ s0) :
    es.foldl (cascadeStepU u) (d, s0)
      = (⟨d.items.map (fun it =>
            if it.iid ∈ es.map (·.itemId) then pullDecItem u it else it), d.users⟩,
         s0 ++ es.map (·.itemId)) := by
  obtain ⟨items, users⟩ := d
  exact cascadeStepU_fold u es items users s0 hnodup hids hfresh

/-- The re-aggregation loop of user deletion: over duplicate-free item ids it
re-aggregates each referenced item exactly once. -/
theorem reaggItems_fold (ids : List ℕ) (items : List Item) (users : List User)
    (hnodup : (items.map (·.iid)).Nodup) (hids : ids.Nodup) :
    ids.foldl (fun d i => updateItemRatingRobust d i) ⟨items, users⟩
      = ⟨items.map (fun it => if it.iid ∈ ids then reaggItemDoc it else it), users⟩ := by
  induction ids generalizing items with
  | nil =>
    have hmapid : items.map (fun it =>
        if it.iid ∈ ([] : List ℕ) then reaggItemDoc it else it) = items := by
      conv_rhs => rw [← List.map_id items]
      exact List.map_congr_left (fun it _ => by simp)
    simp [hmapid]
  | cons n ns ih =>
    rw [List.nodup_cons] at hids
    rcases hg : items.find? (fun it => it.iid == n) with _ | it0
    · have hstep : updateItemRatingRobust ⟨items, users⟩ n = ⟨items, users⟩ :=
        updateItemRatingRobust_eval_none _ _ hg
      have hnone : ∀ it ∈ items, it.iid ≠ n := by
        rw [List.find?_eq_none] at hg
        intro it hit hc
        exact hg it hit (by simp [hc])
      simp only [List.foldl_cons, hstep]
      rw [ih items hnodup hids.2]
      have hmapeq : items.map (fun it => if it.iid ∈ ns then reaggItemDoc it else it)
          = items.map (fun it => if it.iid ∈ n :: ns then reaggItemDoc it else it) :=
        List.map_congr_left (fun it hit => by
          by_cases hmem : it.iid ∈ ns
          · rw [if_pos hmem, if_pos (List.mem_cons_of_mem _ hmem)]
          · rw [if_neg hmem, if_neg (fun hc => by
              rcases List.mem_cons.mp hc with h1 | h2
              · exact hnone it hit h1
              · exact hmem h2)])
      rw [hmapeq]
    · have hstep := updateItemRatingRobust_eval ⟨items, users⟩ n it0 hg
      have hmem0 := List.mem_of_find?_eq_some hg
      have hname0 : it0.iid = n := by
        have h := List.find?_some hg
        exact eq_of_beq h
      have hnd1 : ((updFirst (fun it => it.iid == n)
          (fun it => { it with
            rating := some (robustAvg (it0.reviews.map (·.rating))) })
          items).map (·.iid)).Nodup := by
        rw [map_updFirst (by intro x; rfl)]
        exact hnodup
      simp only [List.foldl_cons, hstep]
      rw [ih _ hnd1 hids.2]
      have hcomp : (updFirst (fun it => it.iid == n)
            (fun it => { it with
              rating := some (robustAvg (it0.reviews.map (·.rating))) })
            items).map (fun it => if it.iid ∈ ns then reaggItemDoc it else it)
          = items.map (fun it => if it.iid ∈ n :: ns then reaggItemDoc it else it) := by
        rw [updFirst_key_eq_map Item.iid n _ _ hnodup, List.map_map]
        refine List.map_congr_left (fun it hit => ?_)
        simp only [Function.comp]
        by_cases hcase : it.iid = n
        · have hueq : it = it0 :=
            List.inj_on_of_nodup_map hnodup hit hmem0 (by rw [hcase, hname0])
          have h1 : (it.iid == n) = true := by simp [hcase]
          have h2 : ({ it with
              rating := some (robustAvg (it0.reviews.map (·.rating))) }
                : Item).iid ∉ ns := by
            show it.iid ∉ ns
            rw [hcase]
            exact hids.1
          rw [if_pos h1, if_neg h2, if_pos (by rw [hcase]; exact List.mem_cons_self _ _)]
          rw [hueq]
          rfl
        · have h1 : ¬((it.iid == n) = true) := by simp [hcase]
          rw [if_neg h1]
          by_cases hmem : it.iid ∈ ns
          · rw [if_pos hmem, if_pos (List.mem_cons_of_mem _ hmem)]
          · rw [if_neg hmem, if_neg (fun hc => by
              rcases List.mem_cons.mp hc with hh1 | hh2
              · exact hcase hh1
              · exact hmem hh2)]
      rw [hcomp]

/-- DELETE `/api/users/[username]` preserves well-formedness and aggregate
consistency, on every control path. -/
theorem deleteUser_preserves (db : DB) (username : String) (hWF : WF db)
    (hCon : Consistent db) :
    WF (deleteUser db username).1 ∧ Consistent (deleteUser db username).1 := by
  rcases hgu : getUser db username with _ | user
  · have hstate : deleteUser db username = (db, .notFound) := by
      simp only [deleteUser, hgu]
    rw [hstate]
    exact ⟨hWF, hCon⟩
  · have huser := List.mem_of_find?_eq_some hgu
    have hun : user.username = username := by simpa using List.find?_some hgu
    subst hun
    have hids : (user.itemReviews.map (·.itemId)).Nodup := hWF.userPairUnique user huser
    have hfold := cascadeStepU_fold' user.username user.itemReviews db []
      hWF.itemsNodup hids (fun e _ hc => (List.not_mem_nil _) hc)
    have herase : db.users.eraseP (fun us => us.username == user.username)
        = db.users.filter (fun us => !(us.username == user.username)) :=
      eraseP_key_eq_filter User.username user.username db.users hWF.usersNodup
    have hany : db.users.any (fun us => us.username == user.username) = true :=
      List.any_eq_true.mpr ⟨user, huser, beq_self_eq_true _⟩
    have hnd1 : ((db.items.map (fun it =>
        if it.iid ∈ user.itemReviews.map (·.itemId)
        then pullDecItem user.username it else it)).map (·.iid)).Nodup := by
      rw [map_key_map (by
        intro it
        by_cases h : it.iid ∈ user.itemReviews.map (·.itemId) <;> simp [h, pullDecItem])]
      exact hWF.itemsNodup
    have hreagg := reaggItems_fold (user.itemReviews.map (·.itemId))
      (db.items.map (fun it =>
        if it.iid ∈ user.itemReviews.map (·.itemId)
        then pullDecItem user.username it else it))
      (db.users.filter (fun us => !(us.username == user.username)))
      hnd1 hids
    have hrun : deleteUser db user.username
        = (⟨(db.items.map (fun it =>
              if it.iid ∈ user.itemReviews.map (·.itemId)
              then pullDecItem user.username it else it)).map (fun it =>
              if it.iid ∈ user.itemReviews.map (·.itemId)
              then reaggItemDoc it else it),
            db.users.filter (fun us => !(us.username == user.username))⟩, Res.okRes) := by
      simp only [deleteUser, hgu, hfold, List.nil_append, herase, hany, if_true, hreagg]
    have hcomp : (db.items.map (fun it =>
          if it.iid ∈ user.itemReviews.map (·.itemId)
          then pullDecItem user.username it else it)).map (fun it =>
          if it.iid ∈ user.itemReviews.map (·.itemId)
          then reaggItemDoc it else it)
        = db.items.map (fun it =>
          if it.iid ∈ user.itemReviews.map (·.itemId)
          then reaggItemDoc (pullDecItem user.username it) else it) := by
      rw [List.map_map]
      refine List.map_congr_left (fun it hit => ?_)
      simp only [Function.comp]
      by_cases hmem : it.iid ∈ user.itemReviews.map (·.itemId)
      · simp [hmem, pullDecItem]
      · simp [hmem]
    rw [hrun]
    show WF ⟨(db.items.map (fun it =>
          if it.iid ∈ user.itemReviews.map (·.itemId)
          then pullDecItem user.username it else it)).map (fun it =>
          if it.iid ∈ user.itemReviews.map (·.itemId)
          then reaggItemDoc it else it),
        db.users.filter (fun us => !(us.username == user.username))⟩
      ∧ Consistent ⟨(db.items.map (fun it =>
          if it.iid ∈ user.itemReviews.map (·.itemId)
          then pullDecItem user.username it else it)).map (fun it =>
          if it.iid ∈ user.itemReviews.map (·.itemId)
          then reaggItemDoc it else it),
        db.users.filter (fun us => !(us.username == user.username))⟩
    rw [hcomp]
    have hiid_eq : ∀ it : Item, (if it.iid ∈ user.itemReviews.map (·.itemId)
        then reaggItemDoc (pullDecItem user.username it) else it).iid = it.iid := by
      intro it
      by_cases h : it.iid ∈ user.itemReviews.map (·.itemId) <;>
        simp [h, reaggItemDoc, pullDecItem]
    have hrev_sub : ∀ it : Item, ∀ r ∈ (if it.iid ∈ user.itemReviews.map (·.itemId)
        then reaggItemDoc (pullDecItem user.username it) else it).reviews,
        r ∈ it.reviews := by
      intro it r hr
      by_cases h : it.iid ∈ user.itemReviews.map (·.itemId)
      · rw [if_pos h] at hr
        exact List.mem_of_mem_filter hr
      · rw [if_neg h] at hr
        exact hr
    have hmemU : ∀ us' ∈ db.users.filter (fun us => !(us.username == user.username)),
        us' ∈ db.users ∧ us'.username ≠ user.username := by
      intro us' h
      refine ⟨List.mem_of_mem_filter h, ?_⟩
      have := (List.mem_filter.mp h).2
      simpa using this
    have hmirror : ∀ it ∈ db.items, it.iid ∈ user.itemReviews.map (·.itemId) →
        ∃ r ∈ it.reviews, r.username = user.username := by
      intro it hit hP
      obtain ⟨e, he, heid⟩ := List.mem_map.mp hP
      obtain ⟨it1, hit1, hii, r1, hr1m, hr1r, hr1n, _⟩ := hWF.mirrorBwd user huser e he
      have hit1eq : it1 = it :=
        List.inj_on_of_nodup_map hWF.itemsNodup hit1 hit (by rw [hii, heid])
      rw [hit1eq] at hr1m
      exact ⟨r1, hr1m, hr1n⟩
    refine ⟨⟨?_, ?_, ?_, ?_, ?_, ?_, ?_, ?_, ?_, ?_⟩, ?_, ?_⟩
    · show ((db.items.map (fun it => if it.iid ∈ user.itemReviews.map (·.itemId)
        then reaggItemDoc (pullDecItem user.username it) else it)).map (·.iid)).Nodup
      rw [map_key_map hiid_eq]
      exact hWF.itemsNodup
    · exact ((List.filter_sublist db.users).map _).nodup hWF.usersNodup
    · intro it' hit'
      obtain ⟨it, hit, rfl⟩ := List.mem_map.mp hit'
      by_cases hP : it.iid ∈ user.itemReviews.map (·.itemId)
      · rw [if_pos hP]
        show (((it.reviews.filter (fun r => !(r.username == user.username)))).map
          (·.rid)).Nodup
        exact nodup_map_filter _ _ (hWF.itemRidsNodup it hit)
      · rw [if_neg hP]
        exact hWF.itemRidsNodup it hit
    · intro us' hus'
      exact hWF.userRidsNodup us' (hmemU us' hus').1
    · intro it1' h1 it2' h2 r1 hr1 r2 hr2 hrid
      obtain ⟨it1, hm1, rfl⟩ := List.mem_map.mp h1
      obtain ⟨it2, hm2, rfl⟩ := List.mem_map.mp h2
      rw [hiid_eq it1, hiid_eq it2]
      exact hWF.ridsCross it1 hm1 it2 hm2 r1 (hrev_sub it1 r1 hr1) r2 (hrev_sub it2 r2 hr2)
        hrid
    · intro it' hit'
      obtain ⟨it, hit, rfl⟩ := List.mem_map.mp hit'
      by_cases hP : it.iid ∈ user.itemReviews.map (·.itemId)
      · rw [if_pos hP]
        show (((it.reviews.filter (fun r => !(r.username == user.username)))).map
          (·.username)).Nodup
        exact nodup_map_filter _ _ (hWF.pairUnique it hit)
      · rw [if_neg hP]
        exact hWF.pairUnique it hit
    · intro us' hus'
      exact hWF.userPairUnique us' (hmemU us' hus').1
    · intro it' hit' r hr
      obtain ⟨it, hit, rfl⟩ := List.mem_map.mp hit'
      have hrm := hrev_sub it r hr
      have hrne : r.username ≠ user.username := by
        by_cases hP : it.iid ∈ user.itemReviews.map (·.itemId)
        · rw [if_pos hP] at hr
          have := (List.mem_filter.mp hr).2
          simpa using this
        · intro hc
          obtain ⟨us1, hus1, husn1, e, he, her, hei, hea⟩ := hWF.mirrorFwd it hit r hrm
          have hus1eq : us1 = user :=
            List.inj_on_of_nodup_map hWF.usersNodup hus1 huser (by rw [husn1, hc])
          rw [hus1eq] at he
          exact hP (by rw [← hei]; exact List.mem_map_of_mem _ he)
      obtain ⟨us1, hus1, husn1, e, he, her, hei, hea⟩ := hWF.mirrorFwd it hit r hrm
      have hus1ne : us1.username ≠ user.username := by rw [husn1]; exact hrne
      refine ⟨us1, List.mem_filter.mpr ⟨hus1, by simpa using hus1ne⟩, husn1, e, he, her,
        ?_, hea⟩
      rw [hiid_eq it]
      exact hei
    · intro us' hus' e he
      obtain ⟨hm, hne⟩ := hmemU us' hus'
      obtain ⟨it1, hit1, hii, r1, hr1m, hr1r, hr1n, hr1a⟩ := hWF.mirrorBwd us' hm e he
      have hr1ne : r1.username ≠ user.username := by rw [hr1n]; exact hne
      refine ⟨if it1.iid ∈ user.itemReviews.map (·.itemId)
          then reaggItemDoc (pullDecItem user.username it1) else it1,
        List.mem_map_of_mem _ hit1, ?_, r1, ?_, hr1r, hr1n, hr1a⟩
      · rw [hiid_eq it1]
        exact hii
      · by_cases hP : it1.iid ∈ user.itemReviews.map (·.itemId)
        · rw [if_pos hP]
          show r1 ∈ it1.reviews.filter (fun r => !(r.username == user.username))
          exact List.mem_filter.mpr ⟨hr1m, by simpa using hr1ne⟩
        · rw [if_neg hP]
          exact hr1m
    · intro it' hit' r hr
      obtain ⟨it, hit, rfl⟩ := List.mem_map.mp hit'
      exact hWF.revFields it hit r (hrev_sub it r hr)
    · intro it' hit'
      obtain ⟨it, hit, rfl⟩ := List.mem_map.mp hit'
      by_cases hP : it.iid ∈ user.itemReviews.map (·.itemId)
      · rw [if_pos hP]
        obtain ⟨r, hrm, hrn⟩ := hmirror it hit hP
        have hlen := length_filter_not_key (hWF.pairUnique it hit) hrm hrn
        have hcnt := (hCon.1 it hit).2
        constructor
        · rfl
        · show it.reviewCount - 1
            = ((it.reviews.filter (fun r => !(r.username == user.username))).length : ℤ)
          omega
      · rw [if_neg hP]
        exact hCon.1 it hit
    · intro us' hus'
      exact hCon.2 us' (hmemU us' hus').1

/-- Creating an item with a fresh identifier (rating 0, count 0, no reviews)
preserves well-formedness and aggregate consistency.  The item-creation route
is not part of the provided review-ledger sources; its initial values are the
spec's (`rating` 0, `reviewCount` 0, empty embedded list), matching the user
analogue in `app/api/users/route.ts`. -/
theorem addItem_preserves (db : DB) (iid : ℕ) (nm : String) (hWF : WF db)
    (hCon : Consistent db) (hfresh : getItem db iid = none) :
    WF ⟨db.items ++ [⟨iid, nm, some 0, 0, []⟩], db.users⟩ ∧
    Consistent ⟨db.items ++ [⟨iid, nm, some 0, 0, []⟩], db.users⟩ := by
  have hne : ∀ it ∈ db.items, it.iid ≠ iid := by
    rw [getItem, List.find?_eq_none] at hfresh
    intro it hit hc
    exact hfresh it hit (by simp [hc])
  have hmemI : ∀ it' ∈ db.items ++ [(⟨iid, nm, some 0, 0, []⟩ : Item)],
      it' ∈ db.items ∨ it' = (⟨iid, nm, some 0, 0, []⟩ : Item) := by
    intro it' h
    rcases List.mem_append.mp h with h1 | h2
    · exact Or.inl h1
    · exact Or.inr (List.mem_singleton.mp h2)
  refine ⟨⟨?_, hWF.usersNodup, ?_, hWF.userRidsNodup, ?_, ?_, hWF.userPairUnique,
    ?_, ?_, ?_⟩, ?_, hCon.2⟩
  · exact nodup_map_append_single _ hWF.itemsNodup (fun y hy => hne y hy)
  · intro it' hit'
    rcases hmemI it' hit' with h | rfl
    · exact hWF.itemRidsNodup it' h
    · exact List.nodup_nil
  · intro it1 h1 it2 h2 r1 hr1 r2 hr2 hrid
    rcases hmemI it1 h1 with hm1 | rfl
    · rcases hmemI it2 h2 with hm2 | rfl
      · exact hWF.ridsCross it1 hm1 it2 hm2 r1 hr1 r2 hr2 hrid
      · exact absurd hr2 (List.not_mem_nil r2)
    · exact absurd hr1 (List.not_mem_nil r1)
  · intro it' hit'
    rcases hmemI it' hit' with h | rfl
    · exact hWF.pairUnique it' h
    · exact List.nodup_nil
  · intro it' hit' r hr
    rcases hmemI it' hit' with h | rfl
    · obtain ⟨us, hus, husn, e, he, her, hei, hea⟩ := hWF.mirrorFwd it' h r hr
      exact ⟨us, hus, husn, e, he, her, hei, hea⟩
    · exact absurd hr (List.not_mem_nil r)
  · intro us hus e he
    obtain ⟨it1, hit1, hii, r1, hr1m, hr1r, hr1n, hr1a⟩ := hWF.mirrorBwd us hus e he
    exact ⟨it1, List.mem_append_left _ hit1, hii, r1, hr1m, hr1r, hr1n, hr1a⟩
  · intro it' hit' r hr
    rcases hmemI it' hit' with h | rfl
    · exact hWF.revFields it' h r hr
    · exact absurd hr (List.not_mem_nil r)
  · intro it' hit'
    rcases hmemI it' hit' with h | rfl
    · exact hCon.1 it' h
    · exact ⟨rfl, rfl⟩

/-- Creating a user with a fresh username (average 0, count 0, empty embedded
list, as POST `/api/users` initialises) preserves well-formedness and
aggregate consistency. -/
theorem addUser_preserves (db : DB) (u : String) (hWF : WF db) (hCon : Consistent db)
    (hfresh : getUser db u = none) :
    WF ⟨db.items, db.users ++ [⟨u, some 0, 0, []⟩]⟩ ∧
    Consistent ⟨db.items, db.users ++ [⟨u, some 0, 0, []⟩]⟩ := by
  have hne : ∀ us ∈ db.users, us.username ≠ u := by
    rw [getUser, List.find?_eq_none] at hfresh
    intro us hus hc
    exact hfresh us hus (by simp [hc])
  have hmemU : ∀ us' ∈ db.users ++ [(⟨u, some 0, 0, []⟩ : User)],
      us' ∈ db.users ∨ us' = (⟨u, some 0, 0, []⟩ : User) := by
    intro us' h
    rcases List.mem_append.mp h with h1 | h2
    · exact Or.inl h1
    · exact Or.inr (List.mem_singleton.mp h2)
  refine ⟨⟨hWF.itemsNodup, ?_, hWF.itemRidsNodup, ?_, hWF.ridsCross, hWF.pairUnique,
    ?_, ?_, ?_, hWF.revFields⟩, hCon.1, ?_⟩
  · exact nodup_map_append_single _ hWF.usersNodup (fun y hy => hne y hy)
  · intro us' hus'
    rcases hmemU us' hus' with h | rfl
    · exact hWF.userRidsNodup us' h
    · exact List.nodup_nil
  · intro us' hus'
    rcases hmemU us' hus' with h | rfl
    · exact hWF.userPairUnique us' h
    · exact List.nodup_nil
  · intro it hit r hr
    obtain ⟨us, hus, husn, e, he, her, hei, hea⟩ := hWF.mirrorFwd it hit r hr
    exact ⟨us, List.mem_append_left _ hus, husn, e, he, her, hei, hea⟩
  · intro us' hus' e he
    rcases hmemU us' hus' with h | rfl
    · exact hWF.mirrorBwd us' h e he
    · exact absurd he (List.not_mem_nil e)
  · intro us' hus'
    rcases hmemU us' hus' with h | rfl
    · exact hCon.2 us' h
    · exact ⟨rfl, rfl⟩

/-- The states reachable by the review-ledger operations, starting from the
empty store: item and user creation (with the driver's fresh-ObjectId and the
route's duplicate-username guarantees as hypotheses), review submission (with
a freshly minted review identifier), review update, review deletion, item
deletion and user deletion, each through the corresponding route handler. -/
inductive Reachable : DB → Prop where
  | empty : Reachable ⟨[], []⟩
  | addItem (db : DB) (iid : ℕ) (nm : String) : Reachable db →
      getItem db iid = none →
      Reachable ⟨db.items ++ [⟨iid, nm, some 0, 0, []⟩], db.users⟩
  | addUser (db : DB) (u : String) : Reachable db →
      u ≠ "" → getUser db u = none →
      Reachable ⟨db.items, db.users ++ [⟨u, some 0, 0, []⟩]⟩
  | submit (db : DB) (itemId : ℕ) (u : String) (q : ℚ) (c : Option String)
      (freshId : ℕ) : Reachable db → ridUsed db freshId = false →
      Reachable (postReview db itemId u q c freshId).1
  | update (db : DB) (id : ℕ) (r? : Option ℚ) (c? : Option String) : Reachable db →
      Reachable (putReview db id r? c?).1
  | delReview (db : DB) (id : ℕ) : Reachable db →
      Reachable (deleteReview db id).1
  | delItem (db : DB) (id : ℕ) : Reachable db →
      Reachable (deleteItem db id).1
  | delUser (db : DB) (u : String) : Reachable db →
      Reachable (deleteUser db u).1

/-- The global invariant: every reachable state is well formed and
aggregate-consistent. -/
theorem reach_inv {db : DB} (h : Reachable db) : WF db ∧ Consistent db := by
  induction h with
  | empty =>
    refine ⟨⟨?_, ?_, ?_, ?_, ?_, ?_, ?_, ?_, ?_, ?_⟩, ?_, ?_⟩ <;>
      first
        | exact List.nodup_nil
        | (intro x hx; exact absurd hx (List.not_mem_nil x))
  | addItem db iid nm _ hfresh ih =>
    exact addItem_preserves db iid nm ih.1 ih.2 hfresh
  | addUser db u _ _ hfresh ih =>
    exact addUser_preserves db u ih.1 ih.2 hfresh
  | submit db itemId u q c freshId _ hfresh ih =>
    exact postReview_preserves db itemId u q c freshId ih.1 ih.2 hfresh
  | update db id r? c? _ ih =>
    exact putReview_preserves db id r? c? ih.1 ih.2
  | delReview db id _ ih =>
    exact deleteReview_preserves db id ih.1 ih.2
  | delItem db id _ ih =>
    exact deleteItem_preserves db id ih.1 ih.2
  | delUser db u _ ih =>
    exact deleteUser_preserves db u ih.1 ih.2

/-- C2: after any failure-free sequence of the ledger operations (any
`Reachable` state is produced by such a sequence, each step being one route
invocation), at rest every item's stored `rating` is the robust aggregate —
one-decimal-rounded mean — of its embedded reviews, every user's stored
`averageRating` is the aggregate of their embedded review-by-user list, and
each side's `reviewCount` equals the length of that side's embedded list. -/
theorem c2_rest_consistency (db : DB) (h : Reachable db) :
    (∀ it ∈ db.items, it.rating = some (robustAvg (it.reviews.map (·.rating))) ∧
      it.reviewCount = it.reviews.length) ∧
    (∀ us ∈ db.users, us.averageRating = some (robustAvg (us.itemReviews.map (·.rating))) ∧
      us.reviewCount = us.itemReviews.length) :=
  (reach_inv h).2

/-- A small concrete reachable state: one item, one user, one submitted
review (rating 8, identifier 1). -/
def demoDb : DB :=
  (postReview ⟨[⟨1, "Lamp", some 0, 0, []⟩], [⟨"alice", some 0, 0, []⟩]⟩ 1 "alice" 8
    none 1).1

/-- `demoDb` is reachable: create the item, create the user, submit. -/
theorem demoDb_reachable : Reachable demoDb :=
  Reachable.submit ⟨[⟨1, "Lamp", some 0, 0, []⟩], [⟨"alice", some 0, 0, []⟩]⟩ 1 "alice" 8
    none 1
    (Reachable.addUser ⟨[⟨1, "Lamp", some 0, 0, []⟩], []⟩ "alice"
      (Reachable.addItem ⟨[], []⟩ 1 "Lamp" Reachable.empty (by decide)) (by decide)
      (by decide))
    (by decide)

/-- Witness for C2 at the concrete reachable state `demoDb`. -/
theorem c2_witness :
    (∀ it ∈ demoDb.items, it.rating = some (robustAvg (it.reviews.map (·.rating))) ∧
      it.reviewCount = it.reviews.length) ∧
    (∀ us ∈ demoDb.users,
      us.averageRating = some (robustAvg (us.itemReviews.map (·.rating))) ∧
      us.reviewCount = us.itemReviews.length) :=
  c2_rest_consistency demoDb demoDb_reachable

/-- C1: in every reachable state, submitting a valid review for an item the
user already reviewed replaces the prior review — a fresh identifier is
minted (never the old one, by the ObjectId-freshness hypothesis), the old
entry disappears from both embedded lists (no entry with its identifier
survives on either side), exactly one entry for the (user, item) pair remains
on each side (the new one), and both `reviewCount` fields are unchanged from
before the second submission. -/
theorem c1_upsert_replacement (db : DB) (hdb : Reachable db)
    (itemId freshId : ℕ) (username : String) (rating : ℚ) (comment : Option String)
    (item : Item) (hit : getItem db itemId = some item)
    (old : ItemRev) (hold : old ∈ item.reviews) (holdu : old.username = username)
    (hq1 : 1 ≤ rating) (hq10 : rating ≤ 10)
    (hfresh : ridUsed db freshId = false) :
    (postReview db itemId username rating comment freshId).2 = Res.created ∧
    freshId ≠ old.rid ∧
    (∃ item', getItem (postReview db itemId username rating comment freshId).1 itemId
        = some item' ∧
      item'.reviews.filter (fun r => r.username == username)
        = [⟨freshId, username, RVal.num rating, comment.getD ""⟩] ∧
      (∀ r ∈ item'.reviews, r.rid ≠ old.rid) ∧
      item'.reviewCount = item.reviewCount) ∧
    (∃ user user', getUser db username = some user ∧
      getUser (postReview db itemId username rating comment freshId).1 username
        = some user' ∧
      user'.itemReviews.filter (fun e => e.itemId == itemId)
        = [⟨freshId, itemId, item.name, RVal.num rating, comment.getD ""⟩] ∧
      (∀ e ∈ user'.itemReviews, e.rid ≠ old.rid) ∧
      user'.reviewCount = user.reviewCount) := by
  obtain ⟨hWF, _hCon⟩ := reach_inv hdb
  have hitem : item ∈ db.items := List.mem_of_find?_eq_some hit
  have hiid : item.iid = itemId := by simpa using List.find?_some hit
  have husne : username ≠ "" := by
    rw [← holdu]
    exact (hWF.revFields item hitem old hold).1
  have hv1 : (username == "" || rating == 0) = false := by
    have h1 : (username == "") = false := by simp [husne]
    have h2 : (rating == 0) = false := by
      have hne0 : rating ≠ 0 := by
        intro hc
        rw [hc] at hq1
        norm_num at hq1
      simp [hne0]
    rw [h1, h2]
    rfl
  have hv2 : (qltB rating 1 || qltB 10 rating) = false := by
    have h1 : qltB rating 1 = false := by
      rw [qltB_eq_decide]
      exact decide_eq_false (not_lt.mpr hq1)
    have h2 : qltB 10 rating = false := by
      rw [qltB_eq_decide]
      exact decide_eq_false (not_lt.mpr hq10)
    rw [h1, h2]
    rfl
  obtain ⟨us0, hus0, husn0, e0, he0, he0rid, he0iid, he0rat⟩ :=
    hWF.mirrorFwd item hitem old hold
  have hgu : getUser db username = some us0 :=
    find?_key_of_mem' hWF.usersNodup hus0 (husn0.trans holdu)
  have hfex : item.reviews.find? (fun r => r.username == username) = some old :=
    find?_key_of_mem' (hWF.pairUnique item hitem) hold holdu
  have hne_fresh : freshId ≠ old.rid := by
    intro hc
    exact (ridUsed_false_elim db freshId hfresh).1 item hitem old hold hc.symm
  have hshape := postReview_shape_replace db itemId username rating comment freshId hWF
    hv1 hv2 item hit us0 hgu old hfex
  rw [hshape]
  refine ⟨rfl, hne_fresh,
    ⟨reaggedItem item
      (item.reviews.filter (fun r => !(r.rid == old.rid))
        ++ [⟨freshId, username, RVal.num rating, comment.getD ""⟩]) item.reviewCount,
      ?_, ?_, ?_, rfl⟩,
    ⟨us0, reaggedUser us0
      (us0.itemReviews.filter (fun e => !(e.rid == old.rid))
        ++ [⟨freshId, itemId, item.name, RVal.num rating, comment.getD ""⟩])
      us0.reviewCount, hgu, ?_, ?_, ?_, rfl⟩⟩
  · show (surgKey Item.iid db.items itemId (reaggedItem item
      (item.reviews.filter (fun r => !(r.rid == old.rid))
        ++ [⟨freshId, username, RVal.num rating, comment.getD ""⟩])
      item.reviewCount)).find? (fun it => it.iid == itemId) = _
    exact find?_key_surgKey_self hWF.itemsNodup hitem hiid hiid
  · show ((item.reviews.filter (fun r => !(r.rid == old.rid))
      ++ [(⟨freshId, username, RVal.num rating, comment.getD ""⟩ : ItemRev)]).filter
        (fun r => r.username == username))
      = [(⟨freshId, username, RVal.num rating, comment.getD ""⟩ : ItemRev)]
    rw [List.filter_append]
    have hA : (item.reviews.filter (fun r => !(r.rid == old.rid))).filter
        (fun r => r.username == username) = [] := by
      rw [List.filter_eq_nil_iff]
      intro r hr hc
      have hrm := List.mem_of_mem_filter hr
      have hrne : r.rid ≠ old.rid := by
        have := (List.mem_filter.mp hr).2
        simpa using this
      have hreq : r = old := List.inj_on_of_nodup_map (hWF.pairUnique item hitem)
        hrm hold (by rw [eq_of_beq hc, holdu])
      exact hrne (by rw [hreq])
    have hB : ([(⟨freshId, username, RVal.num rating, comment.getD ""⟩ : ItemRev)]).filter
        (fun r => r.username == username)
        = [⟨freshId, username, RVal.num rating, comment.getD ""⟩] := by
      simp
    rw [hA, hB, List.nil_append]
  · intro r hr
    rcases List.mem_append.mp hr with hrm | hrs
    · have := (List.mem_filter.mp hrm).2
      simpa using this
    · rw [List.mem_singleton.mp hrs]
      exact hne_fresh
  · show (surgKey User.username db.users username (reaggedUser us0
      (us0.itemReviews.filter (fun e => !(e.rid == old.rid))
        ++ [⟨freshId, itemId, item.name, RVal.num rating, comment.getD ""⟩])
      us0.reviewCount)).find? (fun us => us.username == username) = _
    exact find?_key_surgKey_self hWF.usersNodup hus0 (husn0.trans holdu)
      (husn0.trans holdu)
  · show ((us0.itemReviews.filter (fun e => !(e.rid == old.rid))
      ++ [(⟨freshId, itemId, item.name, RVal.num rating, comment.getD ""⟩ : UserRev)]).filter
        (fun e => e.itemId == itemId))
      = [(⟨freshId, itemId, item.name, RVal.num rating, comment.getD ""⟩ : UserRev)]
    rw [List.filter_append]
    have hA : (us0.itemReviews.filter (fun e => !(e.rid == old.rid))).filter
        (fun e => e.itemId == itemId) = [] := by
      rw [List.filter_eq_nil_iff]
      intro e he hc
      have hem := List.mem_of_mem_filter he
      have hene : e.rid ≠ old.rid := by
        have := (List.mem_filter.mp he).2
        simpa using this
      obtain ⟨it1, hit1, hii, r1, hr1m, hr1r, hr1n, _⟩ := hWF.mirrorBwd us0 hus0 e hem
      have hit1eq : it1 = item := List.inj_on_of_nodup_map hWF.itemsNodup hit1 hitem
        (by rw [hii, eq_of_beq hc, ← hiid])
      rw [hit1eq] at hr1m
      have hr1old : r1 = old := List.inj_on_of_nodup_map (hWF.pairUnique item hitem)
        hr1m hold (by rw [hr1n, husn0, holdu])
      exact hene (by rw [← hr1r, hr1old])
    have hB : ([(⟨freshId, itemId, item.name, RVal.num rating, comment.getD ""⟩
        : UserRev)]).filter (fun e => e.itemId == itemId)
        = [⟨freshId, itemId, item.name, RVal.num rating, comment.getD ""⟩] := by
      simp
    rw [hA, hB, List.nil_append]
  · intro e he
    rcases List.mem_append.mp he with hem | hes
    · have := (List.mem_filter.mp hem).2
      simpa using this
    · rw [List.mem_singleton.mp hes]
      exact hne_fresh

/-- Witness for C1 at `demoDb`: alice resubmits a review for the lamp with
rating 9 and fresh identifier 2; the old entry (identifier 1) disappears from
both sides, one entry per side remains, counts are unchanged. -/
theorem c1_witness :
    (postReview demoDb 1 "alice" 9 none 2).2 = Res.created ∧
    2 ≠ 1 ∧
    (∃ item', getItem (postReview demoDb 1 "alice" 9 none 2).1 1 = some item' ∧
      item'.reviews.filter (fun r => r.username == "alice")
        = [⟨2, "alice", RVal.num 9, ""⟩] ∧
      (∀ r ∈ item'.reviews, r.rid ≠ 1) ∧
      item'.reviewCount = 1) ∧
    (∃ user user', getUser demoDb "alice" = some user ∧
      getUser (postReview demoDb 1 "alice" 9 none 2).1 "alice" = some user' ∧
      user'.itemReviews.filter (fun e => e.itemId == 1)
        = [⟨2, 1, "Lamp", RVal.num 9, ""⟩] ∧
      (∀ e ∈ user'.itemReviews, e.rid ≠ 1) ∧
      user'.reviewCount = user.reviewCount) :=
  c1_upsert_replacement demoDb demoDb_reachable 1 2 "alice" 9 none
    ⟨1, "Lamp", some 8, 1, [⟨1, "alice", RVal.num 8, ""⟩]⟩ (by decide)
    ⟨1, "alice", RVal.num 8, ""⟩ (by decide) rfl (by norm_num) (by norm_num) (by decide)

/-- C4: for every valid submission (existing item, existing user, integer
rating in `[1,10]`), POST succeeds and an embedded review copy with the
minted identifier, the rating and the comment (defaulting to the empty
string) exists on both the item side and the user side afterwards — whether
the submission is first-time or replaces a prior review by the same user —
and on a first-time review (no prior review by this user on this item) both
`reviewCount` fields are incremented by 1. -/
theorem c4_submit_spec (db : DB) (itemId : ℕ) (username : String) (rating : ℚ)
    (comment : Option String) (freshId : ℕ)
    (hWF : WF db) (item : Item) (hitem : getItem db itemId = some item)
    (user : User) (huser : getUser db username = some user)
    (hu : username ≠ "") (hq1 : 1 ≤ rating) (hq2 : rating ≤ 10) (_hint : rating.den = 1) :
    (postReview db itemId username rating comment freshId).2 = Res.created ∧
    (∃ item', getItem (postReview db itemId username rating comment freshId).1 itemId
        = some item' ∧
      (⟨freshId, username, RVal.num rating, comment.getD ""⟩ : ItemRev) ∈ item'.reviews ∧
      ∃ user', getUser (postReview db itemId username rating comment freshId).1 username
        = some user' ∧
      (⟨freshId, itemId, item.name, RVal.num rating, comment.getD ""⟩ : UserRev)
        ∈ user'.itemReviews ∧
      ((∀ r ∈ item.reviews, r.username ≠ username) →
        item'.reviewCount = item.reviewCount + 1 ∧
        user'.reviewCount = user.reviewCount + 1)) := by
  have hitemm : item ∈ db.items := List.mem_of_find?_eq_some hitem
  have hiid : item.iid = itemId := by simpa using List.find?_some hitem
  have huserm : user ∈ db.users := List.mem_of_find?_eq_some huser
  have hun : user.username = username := by simpa using List.find?_some huser
  have hv1 : (username == "" || rating == 0) = false := by
    have h1 : (username == "") = false := by simp [hu]
    have h2 : (rating == 0) = false := by
      have hne0 : rating ≠ 0 := by
        intro hc
        rw [hc] at hq1
        norm_num at hq1
      simp [hne0]
    rw [h1, h2]
    rfl
  have hv2 : (qltB rating 1 || qltB 10 rating) = false := by
    have h1 : qltB rating 1 = false := by
      rw [qltB_eq_decide]
      exact decide_eq_false (not_lt.mpr hq1)
    have h2 : qltB 10 rating = false := by
      rw [qltB_eq_decide]
      exact decide_eq_false (not_lt.mpr hq2)
    rw [h1, h2]
    rfl
  by_cases hprior : item.reviews.any (fun r => r.username == username) = true
  · rcases hfx : item.reviews.find? (fun r => r.username == username) with _ | exRev
    · exfalso
      obtain ⟨r, hr, hb⟩ := List.any_eq_true.mp hprior
      rw [List.find?_eq_none] at hfx
      exact hfx r hr hb
    · have hexrev : exRev ∈ item.reviews := List.mem_of_find?_eq_some hfx
      have hexu : exRev.username = username := by simpa using List.find?_some hfx
      have hshape := postReview_shape_replace db itemId username rating comment freshId
        hWF hv1 hv2 item hitem user huser exRev hfx
      rw [hshape]
      refine ⟨rfl,
        reaggedItem item
          (item.reviews.filter (fun r => !(r.rid == exRev.rid))
            ++ [⟨freshId, username, RVal.num rating, comment.getD ""⟩])
          item.reviewCount, ?_, ?_,
        reaggedUser user
          (user.itemReviews.filter (fun e => !(e.rid == exRev.rid))
            ++ [⟨freshId, itemId, item.name, RVal.num rating, comment.getD ""⟩])
          user.reviewCount, ?_, ?_, ?_⟩
      · show (surgKey Item.iid db.items itemId (reaggedItem item
          (item.reviews.filter (fun r => !(r.rid == exRev.rid))
            ++ [⟨freshId, username, RVal.num rating, comment.getD ""⟩])
          item.reviewCount)).find? (fun it => it.iid == itemId) = _
        exact find?_key_surgKey_self hWF.itemsNodup hitemm hiid hiid
      · exact List.mem_append_right _ (List.mem_singleton_self _)
      · show (surgKey User.username db.users username (reaggedUser user
          (user.itemReviews.filter (fun e => !(e.rid == exRev.rid))
            ++ [⟨freshId, itemId, item.name, RVal.num rating, comment.getD ""⟩])
          user.reviewCount)).find? (fun us => us.username == username) = _
        exact find?_key_surgKey_self hWF.usersNodup huserm hun hun
      · exact List.mem_append_right _ (List.mem_singleton_self _)
      · intro hno
        exact absurd hexu (hno exRev hexrev)
  · have hnp : item.reviews.any (fun r => r.username == username) = false :=
      Bool.eq_false_iff.mpr hprior
    have hshape := postReview_shape_fresh db itemId username rating comment freshId
      hWF hv1 hv2 item hitem user huser hnp
    rw [hshape]
    refine ⟨rfl,
      reaggedItem item
        (item.reviews ++ [⟨freshId, username, RVal.num rating, comment.getD ""⟩])
        (item.reviewCount + 1), ?_, ?_,
      reaggedUser user
        (user.itemReviews ++ [⟨freshId, itemId, item.name, RVal.num rating, comment.getD ""⟩])
        (user.reviewCount + 1), ?_, ?_, fun _ => ⟨rfl, rfl⟩⟩
    · show (surgKey Item.iid db.items itemId (reaggedItem item
        (item.reviews ++ [⟨freshId, username, RVal.num rating, comment.getD ""⟩])
        (item.reviewCount + 1))).find? (fun it => it.iid == itemId) = _
      exact find?_key_surgKey_self hWF.itemsNodup hitemm hiid hiid
    · exact List.mem_append_right _ (List.mem_singleton_self _)
    · show (surgKey User.username db.users username (reaggedUser user
        (user.itemReviews
          ++ [⟨freshId, itemId, item.name, RVal.num rating, comment.getD ""⟩])
        (user.reviewCount + 1))).find? (fun us => us.username == username) = _
      exact find?_key_surgKey_self hWF.usersNodup huserm hun hun
    · exact List.mem_append_right _ (List.mem_singleton_self _)

/-- Witness for C4 at `freshDb` (the spec's first scenario: rating 8,
comment "great"): the submission succeeds, the mirrored copies exist on both
sides, and — it being a first-time review — both counts go from 0 to 1. -/
theorem c4_witness :
    (postReview freshDb 1 "alice" 8 (some "great") 100).2 = Res.created ∧
    (∃ item', getItem (postReview freshDb 1 "alice" 8 (some "great") 100).1 1
        = some item' ∧
      (⟨100, "alice", RVal.num 8, "great"⟩ : ItemRev) ∈ item'.reviews ∧
      ∃ user', getUser (postReview freshDb 1 "alice" 8 (some "great") 100).1 "alice"
        = some user' ∧
      (⟨100, 1, "Lamp", RVal.num 8, "great"⟩ : UserRev) ∈ user'.itemReviews ∧
      ((∀ r ∈ (⟨1, "Lamp", some 0, 0, []⟩ : Item).reviews, r.username ≠ "alice") →
        item'.reviewCount = (⟨1, "Lamp", some 0, 0, []⟩ : Item).reviewCount + 1 ∧
        user'.reviewCount = (⟨"alice", some 0, 0, []⟩ : User).reviewCount + 1)) :=
  c4_submit_spec freshDb 1 "alice" 8 (some "great") 100
    (by refine ⟨?_, ?_, ?_, ?_, ?_, ?_, ?_, ?_, ?_, ?_⟩ <;> decide)
    ⟨1, "Lamp", some 0, 0, []⟩ (by decide)
    ⟨"alice", some 0, 0, []⟩ (by decide)
    (by decide) (by norm_num) (by norm_num) rfl
